import Mathlib

/-!
# bedrocktool: replay container, chunk handlers and world state

A shallow embedding of `utils/replay.go`, `handlers/worlds/chunk.go` and
`handlers/worlds/worldstate/worldstate.go`, followed by theorems about them.

Conventions of the embedding.

* A byte is a `Fin 256`; multi-byte integers are little endian.
* An open file is the list of its bytes from the current offset to the end of
  the file, so the offset equals the file size exactly when that list is empty.
* Calls to third-party libraries (packet decoding, chunk decoding) are
  parameters of the definitions.
* Go maps are association lists with distinct keys (`AList`); a `range` loop
  over a map visits the entries in list order.
-/

namespace Bedrocktool

/-! ## Bytes and fixed-width integers -/

/-- One byte of a file or of a payload. -/
abbrev Byte := Fin 256

/-- Little-endian value of a byte string (what `binary.Read` with
`binary.LittleEndian` computes for an unsigned integer). -/
def getLE : List Byte → Nat
  | [] => 0
  | b :: bs => b.val + 256 * getLE bs

/-- The `k` little-endian bytes of `n` (what `binary.Write` with
`binary.LittleEndian` emits for a `k`-byte integer). -/
def putLE : Nat → Nat → List Byte
  | 0, _ => []
  | k + 1, n => ⟨n % 256, Nat.mod_lt _ (by decide)⟩ :: putLE k (n / 256)

/-- Two's complement reading of a `w`-bit pattern. -/
def toSigned (w : Nat) (n : Nat) : Int :=
  if n % 2 ^ w < 2 ^ (w - 1) then (n % 2 ^ w : Nat) else (n % 2 ^ w : Nat) - (2 ^ w : Nat)

/-- The `w`-bit pattern of a signed integer. -/
def ofSigned (w : Nat) (z : Int) : Nat :=
  (z % (2 ^ w : Nat)).toNat

/-! ## Replay container (`utils/replay.go`) -/

/-- The Go value `replayMagic = []byte("BTCP")`. -/
def replayMagic : List Byte := [0x42, 0x54, 0x43, 0x50]

/-- The Go constant `currentReplayVersion`. -/
def currentReplayVersion : Nat := 2

/-- The bytes `WriteReplayHeader` writes: the magic, then the `replayHeader`
struct (one `int32`, little endian). -/
def WriteReplayHeader : List Byte :=
  replayMagic ++ putLE 4 (ofSigned 32 currentReplayVersion)

/-- The value of `timeReceived`: either the wall clock read at the top of loop
iteration `i` (`time.Now()`), or `time.UnixMilli(ms)`. -/
inductive Time where
  | now (i : Nat)
  | unixMilli (ms : Int)
deriving DecidableEq, Repr

/-- The local variables of one loop iteration once the end sentinel has been
accepted: `payload`, `toServer`, `timeReceived`. -/
structure Frame where
  payload : List Byte
  toServer : Bool
  timeReceived : Time
deriving DecidableEq, Repr

/-- A captured packet as the writer sees it: payload, direction and the
millisecond timestamp. -/
structure Capture where
  payload : List Byte
  toServer : Bool
  timeMs : Int
deriving DecidableEq, Repr

/-- Modelled from the spec: the header the per-packet write path, which is not
among the source files, puts before a payload: the start sentinel 0xAAAAAAAA,
the 4-byte payload length, the 1-byte direction flag and, from version 2 on,
the 8-byte millisecond timestamp, all little endian. -/
def frameHeader (ver : Int) (c : Capture) : List Byte :=
  putLE 4 0xAAAAAAAA ++ (putLE 4 c.payload.length ++ ((if c.toServer then 1 else 0) ::
    (if ver ≥ 2 then putLE 8 (ofSigned 64 c.timeMs) else [])))

/-- Modelled from the spec: a frame up to the end of its payload. -/
def frameStart (ver : Int) (c : Capture) : List Byte :=
  frameHeader ver c ++ c.payload

/-- Modelled from the spec: a whole frame, the start of the frame followed by
the end sentinel 0xBBBBBBBB. -/
def writeFrame (ver : Int) (c : Capture) : List Byte :=
  frameStart ver c ++ putLE 4 0xBBBBBBBB

/-- Modelled from the spec: the frames of a capture, one after the other. -/
def writeFrames (ver : Int) : List Capture → List Byte
  | [] => []
  | c :: cs => writeFrame ver c ++ writeFrames ver cs

/-- Modelled from the spec: a replay file of format version `ver` with the
frame bytes `body`. From version 2 on the file starts with the magic and the
version as a little-endian `int32`; a version 1 file has no header. -/
def replayFile (ver : Int) (body : List Byte) : List Byte :=
  if ver ≥ 2 then replayMagic ++ (putLE 4 (ofSigned 32 ver) ++ body) else body

/-- A capture the frame layout can hold: the payload length fits the 4-byte
field and the timestamp the 8-byte field. -/
def Capture.fits (c : Capture) : Prop :=
  c.payload.length < 2 ^ 32 ∧ -2 ^ 63 ≤ c.timeMs ∧ c.timeMs < 2 ^ 63

instance (c : Capture) : Decidable c.fits := by
  unfold Capture.fits; infer_instance

/-- The model of `binary.Read(f, binary.LittleEndian, &x)` for an `n`-byte `x`:
`io.ReadFull` consumes up to `n` bytes; `x` is assigned only when all `n`
bytes were there. Returns the bytes when complete, and the rest of the file. -/
def binaryRead (n : Nat) (f : List Byte) : Option (List Byte) × List Byte :=
  if n ≤ f.length then (some (f.take n), f.drop n) else (none, [])

/-- The Go constant `maxRW` of `internal/poll`: the most bytes one `Read` call
on a file asks the system for, 1 GiB. -/
def maxRW : Nat := 2 ^ 30

/-- The result of `f.Read(payload)` for a buffer of `len` bytes on a regular
file: a zero-length read returns `(0, nil)`; at end of file the read returns
`(0, io.EOF)`; otherwise it returns the bytes that are there, up to `len` and
up to `maxRW`, the most one call reads. -/
inductive ReadResult where
  | err
  | ok (got : List Byte) (rest : List Byte)
deriving DecidableEq, Repr

/-- The model of `f.Read(payload)`. -/
def fileRead (len : Nat) (f : List Byte) : ReadResult :=
  if len = 0 then .ok [] f
  else if f = [] then .err
  else .ok (f.take (min len maxRW)) (f.drop (min len maxRW))

/-- What one pass through lines 90-116 of the loop body does. -/
inductive FrameRead where
  | wrongMagic
  | readError
  | truncated
  | wrongMagic2
  | frame (fr : Frame) (rest : List Byte)
deriving DecidableEq, Repr

/-- Lines 90-116 of `createReplayConnection`: read the start sentinel, the
length, the direction, for `ver >= 2` the timestamp, the payload and the end
sentinel. A variable whose `binary.Read` fails keeps its zero value. -/
def readFrame (ver : Int) (i : Nat) (f : List Byte) : FrameRead :=
  let (m, f1) := binaryRead 4 f
  let magic : Nat := (m.map getLE).getD 0
  if magic ≠ 0xAAAAAAAA then .wrongMagic
  else
    let (l, f2) := binaryRead 4 f1
    let packetLength : Nat := (l.map getLE).getD 0
    let (d, f3) := binaryRead 1 f2
    let toServer : Bool := (d.map (fun bs => decide (getLE bs ≠ 0))).getD false
    let (timeReceived, f4) :=
      if ver ≥ 2 then
        let (t, f4) := binaryRead 8 f3
        (Time.unixMilli (toSigned 64 ((t.map getLE).getD 0)), f4)
      else (Time.now i, f3)
    match fileRead packetLength f4 with
    | .err => .readError
    | .ok payload f5 =>
      if payload.length ≠ packetLength then .truncated
      else
        let (m2, f6) := binaryRead 4 f5
        let magic2 : Nat := (m2.map getLE).getD 0
        if magic2 ≠ 0xBBBBBBBB then .wrongMagic2
        else .frame ⟨payload, toServer, timeReceived⟩ f6

/-- What `minecraft.ParseData` followed by `pkData.Decode` gives for one
payload: an error of `ParseData`, an error of `Decode`, or the packets. -/
inductive Decoded (P E : Type) where
  | parseError (e : E)
  | decodeError
  | packets (pks : List P)
deriving DecidableEq, Repr

/-- The packet library as the replay reader uses it. `σ` is the state of the
connection `proxy.Server` (compression, palette, game data), `P` the type of
packets, `E` the type of the errors of `ParseData`. -/
structure Decoder (σ P E : Type) where
  decodeFrame : σ → List Byte → σ × Decoded P E
  isStartGame : P → Bool
  setGameData : σ → P → σ

/-- A registered handler: which of its callbacks are not nil. -/
structure Handler where
  PacketFunc : Bool
  PacketCB : Bool
  ConnectCB : Bool
  OnEnd : Bool
deriving DecidableEq, Repr

/-- A call of a handler callback; `h` is the position of the handler in
`proxy.handlers`. `packetFunc` stands for `PacketFunc(hdr, bytes, src, dst)`
where header and bytes come from the packet and the addresses from
`toServer`. -/
inductive Event (P : Type) where
  | packetFunc (h : Nat) (pk : P) (toServer : Bool)
  | packetCB (h : Nat) (pk : P) (toServer : Bool) (t : Time)
  | connectCB (h : Nat)
  | onEnd (h : Nat)
deriving DecidableEq, Repr

/-- The errors `createReplayConnection` returns. -/
inductive ReplayError (E : Type) where
  | header
  | wrongMagic
  | truncated (i : Nat)
  | wrongMagic2
  | parse (e : E)
deriving DecidableEq, Repr

/-- How a run of `createReplayConnection` ends: `ret none` is `return nil`,
`ret (some e)` is `return e`. `unfinished` is the loop bound of the
embedding running out. -/
inductive Outcome (E : Type) where
  | ret (e : Option (ReplayError E))
  | unfinished
deriving DecidableEq, Repr

/-- The state the loop carries. `conn` is `proxy.Server`, `trace` the callback
calls made so far. `frames` and `packets` are logs kept by the embedding: every
frame that passed the end sentinel check, and every packet the inner loop
`for _, pk := range pks` visited with the frame variables `toServer` and
`timeReceived`. `readErrors` counts the executions of line 105. -/
structure ReplayState (σ P : Type) where
  conn : σ
  gameStarted : Bool
  trace : List (Event P)
  frames : List Frame
  packets : List (P × Bool × Time)
  readErrors : Nat

/-- The calls `cb i` for the handlers `i` that have the callback selected by
`has`, in registration order. -/
def callHandlers {P : Type} (hs : List Handler) (has : Handler → Bool)
    (cb : Nat → Event P) : List (Event P) :=
  hs.enum.filterMap (fun ih => if has ih.2 then some (cb ih.1) else none)

/-- Lines 128-196 for one packet. -/
def dispatchPacket {σ P E : Type} (dec : Decoder σ P E) (hs : List Handler)
    (toServer : Bool) (timeReceived : Time) (st : ReplayState σ P) (pk : P) :
    ReplayState σ P :=
  let st := { st with
    packets := st.packets ++ [(pk, toServer, timeReceived)]
    trace := st.trace ++ callHandlers hs (·.PacketFunc) (fun h => .packetFunc h pk toServer) }
  if st.gameStarted then
    { st with trace := st.trace ++
        callHandlers hs (·.PacketCB) (fun h => .packetCB h pk toServer timeReceived) }
  else if dec.isStartGame pk then
    { st with
      conn := dec.setGameData st.conn pk
      gameStarted := true
      trace := st.trace ++ callHandlers hs (·.ConnectCB) (fun h => .connectCB h) }
  else st

/-- The result of a run: the final state and how the run ended. -/
structure ReplayResult (σ P E : Type) where
  state : ReplayState σ P
  outcome : Outcome E

/-- Lines 198-203: the `OnEnd` calls and `return nil`. -/
def finish {σ P E : Type} (hs : List Handler) (st : ReplayState σ P) : ReplayResult σ P E :=
  ⟨{ st with trace := st.trace ++ callHandlers hs (·.OnEnd) (fun h => .onEnd h) }, .ret none⟩

/-- The loop of lines 77-197. `i` is the frame counter before `i += 1` and `f`
the open file. The first argument bounds the number of iterations. -/
def frameLoop {σ P E : Type} (dec : Decoder σ P E) (hs : List Handler) (ver : Int) :
    Nat → Nat → List Byte → ReplayState σ P → ReplayResult σ P E
  | 0, _, _, st => ⟨st, .unfinished⟩
  | fuel + 1, i, f, st =>
    let i := i + 1
    if f = [] then finish hs st
    else
      match readFrame ver i f with
      | .wrongMagic => ⟨st, .ret (some .wrongMagic)⟩
      | .readError => finish hs { st with readErrors := st.readErrors + 1 }
      | .truncated => ⟨st, .ret (some (.truncated i))⟩
      | .wrongMagic2 => ⟨st, .ret (some .wrongMagic2)⟩
      | .frame fr rest =>
        let st := { st with frames := st.frames ++ [fr] }
        match dec.decodeFrame st.conn fr.payload with
        | (conn, .parseError e) => ⟨{ st with conn := conn }, .ret (some (.parse e))⟩
        | (conn, .decodeError) => frameLoop dec hs ver fuel i rest { st with conn := conn }
        | (conn, .packets pks) =>
          frameLoop dec hs ver fuel i rest
            (pks.foldl (dispatchPacket dec hs fr.toServer fr.timeReceived) { st with conn := conn })

/-- The state at line 75: a fresh connection, `gameStarted = false`. -/
def initialState {σ P : Type} (conn : σ) : ReplayState σ P :=
  ⟨conn, false, [], [], [], 0⟩

/-- The function `createReplayConnection` on a file with the bytes `file`;
`conn` is the value of `minecraft.NewConn()`. Lines 53-64 probe the magic:
`io.ReadAtLeast` fills a zeroed 4-byte buffer with what the file has; on a
match the version is read, otherwise `f.Seek(-4, io.SeekCurrent)` rewinds,
which fails and leaves the offset where it is when fewer than 4 bytes were
read. Every frame takes at least one byte, so `file.length + 1` iterations
are enough. -/
def createReplayConnection {σ P E : Type} (dec : Decoder σ P E) (hs : List Handler)
    (conn : σ) (file : List Byte) : ReplayResult σ P E :=
  let got := file.take 4
  let magic := got ++ List.replicate (4 - got.length) 0
  if magic = replayMagic then
    match binaryRead 4 (file.drop 4) with
    | (some hdr, rest) =>
      frameLoop dec hs (toSigned 32 (getLE hdr)) (file.length + 1) 0 rest (initialState conn)
    | (none, _) => ⟨initialState conn, .ret (some .header)⟩
  else
    let rest := if 4 ≤ got.length then file else file.drop got.length
    frameLoop dec hs 1 (file.length + 1) 0 rest (initialState conn)

/-- The frame the reader is expected to produce for a capture read in loop
iteration `i`: from version 2 on the recorded timestamp, before that the wall
clock of the iteration. -/
def frameOf (ver : Int) (i : Nat) (c : Capture) : Frame :=
  ⟨c.payload, c.toServer, if ver ≥ 2 then .unixMilli c.timeMs else .now i⟩

/-- The frames expected for a list of captures read after iteration `i`. -/
def framesOf (ver : Int) : Nat → List Capture → List Frame
  | _, [] => []
  | i, c :: cs => frameOf ver (i + 1) c :: framesOf ver (i + 1) cs

/-- Whether an event is a call of `ConnectCB` or of `PacketCB`. -/
def Event.isSessionCB {P : Type} : Event P → Bool
  | .packetCB _ _ _ _ => true
  | .connectCB _ => true
  | _ => false

/-- The calls of `ConnectCB` and `PacketCB` expected for the packets the reader
visited, in the words of the specification: nothing up to and including the
first StartGame packet except one `ConnectCB(nil)` per handler that has the
callback, made when that packet is seen; then, for every later packet in
order, `PacketCB` of every handler that has the callback, with the direction
and the time the packet was visited with. -/
def expectedSessionCalls {σ P E : Type} (dec : Decoder σ P E) (hs : List Handler)
    (pks : List (P × Bool × Time)) : List (Event P) :=
  match pks.dropWhile (fun p => !dec.isStartGame p.1) with
  | [] => []
  | _ :: later =>
    callHandlers hs (·.ConnectCB) (fun h => .connectCB h) ++
      later.flatMap (fun p => callHandlers hs (·.PacketCB) (fun h => .packetCB h p.1 p.2.1 p.2.2))

/-- The invariant of the frame loop behind the session callbacks: the flag
`gameStarted` says whether a StartGame packet was visited, the `ConnectCB` and
`PacketCB` calls made so far are the expected ones, and every visited packet
carries the direction and time of a frame that was read. -/
def ReplayState.Coherent {σ P E : Type} (dec : Decoder σ P E) (hs : List Handler)
    (st : ReplayState σ P) : Prop :=
  st.gameStarted = st.packets.any (fun p => dec.isStartGame p.1) ∧
    st.trace.filter Event.isSessionCB = expectedSessionCalls dec hs st.packets ∧
    ∀ p ∈ st.packets, ∃ fr ∈ st.frames, p.2 = (fr.toServer, fr.timeReceived)

/-- A decoder for examples: every payload parses, each byte is one packet, and
packet 1 is StartGame. -/
def exampleDecoder : Decoder Unit Nat Unit :=
  ⟨fun s p => (s, .packets (p.map (·.val))), fun p => p == 1, fun s _ => s⟩

/-- Two handlers for examples: one with every callback, one with `PacketCB`
only. -/
def exampleHandlers : List Handler := [⟨true, true, true, true⟩, ⟨false, true, false, false⟩]

/-- Three captures for examples. -/
def exampleCaptures : List Capture :=
  [⟨[0, 1, 2], true, 5⟩, ⟨[], false, -1⟩, ⟨[7], false, 1234567890123⟩]

/-- A version 2 file for examples: two whole frames, then a third frame with a
wrong last byte in its end sentinel, then one more whole frame. -/
def exampleCorruptFile : List Byte :=
  replayFile 2 (writeFrames 2 (exampleCaptures.take 2) ++
    (frameStart 2 ⟨[7], false, 1234567890123⟩ ++
      ([0xBB, 0xBB, 0xBB, 0xBA] ++ writeFrame 2 ⟨[9], true, 6⟩)))

/-- A version 2 file for examples: the header, then one frame header that
declares a payload of one byte, and nothing after it. -/
def exampleCutFile : List Byte :=
  WriteReplayHeader ++ frameHeader 2 ⟨[7], false, 5⟩

/-! ## Machine integers and library types of the world handlers -/

/-- Conversion to `int32`: the value modulo 2^32, read as two's complement. -/
def int32 (z : Int) : Int := (z + 2 ^ 31) % 2 ^ 32 - 2 ^ 31

/-- Conversion to `int8`. -/
def int8 (z : Int) : Int := (z + 2 ^ 7) % 2 ^ 8 - 2 ^ 7

/-- Conversion to `uint8`. -/
def uint8 (z : Int) : Nat := (z % 2 ^ 8).toNat

/-- The library function `i32.Pow` (`intmath/i32`): the power in wrapping
32-bit arithmetic. -/
def i32Pow (x : Int) (y : Nat) : Int := int32 (x ^ y)

/-- The integer square root by bits, from bit `b - 1` down: `r` holds the bits
found so far. -/
def sqrtBits (n : Nat) : Nat → Nat → Nat
  | 0, r => r
  | b + 1, r => if (r + 2 ^ b) * (r + 2 ^ b) ≤ n then sqrtBits n b (r + 2 ^ b) else sqrtBits n b r

/-- The library function `i32.Sqrt` (`intmath/i32`): the integer square root,
rounded down, found bit by bit; -1 for a negative argument. -/
def i32Sqrt (x : Int) : Int := if x < 0 then -1 else (sqrtBits x.toNat 16 0 : Nat)

/-- A Go map: an association list with distinct keys. -/
abbrev GoMap (κ ν : Type) := AList (fun _ : κ => ν)

/-- The Go type `world.ChunkPos`, `[2]int32`: x and z. -/
abbrev ChunkPos := Int × Int

/-- The Go type `cube.Pos`, `[3]int`: x, y and z. -/
abbrev Pos := Int × Int × Int

/-- A vertical slab, `chunk.SubChunk` of the chunk library. The embedding keeps
the result of its method `Empty()` and a stand-in for its contents. -/
structure SubChunk where
  empty : Bool
  data : List Nat
deriving DecidableEq, Repr

/-- The library type `chunk.Chunk`: the slabs `Sub()` returns. -/
structure Chunk where
  sub : List SubChunk
deriving DecidableEq, Repr

/-- A value of a `map[string]any` that holds decoded NBT. -/
inductive NBTValue where
  | int32 (v : Int)
  | str (s : String)
  | other (n : Nat)
deriving DecidableEq, Repr

/-- A decoded NBT compound, `map[string]any`. -/
abbrev NBTMap := GoMap String NBTValue

/-- The library type `world.UnknownBlock`: the name and properties of its
`BlockState`. -/
structure UnknownBlock where
  Name : String
  Properties : NBTMap
deriving DecidableEq

/-- The library type `world.Column` as the handlers use it. -/
structure Column where
  Chunk : Chunk
  BlockEntities : GoMap Pos UnknownBlock
deriving DecidableEq

/-- The block entity built from one NBT compound, with its position: the type
assertions `blockNBT["x"].(int32)`, `["y"]`, `["z"]` and `blockNBT["id"].(string)`;
`none` when one of them panics. -/
def blockEntityOf (blockNBT : NBTMap) : Option (Pos × UnknownBlock) :=
  match blockNBT.lookup "x", blockNBT.lookup "y", blockNBT.lookup "z", blockNBT.lookup "id" with
  | some (.int32 x), some (.int32 y), some (.int32 z), some (.str id) =>
    some ((x, y, z), ⟨id, blockNBT⟩)
  | _, _, _, _ => none

/-! ## World state (`handlers/worlds/worldstate/worldstate.go`) -/

/-- The fields of `entity.Entity` the world state reads: the ids, and the
values `int(es.Position[0])` and `int(es.Position[2])`. -/
structure Entity where
  RuntimeID : Nat
  UniqueID : Int
  x : Int
  z : Int
deriving DecidableEq, Repr

/-- The Go struct `worldStateMem`. The field `maps` is left out: `StoreMap`
returns at once. Each map is given by its content, which is what the methods
below read and what they replace by assignment; `SetBlockNBT`, which writes
into map objects in place, is on `blockNBTMem`, the field `blockNBTs` with
its map objects. -/
structure worldStateMem where
  chunks : GoMap ChunkPos Chunk
  blockNBTs : GoMap ChunkPos (GoMap Pos UnknownBlock)
  entities : GoMap Nat Entity
  entityLinks : GoMap Int (GoMap Int Unit)
  uniqueIDsToRuntimeIDs : GoMap Int Nat
deriving DecidableEq

/-- The method `StoreChunk`; a nil `blockNBT` is `none`. -/
def worldStateMem.StoreChunk (w : worldStateMem) (pos : ChunkPos) (ch : Chunk)
    (blockNBT : Option (GoMap Pos UnknownBlock)) : worldStateMem :=
  let w := { w with chunks := w.chunks.insert pos ch }
  match blockNBT with
  | some m => { w with blockNBTs := w.blockNBTs.insert pos m }
  | none => w

/-- The inner loop of `cullChunks`: the value of `empty` after the scan of the
slabs, which stops at the first slab that is not empty. -/
def scanEmpty : List SubChunk → Bool
  | [] => true
  | sub :: rest => if !sub.empty then false else scanEmpty rest

/-- The method `cullChunks`: visit every entry of `chunks` and delete the key
when the scan found no slab that is not empty. -/
def worldStateMem.cullChunks (w : worldStateMem) : worldStateMem :=
  let chunks := w.chunks.entries.foldl
    (fun m e => if scanEmpty e.2.sub then m.erase e.1 else m) w.chunks
  { w with chunks := chunks }

/-- The methods `StoreEntity` and `GetEntity`. -/
def worldStateMem.StoreEntity (w : worldStateMem) (id : Nat) (es : Entity) : worldStateMem :=
  { w with
    entities := w.entities.insert id es
    uniqueIDsToRuntimeIDs := w.uniqueIDsToRuntimeIDs.insert es.UniqueID es.RuntimeID }

/-- The method `GetEntity`. -/
def worldStateMem.GetEntity (w : worldStateMem) (id : Nat) : Option Entity :=
  w.entities.lookup id

/-- The value of `dist` in the chunk loop of `ApplyTo` (line 84); Go's `/` on
integers truncates toward zero. -/
def chunkDist (cp : ChunkPos) (around : Pos) : Int :=
  i32Sqrt (int32 (i32Pow (int32 (cp.1 - int32 (Int.tdiv around.1 16))) 2
    + i32Pow (int32 (cp.2 - int32 (Int.tdiv around.2.2 16))) 2))

/-- The value of `dist` in the entity loop of `ApplyTo` (line 97). -/
def entityDist (es : Entity) (around : Pos) : Int :=
  i32Sqrt (int32 (i32Pow (int32 (es.x - around.1)) 2 + i32Pow (int32 (es.z - around.2.2)) 2))

/-- What `ApplyTo` leaves behind: the source after the cull pass, the
destination, and the calls of the callback `cf` in order (`none` is nil). -/
structure ApplyResult where
  source : worldStateMem
  dest : worldStateMem
  calls : List (ChunkPos × Option Chunk)
deriving DecidableEq

/-- One iteration of the chunk loop of `ApplyTo` (lines 84-91). -/
def applyChunk (w : worldStateMem) (around : Pos) (radius : Int)
    (acc : worldStateMem × List (ChunkPos × Option Chunk)) (e : Sigma (fun _ : ChunkPos => Chunk)) :
    worldStateMem × List (ChunkPos × Option Chunk) :=
  let dist := chunkDist e.1 around
  let blockNBT := w.blockNBTs.lookup e.1
  if dist ≤ radius ∨ radius < 0 then
    (acc.1.StoreChunk e.1 e.2 blockNBT, acc.2 ++ [(e.1, some e.2)])
  else (acc.1, acc.2 ++ [(e.1, none)])

/-- One iteration of the entity loop of `ApplyTo` (lines 95-101). -/
def applyEntity (around : Pos) (radius : Int) (w2 : worldStateMem)
    (e : Sigma (fun _ : Nat => Entity)) : worldStateMem :=
  let dist := entityDist e.2 around
  let e2 := w2.GetEntity e.1
  if e2.isSome ∨ dist < int32 (radius * 16) ∨ radius < 0 then w2.StoreEntity e.1 e.2 else w2

/-- The method `ApplyTo` with a destination `w2` of the same type; `radius` is
an `int32`. -/
def worldStateMem.ApplyTo (w w2 : worldStateMem) (around : Pos) (radius : Int) : ApplyResult :=
  let w := w.cullChunks
  let r := w.chunks.entries.foldl (applyChunk w around radius) (w2, [])
  let w2 := w.entities.entries.foldl (applyEntity around radius) r.1
  ⟨w, w2, r.2⟩

/-! ## Chunk handlers (`handlers/worlds/chunk.go`) -/

/-- The result code of a sub chunk entry: `protocol.SubChunkResultSuccess`,
`protocol.SubChunkResultSuccessAllAir`, or any other byte. -/
inductive SubChunkResult where
  | success
  | successAllAir
  | other (code : Nat)
deriving DecidableEq, Repr

/-- The fields of `protocol.SubChunkEntry` the handler reads; `Offset` is
`[3]int8`. -/
structure SubChunkEntry where
  Offset : Int × Int × Int
  Result : SubChunkResult
  RawPayload : List Byte
deriving DecidableEq, Repr

/-- The fields of `packet.SubChunk` the handler reads; `Position` is
`[3]int32`. -/
structure SubChunkPacket where
  Position : Int × Int × Int
  SubChunkEntries : List SubChunkEntry
deriving DecidableEq, Repr

/-- The field `SubChunkCount` of `packet.LevelChunk`: one of the two request
modes or a plain count. -/
inductive SubChunkCount where
  | limited
  | limitless
  | count (n : Nat)
deriving DecidableEq, Repr

/-- The fields of `packet.LevelChunk` the handler reads. -/
structure LevelChunkPacket where
  Position : ChunkPos
  HighestSubChunk : Nat
  SubChunkCount : SubChunkCount
  CacheEnabled : Bool
  RawPayload : List Byte
deriving DecidableEq, Repr

/-- The fields of `packet.SubChunkRequest`; an offset is `[3]int8`. -/
structure SubChunkRequest where
  Dimension : Int
  Position : Int × Int × Int
  Offsets : List (Int × Int × Int)
deriving DecidableEq, Repr

/-- What the handlers use of the rest of the program. `W` is the state of
`w.currentWorld`, `E` the type of library errors. `LoadChunk` returns the
column when one is stored (`ok`), `Ignored` is `IgnoredChunks[pos]`, `Range` is
`Dimension().Range()` as minimum and maximum, `DimensionID` the dimension id.
`NetworkDecode` gets the payload and the sub chunk count. `DecodeSubChunk`
gets the buffer and the index and returns the slab, the index after the call
and the rest of the buffer; `DecodeNBT` decodes one compound and returns the
rest of the buffer. -/
structure Env (W E : Type) where
  LoadChunk : W → ChunkPos → Except E (Option Column)
  StoreChunk : W → ChunkPos → Column → W
  Ignored : W → ChunkPos → Bool
  setIgnored : W → ChunkPos → Bool → W
  Range : W → Int × Int
  DimensionID : W → Int
  OnChunkAdd : ChunkPos → Time → Bool
  NetworkDecode : List Byte → Nat → Except E (Chunk × List NBTMap)
  DecodeSubChunk : List Byte → Nat → Except E (SubChunk × Nat × List Byte)
  DecodeNBT : List Byte → Except E (NBTMap × List Byte)

/-- The errors of the two handlers; `panic` is a failed type assertion or an
index out of range. -/
inductive ChunkError (E : Type) where
  | lib (e : E)
  | cache
  | bugCheck
  | panic
  | unfinished
deriving DecidableEq, Repr

/-- The position an entry addresses (lines 123-125), in `int32` arithmetic. -/
def entryPos (pk : SubChunkPacket) (ent : SubChunkEntry) : ChunkPos :=
  (int32 (pk.Position.1 + int32 ent.Offset.1), int32 (pk.Position.2.2 + int32 ent.Offset.2.2))

/-- The first loop of `processSubChunk` (lines 118-143): collect the column of
every position that an entry with result success addresses. -/
def loadColumns {W E : Type} (env : Env W E) (w : W) (pk : SubChunkPacket) :
    List SubChunkEntry → GoMap ChunkPos Column → Except (ChunkError E) (GoMap ChunkPos Column)
  | [], columns => .ok columns
  | ent :: rest, columns =>
    if ent.Result ≠ .success then loadColumns env w pk rest columns
    else
      let pos := entryPos pk ent
      if env.Ignored w pos then loadColumns env w pk rest columns
      else if (columns.lookup pos).isSome then loadColumns env w pk rest columns
      else
        match env.LoadChunk w pos with
        | .error e => .error (.lib e)
        | .ok none => .error .bugCheck
        | .ok (some col) => loadColumns env w pk rest (columns.insert pos col)

/-- The loop of lines 178-193: decode compounds until the buffer is empty and
store each as a block entity. The first argument bounds the iterations. -/
def decodeBlockNBTs {W E : Type} (env : Env W E) :
    Nat → List Byte → GoMap Pos UnknownBlock → Except (ChunkError E) (GoMap Pos UnknownBlock)
  | 0, buf, be => if buf.length > 0 then .error .unfinished else .ok be
  | fuel + 1, buf, be =>
    if buf.length > 0 then
      match env.DecodeNBT buf with
      | .error e => .error (.lib e)
      | .ok (blockNBT, buf) =>
        match blockEntityOf blockNBT with
        | none => .error .panic
        | some (p, b) => decodeBlockNBTs env fuel buf (be.insert p b)
    else .ok be

/-- The state of the second loop of `processSubChunk`: the local map `columns`
and the payloads handed to `DecodeSubChunk` so far. -/
structure SubChunkState where
  columns : GoMap ChunkPos Column
  decoded : List (List Byte)
deriving DecidableEq

/-- The second loop of `processSubChunk` (lines 145-196). -/
def applyEntries {W E : Type} (env : Env W E) (pk : SubChunkPacket) :
    List SubChunkEntry → SubChunkState → SubChunkState × Option (ChunkError E)
  | [], st => (st, none)
  | ent :: rest, st =>
    let absY := int32 (pk.Position.2.1 + int32 ent.Offset.2.1)
    let pos := entryPos pk ent
    match st.columns.lookup pos with
    | none => applyEntries env pk rest st
    | some col =>
      match ent.Result with
      | .successAllAir => applyEntries env pk rest st
      | .success =>
        let st := { st with decoded := st.decoded ++ [ent.RawPayload] }
        match env.DecodeSubChunk ent.RawPayload (uint8 absY) with
        | .error e => (st, some (.lib e))
        | .ok (sub, index, buf) =>
          if index < col.Chunk.sub.length then
            let col := { col with Chunk := ⟨col.Chunk.sub.set index sub⟩ }
            match decodeBlockNBTs env buf.length buf col.BlockEntities with
            | .error e => ({ st with columns := st.columns.insert pos col }, some e)
            | .ok be =>
              applyEntries env pk rest
                { st with columns := st.columns.insert pos { col with BlockEntities := be } }
          else (st, some .panic)
      | .other _ => applyEntries env pk rest st

/-- What `processSubChunk` leaves behind: the world, the returned error, the
payloads handed to `DecodeSubChunk`, and whether `SchedRedraw` was called. -/
structure SubChunkOutcome (W E : Type) where
  world : W
  err : Option (ChunkError E)
  decoded : List (List Byte)
  redraw : Bool

/-- The handler `processSubChunk`. Columns are values here: after an error the
world is returned as it was, and what the failed call had already written
into a column it loaded is not part of the model. -/
def processSubChunk {W E : Type} (env : Env W E) (w : W) (pk : SubChunkPacket) :
    SubChunkOutcome W E :=
  match loadColumns env w pk pk.SubChunkEntries ∅ with
  | .error e => ⟨w, some e, [], false⟩
  | .ok columns =>
    match applyEntries env pk pk.SubChunkEntries ⟨columns, []⟩ with
    | (st, some e) => ⟨w, some e, st.decoded, false⟩
    | (st, none) =>
      ⟨st.columns.entries.foldl (fun w e => env.StoreChunk w e.1 e.2) w, none, st.decoded, true⟩

/-- The block entities of a decoded chunk (lines 56-66); `none` when a type
assertion panics. -/
def blockEntitiesOf : List NBTMap → GoMap Pos UnknownBlock → Option (GoMap Pos UnknownBlock)
  | [], be => some be
  | blockNBT :: rest, be =>
    match blockEntityOf blockNBT with
    | none => none
    | some (p, b) => blockEntitiesOf rest (be.insert p b)

/-- The loop of lines 88-90, `count` iterations from `y` on. -/
def offsetLoop (y : Int) : Nat → List (Int × Int × Int)
  | 0 => []
  | count + 1 => (0, y, 0) :: offsetLoop (y + 1) count

/-- The slice `offsetTable` after the loop of lines 86-90: `y` runs over the
`int8` values from `int8(r.Min()/16)` up to, not including,
`int8(r.Max()/16)+1`. -/
def offsetTable (r : Int × Int) : List (Int × Int × Int) :=
  let lo := int8 (Int.tdiv r.1 16)
  let hi := int8 (int8 (Int.tdiv r.2 16) + 1)
  offsetLoop lo (hi - lo).toNat

/-- What `processLevelChunk` leaves behind: the world, the returned error, the
`SubChunkRequest` written to the server if any, and whether the popup was
sent. -/
structure LevelChunkOutcome (W E : Type) where
  world : W
  err : Option (ChunkError E)
  request : Option SubChunkRequest
  popup : Bool

/-- The handler `processLevelChunk`. `Range.Height()` is the maximum minus the
minimum. A slice bound below zero panics. -/
def processLevelChunk {W E : Type} (env : Env W E) (w : W) (pk : LevelChunkPacket)
    (timeReceived : Time) : LevelChunkOutcome W E :=
  if pk.RawPayload.length = 0 then ⟨w, none, none, false⟩
  else
    let subChunkCount : Nat :=
      match pk.SubChunkCount with
      | .limited => 0
      | .limitless => 0
      | .count n => n
    if pk.CacheEnabled then ⟨w, some .cache, none, false⟩
    else
      match env.NetworkDecode pk.RawPayload subChunkCount with
      | .error e => ⟨w, some (.lib e), none, false⟩
      | .ok (ch, blockNBTs) =>
        match blockEntitiesOf blockNBTs ∅ with
        | none => ⟨w, some .panic, none, false⟩
        | some be =>
          let col : Column := ⟨ch, be⟩
          let pos := pk.Position
          if !env.OnChunkAdd pos timeReceived then ⟨env.setIgnored w pos true, none, none, false⟩
          else
            let w := env.setIgnored w pos false
            let w := env.StoreChunk w pos col
            let r := env.Range w
            let height : Int := Int.tdiv (r.2 - r.1) 16
            let send (max : Int) : LevelChunkOutcome W E :=
              let table := offsetTable r
              let bound := min (max + 1) table.length
              if bound < 0 then ⟨w, some .panic, none, false⟩
              else
                ⟨w, none,
                  some ⟨int32 (env.DimensionID w), (pk.Position.1, 0, pk.Position.2),
                    table.take bound.toNat⟩, true⟩
            match pk.SubChunkCount with
            | .limited => send pk.HighestSubChunk
            | .limitless => send height
            | .count _ => ⟨w, none, none, true⟩

/-! ## Values for examples of the world handlers -/

/-- A slab that is not empty. -/
def exampleSlab : SubChunk := ⟨false, [1]⟩

/-- A slab that is empty. -/
def exampleAir : SubChunk := ⟨true, []⟩

/-- An environment for examples: the world is the map of its stored columns,
nothing is ignored, and the decoders accept every input; `NetworkDecode`
returns a chunk of 24 empty slabs. The parameter is the vertical range of
the dimension. -/
def exampleEnv (range : Int × Int) : Env (GoMap ChunkPos Column) Unit where
  LoadChunk := fun w pos => .ok (w.lookup pos)
  StoreChunk := fun w pos col => w.insert pos col
  Ignored := fun _ _ => false
  setIgnored := fun w _ _ => w
  Range := fun _ => range
  DimensionID := fun _ => 0
  OnChunkAdd := fun _ _ => true
  NetworkDecode := fun _ _ => .ok (⟨List.replicate 24 exampleAir⟩, [])
  DecodeSubChunk := fun buf index => .ok (exampleSlab, index, buf.drop 1)
  DecodeNBT := fun buf => .ok (∅, buf.drop 1)

/-- A sub chunk packet for examples: one entry at offset 0 with the result
success-all-air. -/
def exampleAllAirPacket : SubChunkPacket :=
  ⟨(0, 0, 0), [⟨(0, 0, 0), .successAllAir, []⟩]⟩

/-- A sub chunk packet for examples: an all-air entry at offset 0 and an entry
with result success one chunk to the east. -/
def exampleSuccessPacket : SubChunkPacket :=
  ⟨(0, 0, 0), [⟨(0, 0, 0), .successAllAir, []⟩, ⟨(1, 0, 0), .success, [1, 2]⟩]⟩

/-- A level chunk packet for examples: position (0,0), limited mode with
highest sub chunk 3, a payload that is not empty. -/
def exampleLevelChunk : LevelChunkPacket :=
  ⟨(0, 0), 3, .limited, false, [1]⟩

/-- A world state for examples: a column whose only slab is empty at (0,0), a
column with a slab that is not empty at (1,1), with a metadata map, and a
column with a slab that is not empty at (5,0). -/
def exampleSource : worldStateMem where
  chunks := (((∅ : GoMap ChunkPos Chunk).insert (0, 0) ⟨[exampleAir]⟩).insert (1, 1)
    ⟨[exampleAir, exampleSlab]⟩).insert (5, 0) ⟨[exampleSlab]⟩
  blockNBTs := (∅ : GoMap ChunkPos (GoMap Pos UnknownBlock)).insert (1, 1)
    ((∅ : GoMap Pos UnknownBlock).insert (16, 0, 16) ⟨"chest", ∅⟩)
  entities := ∅
  entityLinks := ∅
  uniqueIDsToRuntimeIDs := ∅

/-- An empty world state. -/
def emptyWorldState : worldStateMem := ⟨∅, ∅, ∅, ∅, ∅⟩

/-! ## World state: block metadata and entity links -/

/-- Conversion to `int16`. -/
def int16 (z : Int) : Int := (z + 2 ^ 15) % 2 ^ 16 - 2 ^ 15

/-- The function `cubePosInChunk`: the chunk position and the slab index of a
block position; `>>` on a Go `int` is the arithmetic shift. -/
def cubePosInChunk (pos : Pos) : ChunkPos × Int :=
  ((int32 (pos.1 >>> 4), int32 (pos.2.2 >>> 4)), int16 (pos.2.1 >>> 4))

/-- The library function `maps.Copy(dst, src)`: every entry of `src` is
assigned into `dst`. -/
def mapsCopy (dst src : NBTMap) : NBTMap :=
  src.entries.foldl (fun d e => d.insert e.1 e.2) dst

/-- The address of a Go map object. -/
abbrev Ref := Nat

/-- A `world.UnknownBlock` as a map of the store holds it: the name and the
reference `Properties` to a `map[string]any` object; `none` is the nil map. -/
structure BlobRef where
  Name : String
  Properties : Option Ref
deriving DecidableEq, Repr

/-- The field `blockNBTs` of `worldStateMem` with its map objects, the part of
the store `SetBlockNBT` reads and writes. `props` is the content of each
`map[string]any` object and `chunkMaps` the content of each
`map[cube.Pos]world.UnknownBlock` object, by address; `blockNBTs` gives for a
chunk position the reference the outer map holds. Go maps are references:
`SetBlockNBT` stores the map it is given, so two blobs can hold the same
`Properties` reference, and two chunk positions the same inner map. -/
structure blockNBTMem where
  props : Ref → NBTMap
  chunkMaps : Ref → GoMap Pos BlobRef
  blockNBTs : GoMap ChunkPos Ref

/-- An address that no chunk position of the outer map holds: where
`make(map[cube.Pos]world.UnknownBlock)` of line 116 puts the new map. -/
def blockNBTMem.freshRef (w : blockNBTMem) : Ref :=
  w.blockNBTs.entries.foldl (fun n e => max n e.2) 0 + 1

/-- The content read through a `map[string]any` reference; reading a nil map
gives no entry. -/
def blockNBTMem.deref (w : blockNBTMem) (m : Option Ref) : NBTMap :=
  match m with
  | some r => w.props r
  | none => ∅

/-- Lines 114-118: the inner map of the chunk, made empty and stored in the
outer map when the chunk has none. -/
def blockNBTMem.chunkMapFor (w : blockNBTMem) (cp : ChunkPos) : blockNBTMem × Ref :=
  match w.blockNBTs.lookup cp with
  | some r => (w, r)
  | none =>
    ({ w with
        chunkMaps := Function.update w.chunkMaps w.freshRef ∅
        blockNBTs := w.blockNBTs.insert cp w.freshRef }, w.freshRef)

/-- Lines 119-127: the blob `SetBlockNBT` works on: the stored one, or a new
one that holds the reference `m` and is named by the type assertion
`m["id"].(string)`; `none` when that assertion panics. -/
def blockNBTMem.blobFor (w : blockNBTMem) (chunkNBTs : Ref) (pos : Pos) (m : Option Ref) :
    Option BlobRef :=
  match (w.chunkMaps chunkNBTs).lookup pos with
  | some b => some b
  | none =>
    match (w.deref m).lookup "id" with
    | some (.str id) => some ⟨id, m⟩
    | _ => none

/-- Line 130, `maps.Copy(b.Properties, m)`: the entries of the source are
assigned into the map object behind `dst`, in place. With `dst` the nil map
the first assignment panics (`none`); there is none when the source is
empty. -/
def blockNBTMem.copyInto (w : blockNBTMem) (dst : Option Ref) (src : NBTMap) :
    Option blockNBTMem :=
  match dst with
  | some d => some { w with props := Function.update w.props d (mapsCopy (w.props d) src) }
  | none => if src.entries.isEmpty then some w else none

/-- Line 134, `chunkNBTs[pos] = b`: the assignment into the inner map object,
in place. -/
def blockNBTMem.storeBlob (w : blockNBTMem) (chunkNBTs : Ref) (pos : Pos) (b : BlobRef) :
    blockNBTMem :=
  { w with chunkMaps := Function.update w.chunkMaps chunkNBTs ((w.chunkMaps chunkNBTs).insert pos b) }

/-- The method `SetBlockNBT`; `m` is the map reference the caller passes, and
the result `none` is a panic. -/
def SetBlockNBT (w : blockNBTMem) (pos : Pos) (m : Option Ref) (merge : Bool) :
    Option blockNBTMem :=
  let cp := (cubePosInChunk pos).1
  let w1 := (w.chunkMapFor cp).1
  let chunkNBTs := (w.chunkMapFor cp).2
  match w1.blobFor chunkNBTs pos m with
  | none => none
  | some b =>
    if merge then
      (w1.copyInto b.Properties (w1.deref m)).map (fun w2 => w2.storeBlob chunkNBTs pos b)
    else some (w1.storeBlob chunkNBTs pos { b with Properties := m })

/-- The blob as the maps hold it for block position `pos` in the inner map of
chunk `cp`, if any. -/
def blockNBTMem.refAt (w : blockNBTMem) (cp : ChunkPos) (pos : Pos) : Option BlobRef :=
  (w.blockNBTs.lookup cp).bind (fun r => (w.chunkMaps r).lookup pos)

/-- The blob a reader finds for block position `pos` in the inner map of
chunk `cp`: its name and the content of its property map. -/
def blockNBTMem.blobAt (w : blockNBTMem) (cp : ChunkPos) (pos : Pos) : Option UnknownBlock :=
  (w.refAt cp pos).map (fun b => ⟨b.Name, w.deref b.Properties⟩)

/-- The link types `AddEntityLink` tells apart: `protocol.EntityLinkRemove`,
`protocol.EntityLinkRider`, `protocol.EntityLinkPassenger`, or another
byte. -/
inductive EntityLinkType where
  | remove
  | rider
  | passenger
  | other (code : Nat)
deriving DecidableEq, Repr

/-- The fields of `protocol.EntityLink` the world state reads; `LinkType` is
the Go field `Type`. -/
structure EntityLink where
  RiddenEntityUniqueID : Int
  RiderEntityUniqueID : Int
  LinkType : EntityLinkType
deriving DecidableEq, Repr

/-- Lines 151-154: make the rider set of the mount if there is none, then put
the rider into it. -/
def addRider (links : GoMap Int (GoMap Int Unit)) (ridden rider : Int) :
    GoMap Int (GoMap Int Unit) :=
  match links.lookup ridden with
  | some riders => links.replace ridden (riders.insert rider ())
  | none => links.insert ridden ((∅ : GoMap Int Unit).insert rider ())

/-- Line 156: `delete(w.entityLinks[ridden], rider)`; the delete of a key from
the nil map of a mount without rider set does nothing. -/
def removeRider (links : GoMap Int (GoMap Int Unit)) (ridden rider : Int) :
    GoMap Int (GoMap Int Unit) :=
  match links.lookup ridden with
  | some riders => links.replace ridden (riders.erase rider)
  | none => links

/-- The method `AddEntityLink`. -/
def worldStateMem.AddEntityLink (w : worldStateMem) (el : EntityLink) : worldStateMem :=
  match el.LinkType with
  | .passenger =>
    { w with entityLinks := addRider w.entityLinks el.RiddenEntityUniqueID el.RiderEntityUniqueID }
  | .rider =>
    { w with entityLinks := addRider w.entityLinks el.RiddenEntityUniqueID el.RiderEntityUniqueID }
  | .remove =>
    { w with
      entityLinks := removeRider w.entityLinks el.RiddenEntityUniqueID el.RiderEntityUniqueID }
  | .other _ => w

/-- Whether `rider` is in the rider set of `mount`. -/
def worldStateMem.rides (w : worldStateMem) (mount rider : Int) : Bool :=
  match w.entityLinks.lookup mount with
  | some riders => (riders.lookup rider).isSome
  | none => false

/-- Whether a link event adds or removes the pair of `mount` and `rider`. -/
def EntityLink.concerns (el : EntityLink) (mount rider : Int) : Bool :=
  el.RiddenEntityUniqueID == mount && el.RiderEntityUniqueID == rider &&
    (el.LinkType == .rider || el.LinkType == .passenger || el.LinkType == .remove)

/-- Whether a link event is an add: type rider or passenger. -/
def EntityLink.isAdd (el : EntityLink) : Bool :=
  el.LinkType == .rider || el.LinkType == .passenger

/-! ## Map compositor (`handlers/worlds/map_item.go`) -/

/-- The Go struct `RenderElem`; a nil `ch` is `none`. -/
structure RenderElem where
  pos : ChunkPos
  ch : Option Chunk
  isDeferredState : Bool
deriving DecidableEq, Repr

/-- The image functions the compositor calls, over a type `Img` of images:
`utils.Chunk2Img`, which is not among the source files, and the red overlay
`draw.Draw(img, img.Rect, red, image.Point{}, draw.Over)` of line 212. -/
structure Raster (Img : Type) where
  Chunk2Img : Chunk → Img
  tint : Img → Img

/-- The fields of the Go struct `MapUI` that the queue, the zoom and the export
use. The lock-free queue is the list of its elements, oldest first. -/
structure MapUI (Img : Type) where
  zoomLevel : Int
  renderQueue : List RenderElem
  renderedChunks : GoMap ChunkPos Img
  oldRendered : GoMap ChunkPos Img
  needRedraw : Bool
  showOnGui : Bool

/-- The function `NewMapUI`. -/
def NewMapUI {Img : Type} : MapUI Img :=
  { zoomLevel := 16, renderQueue := [], renderedChunks := ∅, oldRendered := ∅,
    needRedraw := true, showOnGui := false }

/-- The method `SchedRedraw`. -/
def MapUI.SchedRedraw {Img : Type} (m : MapUI Img) : MapUI Img :=
  { m with needRedraw := true }

/-- The method `Reset`. -/
def MapUI.Reset {Img : Type} (m : MapUI Img) : MapUI Img :=
  ({ m with renderedChunks := ∅, oldRendered := ∅ } : MapUI Img).SchedRedraw

/-- The method `ChangeZoom`; `/` on a Go `int` truncates. -/
def MapUI.ChangeZoom {Img : Type} (m : MapUI Img) : MapUI Img :=
  let zoomLevel := Int.tdiv m.zoomLevel 2
  let zoomLevel := if zoomLevel = 0 then 16 else zoomLevel
  ({ m with zoomLevel := zoomLevel } : MapUI Img).SchedRedraw

/-- The method `SetChunk`. -/
def MapUI.SetChunk {Img : Type} (m : MapUI Img) (pos : ChunkPos) (ch : Option Chunk)
    (isDeferredState : Bool) : MapUI Img :=
  ({ m with renderQueue := m.renderQueue ++ [⟨pos, ch, isDeferredState⟩] } : MapUI Img).SchedRedraw

/-- The body of the loop of `processQueue` for one dequeued element (lines
206-222). -/
def MapUI.processElem {Img : Type} (lib : Raster Img) (m : MapUI Img) (r : RenderElem) :
    MapUI Img :=
  match r.ch with
  | some ch =>
    let img := lib.Chunk2Img ch
    if r.isDeferredState then
      let oldRendered :=
        match m.renderedChunks.lookup r.pos with
        | some old => m.oldRendered.insert r.pos old
        | none => m.oldRendered
      { m with oldRendered := oldRendered, renderedChunks := m.renderedChunks.insert r.pos (lib.tint img) }
    else { m with renderedChunks := m.renderedChunks.insert r.pos img }
  | none =>
    match m.oldRendered.lookup r.pos with
    | some img => { m with renderedChunks := m.renderedChunks.insert r.pos img }
    | none => { m with renderedChunks := m.renderedChunks.erase r.pos }

/-- The loop of `processQueue` on the elements still in the queue: dequeue the
oldest, handle it, go on until the queue is empty. The second component is
`updatedChunks`. -/
def MapUI.drain {Img : Type} (lib : Raster Img) :
    List RenderElem → MapUI Img → List ChunkPos → MapUI Img × List ChunkPos
  | [], m, updatedChunks => ({ m with renderQueue := [] }, updatedChunks)
  | r :: rest, m, updatedChunks =>
    MapUI.drain lib rest (m.processElem lib r)
      (if r.ch.isSome then updatedChunks ++ [r.pos] else updatedChunks)

/-- The method `processQueue`: the map after the queue is drained, and the
positions it returns. -/
def MapUI.processQueue {Img : Type} (lib : Raster Img) (m : MapUI Img) :
    MapUI Img × List ChunkPos :=
  MapUI.drain lib m.renderQueue m []

/-- The Go constant `math.MaxInt32`. -/
def MaxInt32 : Int := 2 ^ 31 - 1

/-- The method `GetBounds`: `min` starts at `math.MaxInt32`, `max` at the zero
value; `i32.Min` and `i32.Max` are the minimum and the maximum. -/
def MapUI.GetBounds {Img : Type} (m : MapUI Img) : ChunkPos × ChunkPos :=
  if m.renderedChunks.entries.length = 0 then ((0, 0), (0, 0))
  else
    m.renderedChunks.entries.foldl
      (fun (b : ChunkPos × ChunkPos) chunk =>
        ((min b.1.1 chunk.1.1, min b.1.2 chunk.1.2), (max b.2.1 chunk.1.1, max b.2.2 chunk.1.2)))
      ((MaxInt32, MaxInt32), (0, 0))

/-- What `ToImage` builds: the size passed to `image.Rect(0, 0, width, height)`
and, in order, the `draw.Draw` calls with `draw.Src`, each with its
destination rectangle (x0, y0, x1, y1) and the tile drawn from its origin. -/
structure Stitched (Img : Type) where
  width : Int
  height : Int
  draws : List ((Int × Int × Int × Int) × Img)

/-- The method `ToImage`; the subtractions and the products by 16 of lines
273-281 are `int32` arithmetic. -/
def MapUI.ToImage {Img : Type} (lib : Raster Img) (m : MapUI Img) : MapUI Img × Stitched Img :=
  let m := (m.processQueue lib).1
  let b := m.GetBounds
  let chunksX := int32 (int32 (b.2.1 - b.1.1) + 1)
  let chunksY := int32 (int32 (b.2.2 - b.1.2) + 1)
  let draws := m.renderedChunks.entries.map (fun e =>
    let px := int32 (int32 (e.1.1 - b.1.1) * 16)
    let py := int32 (int32 (e.1.2 - b.1.2) * 16)
    ((px, py, px + 16, py + 16), e.2))
  (m, ⟨chunksX * 16, chunksY * 16, draws⟩)

/-! ## Chunk rendering (`subcommands/world/chunk_render.go`) -/

/-- The Go type `color.RGBA`; each channel is a `uint8`. -/
structure RGBA where
  R : Nat
  G : Nat
  B : Nat
  A : Nat
deriving DecidableEq, Repr

/-- What the renderer asks of a block: whether it is `block.Air`, whether it is
`block.Water`, and its `Color()`. -/
structure BlockInfo where
  isAir : Bool
  isWater : Bool
  color : RGBA
deriving DecidableEq, Repr

/-- The library and helper calls of the renderer: `c.Block(x, y, z, 0)`,
`world.BlockByRuntimeID` (`none` when not found), `c.HeightMap().At(x, z)`,
the colour of `block.Water`, `utils.Clamp`, `utils.BlendColors`, and the
positions for which `Pos.Neighbours` calls its callback, in order, for a
position and a vertical range. -/
structure RenderLib where
  Block : Chunk → Nat → Int → Nat → Nat
  BlockByRuntimeID : Nat → Option BlockInfo
  HeightMapAt : Chunk → Nat → Nat → Int
  WaterColor : RGBA
  Clamp : Int → Int → Int
  BlendColors : RGBA → RGBA → RGBA
  Neighbours : Pos → Int × Int → List Pos

/-- The function `blockColorAt`; `y` is an `int16`. The first argument bounds
the depth of the recursion, and `none` is a recursion that does not end. -/
def blockColorAt (lib : RenderLib) (c : Chunk) (x : Nat) (z : Nat) : Nat → Int → Option RGBA
  | 0, _ => none
  | fuel + 1, y =>
    let rid := lib.Block c x y z
    if rid = 0 ∧ y = 0 then some ⟨0, 0, 0, 255⟩
    else
      match lib.BlockByRuntimeID rid with
      | none => some ⟨255, 0, 255, 255⟩
      | some b =>
        if b.isWater then
          let y2 := lib.HeightMapAt c x z
          match blockColorAt lib c x z fuel y2 with
          | none => none
          | some blockColor =>
            let depth := int16 (y - y2)
            let bw : RGBA :=
              { lib.WaterColor with A := uint8 (lib.Clamp (int16 (150 + int16 (depth * 7))) 255) }
            some (lib.BlendColors blockColor bw)
        else some b.color

/-- The callback of lines 49-63 for one neighbour: the new value of
`have_up`. -/
def haveUpStep (lib : RenderLib) (c : Chunk) (have_up : Bool) (neighbour : Pos) : Bool :=
  if neighbour.1 < 0 ∨ neighbour.1 ≥ 16 ∨ neighbour.2.2 < 0 ∨ neighbour.2.2 ≥ 16 then have_up
  else if !have_up then
    let block_rid := lib.Block c (uint8 neighbour.1) (int16 neighbour.2.1) (uint8 neighbour.2.2)
    if block_rid > 0 then
      match lib.BlockByRuntimeID block_rid with
      | some b => if !b.isAir then true else have_up
      | none => have_up
    else have_up
  else have_up

/-- The value of `have_up` at line 66: the callback run over the neighbours of
the position above, in the vertical range of `y + 1` alone. -/
def haveUp (lib : RenderLib) (c : Chunk) (x : Nat) (y : Int) (z : Nat) : Bool :=
  (lib.Neighbours ((x : Int), y + 1, (z : Int)) (int16 (y + 1), int16 (y + 1))).foldl
    (haveUpStep lib c) false

/-- Lines 68-78 on one channel. -/
def darkenChannel (v : Nat) : Nat := if v > 10 then v - 10 else v

/-- The function `chunkGetColorAt`; the recursion of `blockColorAt` repeats
itself from the third level on, so three levels tell whether it ends. -/
def chunkGetColorAt (lib : RenderLib) (c : Chunk) (x : Nat) (y : Int) (z : Nat) : Option RGBA :=
  let have_up := haveUp lib c x y z
  match blockColorAt lib c x z 3 y with
  | none => none
  | some col =>
    if have_up then
      some { col with R := darkenChannel col.R, G := darkenChannel col.G, B := darkenChannel col.B }
    else some col

/-! ## Values for examples of the map and of the renderer -/

/-- A rasterizer for examples: an image is a number, the raster of a chunk is
its number of slabs, and the tint adds 100. -/
def exampleRaster : Raster Nat := ⟨fun c => c.sub.length, fun img => img + 100⟩

/-- A renderer library for examples: every block is a stone of the colour
(5, 10, 200, 255), blocks have runtime id 1, and the four neighbours at the
same height are visited. -/
def exampleRenderLib : RenderLib where
  Block := fun _ _ _ _ => 1
  BlockByRuntimeID := fun _ => some ⟨false, false, ⟨5, 10, 200, 255⟩⟩
  HeightMapAt := fun _ _ _ => 0
  WaterColor := ⟨0, 0, 255, 255⟩
  Clamp := fun v hi => min v hi
  BlendColors := fun a _ => a
  Neighbours := fun p _ => [(p.1 + 1, p.2.1, p.2.2), (p.1 - 1, p.2.1, p.2.2),
    (p.1, p.2.1, p.2.2 + 1), (p.1, p.2.1, p.2.2 - 1)]

/-- A property map for examples: a chest with an item count. -/
def exampleChest : NBTMap :=
  ((∅ : NBTMap).insert "id" (.str "Chest")).insert "Items" (.int32 7)

/-- A blob for examples: a furnace with a burn time. -/
def exampleFurnace : NBTMap :=
  ((∅ : NBTMap).insert "id" (.str "Furnace")).insert "BurnTime" (.int32 3)

/-- Map objects for examples, with no blob stored: the chest map at address
0, the furnace map at address 1, and empty maps elsewhere. -/
def exampleObjects : blockNBTMem where
  props := fun r => if r = 0 then exampleChest else if r = 1 then exampleFurnace else ∅
  chunkMaps := fun _ => ∅
  blockNBTs := ∅

/-- A store for examples with one blob at the block (1, 2, 3), in the inner
map at address 0 of the chunk (0, 0): a chest whose property map is the
object at address 0. -/
def exampleBlobStore : blockNBTMem where
  props := fun r => if r = 0 then exampleChest else if r = 1 then exampleFurnace else ∅
  chunkMaps := fun r =>
    if r = 0 then (∅ : GoMap Pos BlobRef).insert (1, 2, 3) ⟨"Chest", some 0⟩ else ∅
  blockNBTs := (∅ : GoMap ChunkPos Ref).insert (0, 0) 0

/-- A store for examples with columns that are not empty at the chunks (0,0)
and (-1,-1). -/
def exampleNegativeSource : worldStateMem :=
  { emptyWorldState with
    chunks := ((∅ : GoMap ChunkPos Chunk).insert (0, 0) ⟨[exampleSlab]⟩).insert (-1, -1)
      ⟨[exampleSlab]⟩ }

/-- A map for examples whose only tile is at the chunk (-5,-5). -/
def exampleNegativeMap : MapUI Nat :=
  { (NewMapUI : MapUI Nat) with renderedChunks := (∅ : GoMap ChunkPos Nat).insert (-5, -5) 1 }

/-! ## Cancellation (`utils/replay.go`, line 37) -/

/-- The Go value `ctx context.Context` as a loop can observe it: whether
`ctx.Err()` is not nil when it is asked at the top of loop iteration `i`. -/
structure Context where
  Err : Nat → Bool

/-- The context `context.Background()`, which is never cancelled. -/
def Context.Background : Context := ⟨fun _ => false⟩

/-- A context for examples that was cancelled before the call. -/
def exampleCancelled : Context := ⟨fun _ => true⟩

/-- The function `createReplayConnection` with its first parameter, `ctx`. No
line of the body reads `ctx`: the loop of lines 77-197 leaves only at the end
of the file, at a read error and at the `return` statements. -/
def createReplayConnectionCtx {σ P E : Type} (_ctx : Context) (dec : Decoder σ P E)
    (hs : List Handler) (conn : σ) (file : List Byte) : ReplayResult σ P E :=
  createReplayConnection dec hs conn file

/-! ## Canvas scale (`handlers/worlds/map_item.go`, lines 237-239) -/

/-- Round to the nearest integer, ties to the even one. -/
def roundHalfEven (q : ℚ) : ℤ :=
  let f := ⌊q⌋
  if q - f < 1 / 2 then f
  else if 1 / 2 < q - f then f + 1
  else if f % 2 = 0 then f else f + 1

/-- The exponent of the last place of the `float64` nearest to `q`: 52 below
the exponent of `q`, and not below that of the subnormal numbers. -/
def float64Exp (q : ℚ) : ℤ := max (Int.log 2 |q| - 52) (-1074)

/-- The `float64` nearest to the rational `q`, as a rational: the significand
of 53 bits is rounded to nearest, ties to even. This is the result of a
`float64` operation whose exact result is `q`; results of 2^1024 and above,
which are infinite in Go, are not told apart. -/
def roundFloat64 (q : ℚ) : ℚ :=
  if q = 0 then 0 else (roundHalfEven (q / 2 ^ float64Exp q) : ℚ) * 2 ^ float64Exp q

/-- The `float64` quotient `a / b` of two finite numbers, `b` not zero. -/
def float64Div (a b : ℚ) : ℚ := roundFloat64 (a / b)

/-- The `float64` product `a * b` of two finite numbers. -/
def float64Mul (a b : ℚ) : ℚ := roundFloat64 (a * b)

/-- Line 237 of `Redraw`: `chunksPerLine := float64(128 / m.zoomLevel)`. The
division is on `int` and panics when the zoom level is 0. -/
def chunksPerLine (zoomLevel : Int) : Option ℚ :=
  if zoomLevel = 0 then none else some (roundFloat64 ((Int.tdiv 128 zoomLevel : Int) : ℚ))

/-- Line 238 of `Redraw`: `pxPerBlock := 128 / chunksPerLine / 16`. There is
no value when `chunksPerLine` is 0, where Go gives an infinity. -/
def pxPerBlock (zoomLevel : Int) : Option ℚ :=
  match chunksPerLine zoomLevel with
  | none => none
  | some c => if c = 0 then none else some (float64Div (float64Div 128 c) 16)

/-- Line 239 of `Redraw`: `pxSizeChunk := int(math.Floor(pxPerBlock * 16))`. -/
def pxSizeChunk (zoomLevel : Int) : Option Int :=
  (pxPerBlock zoomLevel).map (fun p => ⌊float64Mul p 16⌋)

/-- A payload for examples that is one byte longer than one `Read` call
takes: `maxRW + 1` zero bytes. -/
def exampleHugePayload : List Byte := List.replicate (maxRW + 1) 0

/-- A capture for examples with the payload of `maxRW + 1` bytes. -/
def exampleHugeCapture : Capture := ⟨exampleHugePayload, true, 5⟩

/-! ## The two writes of `ChangeZoom` (`handlers/worlds/map_item.go`, lines 184-187) -/

/-- Line 184 of `ChangeZoom`, its first write to the field: `m.zoomLevel /= 2`.
`ChangeZoom` does not hold the lock `m.l`, which `Redraw`, `Reset` and
`ToImage` take, so a `Redraw` on the ticker goroutine can run on the map as
this write leaves it. -/
def MapUI.halveZoom {Img : Type} (m : MapUI Img) : MapUI Img :=
  { m with zoomLevel := Int.tdiv m.zoomLevel 2 }

/-- Lines 185-187 of `ChangeZoom`, its second write:
`if m.zoomLevel == 0 { m.zoomLevel = 16 }`. -/
def MapUI.wrapZoom {Img : Type} (m : MapUI Img) : MapUI Img :=
  if m.zoomLevel = 0 then { m with zoomLevel := 16 } else m

/-- A store for examples with two entities: runtime id 7 at the block (16, 0)
and runtime id 8 at the block (15, 0). -/
def exampleEntitySource : worldStateMem :=
  { emptyWorldState with
    entities := ((∅ : GoMap Nat Entity).insert 7 ⟨7, 70, 16, 0⟩).insert 8 ⟨8, 80, 15, 0⟩ }

/-! ## What the session callbacks are specified to be -/

/-- The positions in `proxy.handlers` of the handlers for which `has` holds,
in registration order, counted from `i`. -/
def handlersWithFrom (has : Handler → Bool) : Nat → List Handler → List Nat
  | _, [] => []
  | i, h :: hs => if has h then i :: handlersWithFrom has (i + 1) hs
    else handlersWithFrom has (i + 1) hs

/-- The specification of the connection state after the packets of one frame:
the game data is set from the first StartGame packet seen in the session, and
from no other packet. The flag says whether a StartGame packet was seen. -/
def specConnAfter {σ P E : Type} (dec : Decoder σ P E) : σ → Bool → List P → σ × Bool
  | conn, true, _ => (conn, true)
  | conn, false, [] => (conn, false)
  | conn, false, pk :: pks =>
    if dec.isStartGame pk then (dec.setGameData conn pk, true) else specConnAfter dec conn false pks

/-- The specification of the packets decoded from a list of frames, in order:
the packets `ParseData` and `Decode` give for the payload of each frame, each
with the direction flag and the time of its own frame. A frame that `Decode`
rejects gives no packet; at a frame that `ParseData` rejects the session
ends. -/
def specDecodedPackets {σ P E : Type} (dec : Decoder σ P E) :
    σ → Bool → List Frame → List (P × Bool × Time)
  | _, _, [] => []
  | conn, started, fr :: frs =>
    match dec.decodeFrame conn fr.payload with
    | (_, .parseError _) => []
    | (conn', .decodeError) => specDecodedPackets dec conn' started frs
    | (conn', .packets pks) =>
      pks.map (fun pk => (pk, fr.toServer, fr.timeReceived)) ++
        specDecodedPackets dec (specConnAfter dec conn' started pks).1
          (specConnAfter dec conn' started pks).2 frs

/-- The specification of the session callbacks, in the words of C5, for the
packets of a session in order: no `PacketCB` call for a packet up to and
including the first StartGame packet; at the first StartGame packet one
`ConnectCB(nil)` call for each handler that has the callback; for every later
packet one `PacketCB` call for each handler that has the callback, with the
direction flag and the time the packet carries. The flag says whether a
StartGame packet came before. -/
def specSessionCalls {P : Type} (isStartGame : P → Bool) (hs : List Handler) :
    Bool → List (P × Bool × Time) → List (Event P)
  | _, [] => []
  | false, p :: ps =>
    if isStartGame p.1 then
      (handlersWithFrom (fun h => h.ConnectCB) 0 hs).map (fun h => Event.connectCB h) ++
        specSessionCalls isStartGame hs true ps
    else specSessionCalls isStartGame hs false ps
  | true, p :: ps =>
    (handlersWithFrom (fun h => h.PacketCB) 0 hs).map
        (fun h => Event.packetCB h p.1 p.2.1 p.2.2) ++
      specSessionCalls isStartGame hs true ps

/-- The store after `SetBlockNBT` with `merge = false` has stored the chest
map, the object at address 0, at the block (1, 2, 3) and then at the block
(4, 5, 6), both in the chunk (0, 0). -/
def exampleSharedStore : Option blockNBTMem :=
  (SetBlockNBT exampleObjects (1, 2, 3) (some 0) false).bind
    (fun w => SetBlockNBT w (4, 5, 6) (some 0) false)

/-! ## Theorems: bytes -/

theorem putLE_length (k n : Nat) : (putLE k n).length = k := by
  induction k generalizing n with
  | zero => rfl
  | succ k ih => simp [putLE, ih]

theorem getLE_putLE (k n : Nat) : getLE (putLE k n) = n % 256 ^ k := by
  induction k generalizing n with
  | zero => simp [putLE, getLE, Nat.mod_one]
  | succ k ih => simp [putLE, getLE, ih, pow_succ', Nat.mod_mul]

theorem toSigned_ofSigned64 (z : Int) (h1 : -2 ^ 63 ≤ z) (h2 : z < 2 ^ 63) :
    toSigned 64 (ofSigned 64 z) = z := by
  unfold toSigned ofSigned
  norm_num
  have h3 : ((z % 18446744073709551616).toNat : Int) = z % 18446744073709551616 :=
    Int.toNat_of_nonneg (Int.emod_nonneg _ (by norm_num))
  have h4 : (z % 18446744073709551616).toNat % 18446744073709551616
      = (z % 18446744073709551616).toNat := by
    apply Nat.mod_eq_of_lt
    have : z % 18446744073709551616 < 18446744073709551616 := Int.emod_lt_of_pos _ (by norm_num)
    omega
  rw [h4]
  split_ifs with h <;> omega

theorem toSigned_ofSigned32 (z : Int) (h1 : -2 ^ 31 ≤ z) (h2 : z < 2 ^ 31) :
    toSigned 32 (ofSigned 32 z) = z := by
  unfold toSigned ofSigned
  norm_num
  have h3 : ((z % 4294967296).toNat : Int) = z % 4294967296 :=
    Int.toNat_of_nonneg (Int.emod_nonneg _ (by norm_num))
  have h4 : (z % 4294967296).toNat % 4294967296 = (z % 4294967296).toNat := by
    apply Nat.mod_eq_of_lt
    have : z % 4294967296 < 4294967296 := Int.emod_lt_of_pos _ (by norm_num)
    omega
  rw [h4]
  split_ifs with h <;> omega

theorem ofSigned_lt (w : Nat) (z : Int) : ofSigned w z < 2 ^ w := by
  unfold ofSigned
  have h0 : (0 : Int) < ((2 ^ w : Nat) : Int) := by positivity
  have h1 := Int.emod_lt_of_pos z h0
  have h2 := Int.emod_nonneg z (ne_of_gt h0)
  omega

theorem binaryRead_append (n : Nat) (bs tail : List Byte) (h : bs.length = n) :
    binaryRead n (bs ++ tail) = (some bs, tail) := by
  subst h
  simp [binaryRead]

theorem binaryRead_one (d : Byte) (rest : List Byte) :
    binaryRead 1 (d :: rest) = (some [d], rest) := by
  simp [binaryRead]

theorem fileRead_append (bs tail : List Byte) (hb : bs.length ≤ maxRW) :
    fileRead bs.length (bs ++ tail) = .ok bs tail := by
  unfold fileRead
  by_cases h : bs = []
  · subst h; simp
  · have : bs.length ≠ 0 := by simpa [List.length_eq_zero] using h
    simp [this, h, Nat.min_eq_left hb]

theorem getLE_startSentinel : getLE (putLE 4 0xAAAAAAAA) = 0xAAAAAAAA := by
  rw [getLE_putLE]; norm_num

theorem getLE_endSentinel : getLE (putLE 4 0xBBBBBBBB) = 0xBBBBBBBB := by
  rw [getLE_putLE]; norm_num

/-! ## Theorems: reading one frame -/

theorem putLE_getLE (bs : List Byte) : putLE bs.length (getLE bs) = bs := by
  induction bs with
  | nil => rfl
  | cons b bs ih =>
    have h1 : (b.val + 256 * getLE bs) % 256 = b.val := by have := b.isLt; omega
    have h2 : (b.val + 256 * getLE bs) / 256 = getLE bs := by have := b.isLt; omega
    simp only [List.length_cons, putLE, getLE, h2, ih, List.cons.injEq, and_true]
    exact Fin.ext h1

/-- The frame header alone: with the start sentinel, the length field, the
direction byte and, from version 2 on, the timestamp in place, the loop body
goes on to read the payload and the end sentinel from the bytes that follow. -/
theorem readFrame_header (ver : Int) (i : Nat) (m l t rest : List Byte) (d : Byte)
    (hm : m.length = 4) (hm' : getLE m = 0xAAAAAAAA) (hl : l.length = 4) (ht : t.length = 8) :
    readFrame ver i (m ++ (l ++ (d :: ((if ver ≥ 2 then t else []) ++ rest))))
      = match fileRead (getLE l) rest with
        | .err => .readError
        | .ok payload f5 =>
          if payload.length ≠ getLE l then .truncated
          else if (((binaryRead 4 f5).1.map getLE).getD 0) ≠ 0xBBBBBBBB then .wrongMagic2
          else .frame ⟨payload, decide (getLE [d] ≠ 0),
            if ver ≥ 2 then .unixMilli (toSigned 64 (getLE t)) else .now i⟩ (binaryRead 4 f5).2 := by
  unfold readFrame
  rw [binaryRead_append 4 m _ hm]
  simp only [Option.map_some', Option.getD_some, hm', ne_eq, not_true_eq_false, if_false]
  rw [binaryRead_append 4 l _ hl, binaryRead_one]
  simp only [Option.map_some', Option.getD_some]
  by_cases hv : ver ≥ 2
  · simp only [hv, if_true]
    rw [binaryRead_append 8 t _ ht]
    all_goals (cases fileRead (getLE l) rest <;> rfl)
  · simp only [hv, if_false, List.nil_append]

/-- The loop body accepts a frame that is laid out as start sentinel, length,
direction, timestamp when the version has one, payload and end sentinel. -/
theorem readFrame_layout (ver : Int) (i : Nat) (m l t payload e tail : List Byte) (d : Byte)
    (hm : m.length = 4) (hm' : getLE m = 0xAAAAAAAA) (hl : l.length = 4)
    (hl' : getLE l = payload.length) (hp : payload.length ≤ maxRW) (ht : t.length = 8)
    (he : e.length = 4) (he' : getLE e = 0xBBBBBBBB) :
    readFrame ver i (m ++ (l ++ (d :: ((if ver ≥ 2 then t else []) ++ (payload ++ (e ++ tail))))))
      = .frame ⟨payload, decide (getLE [d] ≠ 0),
          if ver ≥ 2 then .unixMilli (toSigned 64 (getLE t)) else .now i⟩ tail := by
  rw [readFrame_header ver i m l t _ d hm hm' hl ht, hl', fileRead_append _ _ hp]
  simp only [ne_eq, not_true_eq_false, if_false, binaryRead_append 4 e _ he, Option.map_some',
    Option.getD_some, he']

/-- The loop body rejects a frame whose payload, one that a single read
takes, is followed by four bytes other than the end sentinel, or by fewer
than four bytes. -/
theorem readFrame_wrongMagic2 (ver : Int) (i : Nat) (c : Capture) (tail : List Byte)
    (hc : c.payload.length < 2 ^ 32) (hp : c.payload.length ≤ maxRW)
    (hbad : tail.take 4 ≠ putLE 4 0xBBBBBBBB) :
    readFrame ver i (putLE 4 0xAAAAAAAA ++ (putLE 4 c.payload.length ++
      ((if c.toServer then 1 else 0) :: ((if ver ≥ 2 then putLE 8 (ofSigned 64 c.timeMs) else [])
        ++ (c.payload ++ tail))))) = .wrongMagic2 := by
  have hl : getLE (putLE 4 c.payload.length) = c.payload.length := by
    rw [getLE_putLE]
    exact Nat.mod_eq_of_lt (by norm_num at hc ⊢; exact hc)
  rw [readFrame_header ver i _ _ (putLE 8 (ofSigned 64 c.timeMs)) _ _ (putLE_length _ _)
    (by rw [getLE_putLE]; norm_num) (putLE_length _ _) (putLE_length _ _), hl,
    fileRead_append _ _ hp]
  simp only [ne_eq, not_true_eq_false, if_false]
  have hne : ((binaryRead 4 tail).1.map getLE).getD 0 ≠ 0xBBBBBBBB := by
    unfold binaryRead
    by_cases h4 : 4 ≤ tail.length
    · simp only [h4, if_true, Option.map_some', Option.getD_some]
      intro hg
      apply hbad
      have hlen : (tail.take 4).length = 4 := by simp [List.length_take]; omega
      have := putLE_getLE (tail.take 4)
      rw [hlen, hg] at this
      exact this.symm
    · simp [h4]
  simp only [hne, ne_eq, not_false_eq_true, if_true]

theorem getLE_eq_putLE (bs : List Byte) (k n : Nat) (hk : bs.length = k) (hn : getLE bs = n) :
    bs = putLE k n := by
  rw [← hk, ← hn, putLE_getLE]

theorem binaryRead_cases (n : Nat) (f : List Byte) :
    (∃ bs rest, f = bs ++ rest ∧ bs.length = n ∧ binaryRead n f = (some bs, rest)) ∨
      binaryRead n f = (none, []) := by
  unfold binaryRead
  by_cases h : n ≤ f.length
  · left
    exact ⟨f.take n, f.drop n, (List.take_append_drop n f).symm, by simp [List.length_take, h],
      by simp [h]⟩
  · right; simp [h]

theorem fileRead_cases (len : Nat) (f : List Byte) :
    fileRead len f = .err ∨
      (∃ p rest, f = p ++ rest ∧ fileRead len f = .ok p rest ∧
        (p.length = min len maxRW ∨ rest = [])) := by
  unfold fileRead
  by_cases h0 : len = 0
  · right; exact ⟨[], f, rfl, by simp [h0], Or.inl (by simp [h0])⟩
  · by_cases hf : f = []
    · left; simp [h0, hf]
    · right
      refine ⟨f.take (min len maxRW), f.drop (min len maxRW),
        (List.take_append_drop _ f).symm, by simp [h0, hf], ?_⟩
      by_cases hl : min len maxRW ≤ f.length
      · left; simp only [List.length_take]; omega
      · right; simp only [List.drop_eq_nil_iff]; omega

/-- A frame the loop body accepts under version 1 is laid out as start sentinel,
length, direction byte, payload and end sentinel, with nothing between the
direction byte and the payload, and its time is the wall clock. -/
theorem readFrame_legacy_inv (i : Nat) (f rest : List Byte) (fr : Frame)
    (h : readFrame 1 i f = .frame fr rest) :
    ∃ d : Byte, f = putLE 4 0xAAAAAAAA ++ (putLE 4 fr.payload.length ++
        (d :: (fr.payload ++ (putLE 4 0xBBBBBBBB ++ rest)))) ∧
      fr.toServer = decide (d.val ≠ 0) ∧ fr.timeReceived = .now i := by
  unfold readFrame at h
  simp only [show ¬ ((1 : Int) ≥ 2) by decide, if_false] at h
  rcases binaryRead_cases 4 f with ⟨m, f1, rfl, hm, e1⟩ | e1
  swap
  · rw [e1] at h; simp at h
  rw [e1] at h
  simp only [Option.map_some', Option.getD_some] at h
  split_ifs at h with hmagic
  have hmagic' : getLE m = 0xAAAAAAAA := by simpa using hmagic
  rcases binaryRead_cases 4 f1 with ⟨l, f2, rfl, hl, e2⟩ | e2
  swap
  · rw [e2] at h; simp [binaryRead, fileRead] at h
  rw [e2] at h
  simp only [Option.map_some', Option.getD_some] at h
  rcases binaryRead_cases 1 f2 with ⟨d, f3, rfl, hd, e3⟩ | e3
  swap
  · rw [e3] at h
    simp only [Option.map_none', Option.getD_none] at h
    rcases fileRead_cases (getLE l) [] with e4 | ⟨p, r, hpr, e4, _⟩
    · rw [e4] at h; simp at h
    · rw [e4] at h
      have : p = [] ∧ r = [] := by simpa using hpr.symm
      obtain ⟨rfl, rfl⟩ := this
      simp [binaryRead] at h
      split_ifs at h
  rw [e3] at h
  simp only [Option.map_some', Option.getD_some] at h
  rcases fileRead_cases (getLE l) f3 with e4 | ⟨p, f5, rfl, e4, hp⟩
  · rw [e4] at h; simp at h
  rw [e4] at h
  simp only at h
  rcases binaryRead_cases 4 f5 with ⟨e, f6, rfl, he, e5⟩ | e5
  swap
  · rw [e5] at h; simp at h
    split_ifs at h
  rw [e5] at h
  simp only [Option.map_some', Option.getD_some] at h
  split_ifs at h with hlen hmagic2
  have hlen' : p.length = getLE l := by simpa using hlen
  have hmagic2' : getLE e = 0xBBBBBBBB := by simpa using hmagic2
  simp only [FrameRead.frame.injEq] at h
  obtain ⟨hfr, hrest⟩ := h
  subst hrest
  subst hfr
  obtain ⟨d0, rfl⟩ : ∃ d0, d = [d0] := by
    match d, hd with
    | [x], _ => exact ⟨x, rfl⟩
  refine ⟨d0, ?_, ?_, rfl⟩
  · rw [getLE_eq_putLE m 4 _ hm hmagic', getLE_eq_putLE l 4 _ hl hlen'.symm,
      getLE_eq_putLE e 4 _ he hmagic2']
    simp
  · simp [getLE]

theorem frameStart_append (ver : Int) (c : Capture) (tail : List Byte) :
    frameStart ver c ++ tail =
      putLE 4 0xAAAAAAAA ++ (putLE 4 c.payload.length ++ ((if c.toServer then 1 else 0) ::
        ((if ver ≥ 2 then putLE 8 (ofSigned 64 c.timeMs) else []) ++ (c.payload ++ tail)))) := by
  unfold frameStart frameHeader
  simp only [List.append_assoc, List.cons_append]

theorem writeFrame_append (ver : Int) (c : Capture) (tail : List Byte) :
    writeFrame ver c ++ tail = frameStart ver c ++ (putLE 4 0xBBBBBBBB ++ tail) := by
  unfold writeFrame
  rw [List.append_assoc]

theorem getLE_length_field (c : Capture) (hc : c.fits) :
    getLE (putLE 4 c.payload.length) = c.payload.length := by
  rw [getLE_putLE]
  exact Nat.mod_eq_of_lt (by have := hc.1; norm_num at this ⊢; exact this)

theorem getLE_direction (b : Bool) :
    decide (getLE [if b then (1 : Byte) else 0] ≠ 0) = b := by
  cases b <;> simp [getLE]

theorem getLE_timestamp (c : Capture) (hc : c.fits) :
    toSigned 64 (getLE (putLE 8 (ofSigned 64 c.timeMs))) = c.timeMs := by
  rw [getLE_putLE]
  have : ofSigned 64 c.timeMs % 256 ^ 8 = ofSigned 64 c.timeMs := by
    apply Nat.mod_eq_of_lt
    have := ofSigned_lt 64 c.timeMs
    norm_num at this ⊢
    exact this
  rw [this, toSigned_ofSigned64 _ hc.2.1 hc.2.2]

theorem readFrame_writeFrame (ver : Int) (i : Nat) (c : Capture) (tail : List Byte)
    (hc : c.fits) (hp : c.payload.length ≤ maxRW) :
    readFrame ver i (writeFrame ver c ++ tail) = .frame (frameOf ver i c) tail := by
  rw [writeFrame_append, frameStart_append,
    readFrame_layout ver i _ _ (putLE 8 (ofSigned 64 c.timeMs)) _ _ _ _
    (putLE_length _ _) getLE_startSentinel (putLE_length _ _) (getLE_length_field c hc) hp
    (putLE_length _ _) (putLE_length _ _) getLE_endSentinel, getLE_direction,
    getLE_timestamp c hc]
  rfl

theorem frameStart_ne_nil (ver : Int) (c : Capture) (tail : List Byte) :
    frameStart ver c ++ tail ≠ [] := by
  rw [frameStart_append]; simp [putLE]

theorem writeFrame_ne_nil (ver : Int) (c : Capture) (tail : List Byte) :
    writeFrame ver c ++ tail ≠ [] := by
  rw [writeFrame_append]; exact frameStart_ne_nil _ _ _

/-! ## Theorems: the frame loop -/

section Loop
variable {σ P E : Type} (dec : Decoder σ P E) (hs : List Handler)

theorem frameLoop_nil (ver : Int) (fuel i : Nat) (st : ReplayState σ P) :
    frameLoop dec hs ver (fuel + 1) i [] st = finish hs st := by
  rw [frameLoop]; simp

theorem frameLoop_frame (ver : Int) (fuel i : Nat) (f rest : List Byte) (fr : Frame)
    (st : ReplayState σ P) (h : f ≠ []) (hr : readFrame ver (i + 1) f = .frame fr rest) :
    frameLoop dec hs ver (fuel + 1) i f st =
      match dec.decodeFrame st.conn fr.payload with
      | (conn, .parseError e) =>
        ⟨{ st with frames := st.frames ++ [fr], conn := conn }, .ret (some (.parse e))⟩
      | (conn, .decodeError) =>
        frameLoop dec hs ver fuel (i + 1) rest { st with frames := st.frames ++ [fr], conn := conn }
      | (conn, .packets pks) =>
        frameLoop dec hs ver fuel (i + 1) rest
          (pks.foldl (dispatchPacket dec hs fr.toServer fr.timeReceived)
            { st with frames := st.frames ++ [fr], conn := conn }) := by
  rw [frameLoop]
  simp only [h, if_false, hr]

theorem dispatchPacket_frames (toServer : Bool) (t : Time) (st : ReplayState σ P) (pk : P) :
    (dispatchPacket dec hs toServer t st pk).frames = st.frames := by
  unfold dispatchPacket
  dsimp only
  split_ifs <;> rfl

theorem foldl_dispatchPacket_frames (toServer : Bool) (t : Time) (pks : List P)
    (st : ReplayState σ P) :
    (pks.foldl (dispatchPacket dec hs toServer t) st).frames = st.frames := by
  induction pks generalizing st with
  | nil => rfl
  | cons pk pks ih => rw [List.foldl_cons, ih, dispatchPacket_frames]

/-- Reading the frames of a list of captures that all parse: the loop reaches
the bytes after them in a state that has logged exactly their frames. -/
theorem frameLoop_writeFrames (ver : Int) (cs : List Capture)
    (hfit : ∀ c ∈ cs, c.fits) (hread : ∀ c ∈ cs, c.payload.length ≤ maxRW)
    (hparse : ∀ c ∈ cs, ∀ s e, (dec.decodeFrame s c.payload).2 ≠ .parseError e)
    (i : Nat) (st : ReplayState σ P) :
    ∃ st' : ReplayState σ P, st'.frames = st.frames ++ framesOf ver i cs ∧
      ∀ fuel tail, frameLoop dec hs ver (fuel + cs.length) i (writeFrames ver cs ++ tail) st
        = frameLoop dec hs ver fuel (i + cs.length) tail st' := by
  induction cs generalizing i st with
  | nil => exact ⟨st, by simp [framesOf], fun fuel tail => by simp [writeFrames]⟩
  | cons c cs ih =>
    have hc := hfit c (List.mem_cons_self _ _)
    have hfit' : ∀ c ∈ cs, c.fits := fun x hx => hfit x (List.mem_cons_of_mem _ hx)
    have hread' : ∀ c ∈ cs, c.payload.length ≤ maxRW :=
      fun x hx => hread x (List.mem_cons_of_mem _ hx)
    have hparse' : ∀ c ∈ cs, ∀ s e, (dec.decodeFrame s c.payload).2 ≠ .parseError e :=
      fun x hx => hparse x (List.mem_cons_of_mem _ hx)
    have hp := hparse c (List.mem_cons_self _ _) st.conn
    have step : ∀ fuel tail,
        frameLoop dec hs ver (fuel + (c :: cs).length) i (writeFrames ver (c :: cs) ++ tail) st =
        match dec.decodeFrame st.conn c.payload with
        | (conn, .parseError e) =>
          ⟨{ st with frames := st.frames ++ [frameOf ver (i + 1) c], conn := conn },
            .ret (some (.parse e))⟩
        | (conn, .decodeError) =>
          frameLoop dec hs ver (fuel + cs.length) (i + 1) (writeFrames ver cs ++ tail)
            { st with frames := st.frames ++ [frameOf ver (i + 1) c], conn := conn }
        | (conn, .packets pks) =>
          frameLoop dec hs ver (fuel + cs.length) (i + 1) (writeFrames ver cs ++ tail)
            (pks.foldl (dispatchPacket dec hs c.toServer (frameOf ver (i + 1) c).timeReceived)
              { st with frames := st.frames ++ [frameOf ver (i + 1) c], conn := conn }) := by
      intro fuel tail
      have e1 : writeFrames ver (c :: cs) ++ tail
          = writeFrame ver c ++ (writeFrames ver cs ++ tail) := by
        simp [writeFrames]
      rw [e1, List.length_cons, ← Nat.add_assoc,
        frameLoop_frame dec hs ver _ i _ _ _ st (writeFrame_ne_nil _ _ _)
          (readFrame_writeFrame ver (i + 1) c _ hc (hread c (List.mem_cons_self _ _)))]
      rfl
    rcases hd : dec.decodeFrame st.conn c.payload with ⟨conn, d⟩
    cases d with
    | parseError e => exact absurd (by rw [hd]) (hp e)
    | decodeError =>
      obtain ⟨st', hf, hl⟩ := ih hfit' hread' hparse' (i + 1)
        { st with frames := st.frames ++ [frameOf ver (i + 1) c], conn := conn }
      refine ⟨st', ?_, fun fuel tail => ?_⟩
      · rw [hf]; simp [framesOf]
      · rw [step, hd]; dsimp only; rw [hl]; simp [Nat.add_assoc, Nat.add_comm 1]
    | packets pks =>
      obtain ⟨st', hf, hl⟩ := ih hfit' hread' hparse' (i + 1)
        (pks.foldl (dispatchPacket dec hs c.toServer (frameOf ver (i + 1) c).timeReceived)
              { st with frames := st.frames ++ [frameOf ver (i + 1) c], conn := conn })
      refine ⟨st', ?_, fun fuel tail => ?_⟩
      · rw [hf, foldl_dispatchPacket_frames]; simp [framesOf]
      · rw [step, hd]; dsimp only; rw [hl]; simp [Nat.add_assoc, Nat.add_comm 1]

theorem length_le_writeFrames (ver : Int) (cs : List Capture) :
    cs.length ≤ (writeFrames ver cs).length := by
  induction cs with
  | nil => simp [writeFrames]
  | cons c cs ih =>
    have : 1 ≤ (writeFrame ver c).length := by
      simp only [writeFrame, frameStart, frameHeader, List.length_append, putLE_length]
      omega
    simp only [writeFrames, List.length_append, List.length_cons]
    omega

/-- A file with a header: the loop runs on the bytes after the header with
the version the header holds. -/
theorem createReplayConnection_header (conn : σ) (ver : Int) (body : List Byte)
    (h1 : -2 ^ 31 ≤ ver) (h2 : ver < 2 ^ 31) :
    createReplayConnection dec hs conn (replayMagic ++ (putLE 4 (ofSigned 32 ver) ++ body))
      = frameLoop dec hs ver (body.length + 8 + 1) 0 body (initialState conn) := by
  have hg : getLE (putLE 4 (ofSigned 32 ver)) = ofSigned 32 ver := by
    rw [getLE_putLE]
    apply Nat.mod_eq_of_lt
    have := ofSigned_lt 32 ver
    norm_num at this ⊢
    exact this
  unfold createReplayConnection
  have e1 : (replayMagic ++ (putLE 4 (ofSigned 32 ver) ++ body)).take 4 = replayMagic := by
    rw [List.take_left' (by rfl)]
  have e2 : (replayMagic ++ (putLE 4 (ofSigned 32 ver) ++ body)).drop 4
      = putLE 4 (ofSigned 32 ver) ++ body := by
    rw [List.drop_left' (by rfl)]
  have e3 : (replayMagic ++ (putLE 4 (ofSigned 32 ver) ++ body)).length = body.length + 8 := by
    simp [replayMagic, putLE_length]; omega
  simp only [e1, e2, e3]
  rw [binaryRead_append 4 _ _ (putLE_length _ _)]
  simp only [hg, toSigned_ofSigned32 ver h1 h2]
  simp [replayMagic]

/-- A file without the magic that has at least four bytes, or no byte at all:
the loop runs on the whole file with version 1. -/
theorem createReplayConnection_legacy (conn : σ) (file : List Byte)
    (h : file = [] ∨ (4 ≤ file.length ∧ file.take 4 ≠ replayMagic)) :
    createReplayConnection dec hs conn file
      = frameLoop dec hs 1 (file.length + 1) 0 file (initialState conn) := by
  unfold createReplayConnection
  rcases h with h | ⟨h4, hm⟩
  · subst h; simp [replayMagic]
  · have hl : (file.take 4).length = 4 := by simp [List.length_take]; omega
    simp only [hl, Nat.sub_self, List.replicate_zero, List.append_nil, hm, if_false, le_refl,
      if_true]

end Loop

/-! ## Theorems: replay files -/

section Replay
variable {σ P E : Type} (dec : Decoder σ P E) (hs : List Handler)

theorem framesOf_timestamped (ver : Int) (hv : ver ≥ 2) (i : Nat) (cs : List Capture) :
    framesOf ver i cs = cs.map (fun c => ⟨c.payload, c.toServer, .unixMilli c.timeMs⟩) := by
  induction cs generalizing i with
  | nil => rfl
  | cons c cs ih => simp [framesOf, frameOf, hv, ih]

theorem WriteReplayHeader_eq : WriteReplayHeader = replayMagic ++ putLE 4 (ofSigned 32 2) := rfl

/-- A file of format version `ver` whose body starts with frames that parse:
the run reaches the bytes after them with their frames logged, and what
happens then does not depend on what came before. -/
theorem createReplayConnection_frames (conn : σ) (ver : Int) (hv1 : 1 ≤ ver) (hv2 : ver < 2 ^ 31)
    (cs : List Capture) (hfit : ∀ c ∈ cs, c.fits) (hread : ∀ c ∈ cs, c.payload.length ≤ maxRW)
    (hparse : ∀ c ∈ cs, ∀ s e, (dec.decodeFrame s c.payload).2 ≠ .parseError e) :
    ∃ st' : ReplayState σ P, st'.frames = framesOf ver 0 cs ∧
      ∀ tail, (tail = [] ∨ (4 ≤ tail.length ∧ tail.take 4 = putLE 4 0xAAAAAAAA)) →
        ∃ fuel, createReplayConnection dec hs conn (replayFile ver (writeFrames ver cs ++ tail))
          = frameLoop dec hs ver (fuel + 1) cs.length tail st' := by
  obtain ⟨st', hf, hl⟩ :=
    frameLoop_writeFrames dec hs ver cs hfit hread hparse 0 (initialState conn)
  refine ⟨st', by rw [hf]; rfl, fun tail htail => ?_⟩
  have hlen := length_le_writeFrames ver cs
  by_cases hv : ver ≥ 2
  · refine ⟨(writeFrames ver cs ++ tail).length + 8 - cs.length, ?_⟩
    have e : (writeFrames ver cs ++ tail).length + 8 + 1
        = ((writeFrames ver cs ++ tail).length + 8 - cs.length + 1) + cs.length := by
      simp only [List.length_append]; omega
    simp only [replayFile, hv, if_true]
    rw [createReplayConnection_header dec hs conn ver _ (by omega) hv2, e, hl, Nat.zero_add]
  · refine ⟨(writeFrames ver cs ++ tail).length - cs.length, ?_⟩
    have hver : ver = 1 := by omega
    subst hver
    have e : (writeFrames 1 cs ++ tail).length + 1
        = ((writeFrames 1 cs ++ tail).length - cs.length + 1) + cs.length := by
      simp only [List.length_append]; omega
    have hleg : writeFrames 1 cs ++ tail = [] ∨
        (4 ≤ (writeFrames 1 cs ++ tail).length ∧ (writeFrames 1 cs ++ tail).take 4 ≠ replayMagic) := by
      cases cs with
      | nil =>
        rcases htail with h | ⟨h4, hm⟩
        · left; simp [writeFrames, h]
        · right
          refine ⟨by simpa [writeFrames] using h4, ?_⟩
          simp only [writeFrames, List.nil_append, hm]
          decide
      | cons c cs =>
        right
        have e1 : writeFrames 1 (c :: cs) ++ tail
            = putLE 4 0xAAAAAAAA ++ (putLE 4 c.payload.length ++ ((if c.toServer then 1 else 0) ::
                ((if (1 : Int) ≥ 2 then putLE 8 (ofSigned 64 c.timeMs) else []) ++ (c.payload ++
                  (putLE 4 0xBBBBBBBB ++ (writeFrames 1 cs ++ tail)))))) := by
          simp only [writeFrames, List.append_assoc]
          rw [writeFrame_append, frameStart_append]
        rw [e1]
        refine ⟨by simp [putLE_length], ?_⟩
        rw [List.take_left' (putLE_length _ _)]
        decide
    simp only [replayFile, hv, if_false]
    rw [createReplayConnection_legacy dec hs conn _ hleg, e, hl, Nat.zero_add]

/-- The part of C1 the code keeps. The header of `WriteReplayHeader` followed
by the frames of any list of captures (payload, direction, millisecond
timestamp) that the frame layout can hold, whose payloads are no longer than
the 1 GiB that one `Read` call takes and are accepted by `ParseData`, is read
by `createReplayConnection` without error, and the frames it reads are
exactly the captures, in order, each with its payload, its direction flag and
its millisecond timestamp. -/
theorem replay_round_trip (conn : σ) (cs : List Capture) (hfit : ∀ c ∈ cs, c.fits)
    (hread : ∀ c ∈ cs, c.payload.length ≤ maxRW)
    (hparse : ∀ c ∈ cs, ∀ s e, (dec.decodeFrame s c.payload).2 ≠ .parseError e) :
    (createReplayConnection dec hs conn (WriteReplayHeader ++ writeFrames 2 cs)).outcome
        = .ret none ∧
      (createReplayConnection dec hs conn (WriteReplayHeader ++ writeFrames 2 cs)).state.frames
        = cs.map (fun c => ⟨c.payload, c.toServer, .unixMilli c.timeMs⟩) ∧
      (createReplayConnection dec hs conn (WriteReplayHeader ++ writeFrames 2 cs)).state.frames.length
        = cs.length := by
  obtain ⟨st', hf, hrun⟩ :=
    createReplayConnection_frames dec hs conn 2 (by norm_num) (by norm_num) cs hfit hread hparse
  obtain ⟨fuel, hr⟩ := hrun [] (Or.inl rfl)
  have e : WriteReplayHeader ++ writeFrames 2 cs = replayFile 2 (writeFrames 2 cs ++ []) := by
    simp [replayFile, WriteReplayHeader_eq]
  rw [e, hr, frameLoop_nil]
  simp [finish, hf, framesOf_timestamped 2 (le_refl _)]

/-- An instance of the round trip: three captures, one with an empty payload
and one with a negative timestamp. -/
theorem replay_round_trip_witness :
    (createReplayConnection exampleDecoder exampleHandlers ()
        (WriteReplayHeader ++ writeFrames 2 exampleCaptures)).outcome = .ret none ∧
      (createReplayConnection exampleDecoder exampleHandlers ()
        (WriteReplayHeader ++ writeFrames 2 exampleCaptures)).state.frames
        = exampleCaptures.map (fun c => ⟨c.payload, c.toServer, .unixMilli c.timeMs⟩) ∧
      (createReplayConnection exampleDecoder exampleHandlers ()
        (WriteReplayHeader ++ writeFrames 2 exampleCaptures)).state.frames.length
        = exampleCaptures.length :=
  replay_round_trip exampleDecoder exampleHandlers () exampleCaptures (by decide) (by decide)
    (by intro c _ s e h; simp [exampleDecoder] at h)

/-- C2. A replay file whose first four bytes are not the magic is read as
version 1 from offset 0: the run is the frame loop with version 1 on the whole
file, so the first four bytes are read as the first start sentinel; and every
frame that loop accepts has the 9-byte header of start sentinel, length and
direction byte, directly followed by the payload and the end sentinel, with
no timestamp field (its time is the wall clock of the iteration). -/
theorem legacy_file_read_as_version_1 (conn : σ) (file : List Byte)
    (h4 : 4 ≤ file.length) (hm : file.take 4 ≠ replayMagic) :
    createReplayConnection dec hs conn file
        = frameLoop dec hs 1 (file.length + 1) 0 file (initialState conn) ∧
      ∀ (i : Nat) (f rest : List Byte) (fr : Frame), readFrame 1 i f = .frame fr rest →
        ∃ d : Byte, f = putLE 4 0xAAAAAAAA ++ (putLE 4 fr.payload.length ++
            (d :: (fr.payload ++ (putLE 4 0xBBBBBBBB ++ rest)))) ∧
          fr.toServer = decide (d.val ≠ 0) ∧ fr.timeReceived = .now i :=
  ⟨createReplayConnection_legacy dec hs conn file (Or.inr ⟨h4, hm⟩),
    fun i f rest fr h => readFrame_legacy_inv i f rest fr h⟩

/-- C2, an instance: three frames written without header and without
timestamps are read back as the frames of iterations 1, 2 and 3. -/
theorem legacy_file_read_as_version_1_witness :
    4 ≤ (writeFrames 1 exampleCaptures).length ∧
      (writeFrames 1 exampleCaptures).take 4 ≠ replayMagic ∧
      (createReplayConnection exampleDecoder exampleHandlers ()
        (writeFrames 1 exampleCaptures)).state.frames = framesOf 1 0 exampleCaptures ∧
      (createReplayConnection exampleDecoder exampleHandlers ()
        (writeFrames 1 exampleCaptures)).outcome = .ret none := by
  have h := (legacy_file_read_as_version_1 exampleDecoder exampleHandlers ()
    (writeFrames 1 exampleCaptures) (by decide) (by decide)).1
  refine ⟨by decide, by decide, ?_, ?_⟩
  · rw [h]; decide
  · rw [h]; decide

theorem frameLoop_wrongMagic2 (ver : Int) (fuel i : Nat) (f : List Byte)
    (st : ReplayState σ P) (h : f ≠ []) (hr : readFrame ver (i + 1) f = .wrongMagic2) :
    frameLoop dec hs ver (fuel + 1) i f st = ⟨st, .ret (some .wrongMagic2)⟩ := by
  rw [frameLoop]
  simp only [h, if_false, hr]

theorem frameLoop_truncated (ver : Int) (fuel i : Nat) (f : List Byte)
    (st : ReplayState σ P) (h : f ≠ []) (hr : readFrame ver (i + 1) f = .truncated) :
    frameLoop dec hs ver (fuel + 1) i f st = ⟨st, .ret (some (.truncated (i + 1)))⟩ := by
  rw [frameLoop]
  simp only [h, if_false, hr]

theorem frameLoop_readError (ver : Int) (fuel i : Nat) (f : List Byte)
    (st : ReplayState σ P) (h : f ≠ []) (hr : readFrame ver (i + 1) f = .readError) :
    frameLoop dec hs ver (fuel + 1) i f st
      = finish hs { st with readErrors := st.readErrors + 1 } := by
  rw [frameLoop]
  simp only [h, if_false, hr]

theorem frameStart_starts (ver : Int) (c : Capture) (tail : List Byte) :
    4 ≤ (frameStart ver c ++ tail).length ∧
      (frameStart ver c ++ tail).take 4 = putLE 4 0xAAAAAAAA := by
  rw [frameStart_append]
  exact ⟨by simp [putLE_length], List.take_left' (putLE_length _ _)⟩

/-- The part of C3 the code keeps. In a replay file of any format version
whose first frames are whole and parse, and whose next frame has complete
header and payload but is not followed by the four bytes of the end sentinel,
all payloads being no longer than the 1 GiB that one `Read` call takes,
`createReplayConnection` returns the error "wrong Magic2". It has read
exactly the frames before the bad one, and the handlers got exactly the calls
they get for the file that ends before the bad frame, without the `OnEnd`
calls: nothing of the bad frame or of a later frame is dispatched. -/
theorem wrong_end_sentinel_stops_replay (conn : σ) (ver : Int) (hv1 : 1 ≤ ver)
    (hv2 : ver < 2 ^ 31) (cs : List Capture) (c : Capture) (tail : List Byte)
    (hfit : ∀ x ∈ cs, x.fits) (hc : c.fits)
    (hread : ∀ x ∈ cs, x.payload.length ≤ maxRW) (hcread : c.payload.length ≤ maxRW)
    (hparse : ∀ x ∈ cs, ∀ s e, (dec.decodeFrame s x.payload).2 ≠ .parseError e)
    (hbad : tail.take 4 ≠ putLE 4 0xBBBBBBBB) :
    (createReplayConnection dec hs conn
        (replayFile ver (writeFrames ver cs ++ (frameStart ver c ++ tail)))).outcome
        = .ret (some .wrongMagic2) ∧
      (createReplayConnection dec hs conn
        (replayFile ver (writeFrames ver cs ++ (frameStart ver c ++ tail)))).state.frames
        = framesOf ver 0 cs ∧
      (createReplayConnection dec hs conn (replayFile ver (writeFrames ver cs))).outcome
        = .ret none ∧
      (createReplayConnection dec hs conn
        (replayFile ver (writeFrames ver cs ++ (frameStart ver c ++ tail)))).state.packets
        = (createReplayConnection dec hs conn (replayFile ver (writeFrames ver cs))).state.packets ∧
      (createReplayConnection dec hs conn
        (replayFile ver (writeFrames ver cs ++ (frameStart ver c ++ tail)))).state.trace
          ++ callHandlers hs (·.OnEnd) (fun h => .onEnd h)
        = (createReplayConnection dec hs conn (replayFile ver (writeFrames ver cs))).state.trace := by
  obtain ⟨st', hf, hrun⟩ :=
    createReplayConnection_frames dec hs conn ver hv1 hv2 cs hfit hread hparse
  obtain ⟨fuel, hbadrun⟩ := hrun (frameStart ver c ++ tail) (Or.inr (frameStart_starts ver c tail))
  obtain ⟨fuel', hgood⟩ := hrun [] (Or.inl rfl)
  rw [List.append_nil] at hgood
  have hr : readFrame ver (cs.length + 1) (frameStart ver c ++ tail) = .wrongMagic2 := by
    rw [frameStart_append]
    exact readFrame_wrongMagic2 ver _ c tail hc.1 hcread hbad
  rw [hbadrun, hgood, frameLoop_wrongMagic2 dec hs ver fuel _ _ st' (frameStart_ne_nil _ _ _) hr,
    frameLoop_nil]
  exact ⟨rfl, hf, rfl, rfl, rfl⟩

/-- An instance with the bad end sentinel on frame 3 of a version 2 file. -/
theorem wrong_end_sentinel_stops_replay_witness :
    (createReplayConnection exampleDecoder exampleHandlers () exampleCorruptFile).outcome
        = .ret (some .wrongMagic2) ∧
      (createReplayConnection exampleDecoder exampleHandlers () exampleCorruptFile).state.frames
        = framesOf 2 0 (exampleCaptures.take 2) ∧
      (createReplayConnection exampleDecoder exampleHandlers ()
        (replayFile 2 (writeFrames 2 (exampleCaptures.take 2)))).outcome = .ret none ∧
      (createReplayConnection exampleDecoder exampleHandlers () exampleCorruptFile).state.packets
        = (createReplayConnection exampleDecoder exampleHandlers ()
            (replayFile 2 (writeFrames 2 (exampleCaptures.take 2)))).state.packets ∧
      (createReplayConnection exampleDecoder exampleHandlers () exampleCorruptFile).state.trace
          ++ callHandlers exampleHandlers (·.OnEnd) (fun h => .onEnd h)
        = (createReplayConnection exampleDecoder exampleHandlers ()
            (replayFile 2 (writeFrames 2 (exampleCaptures.take 2)))).state.trace :=
  wrong_end_sentinel_stops_replay exampleDecoder exampleHandlers () 2 (by decide) (by decide)
    (exampleCaptures.take 2) ⟨[7], false, 1234567890123⟩
    ([0xBB, 0xBB, 0xBB, 0xBA] ++ writeFrame 2 ⟨[9], true, 6⟩) (by decide) (by decide)
    (by decide) (by decide) (by intro c _ s e h; simp [exampleDecoder] at h) (by decide)

/-- A frame header that declares more payload bytes than the file still has,
with at least one payload byte there: the loop body reports a truncated
frame. -/
theorem readFrame_cut_payload (ver : Int) (i : Nat) (c : Capture) (part : List Byte)
    (hc : c.fits) (h0 : part ≠ []) (hlt : part.length < c.payload.length) :
    readFrame ver i (frameHeader ver c ++ part) = .truncated := by
  have e : frameHeader ver c ++ part = putLE 4 0xAAAAAAAA ++ (putLE 4 c.payload.length ++
      ((if c.toServer then 1 else 0) ::
        ((if ver ≥ 2 then putLE 8 (ofSigned 64 c.timeMs) else []) ++ part))) := by
    unfold frameHeader
    simp only [List.append_assoc, List.cons_append]
  rw [e, readFrame_header ver i _ _ (putLE 8 (ofSigned 64 c.timeMs)) _ _ (putLE_length _ _)
    getLE_startSentinel (putLE_length _ _) (putLE_length _ _), getLE_length_field c hc]
  have hlen : c.payload.length ≠ 0 := by omega
  have hne : (part.take (min c.payload.length maxRW)).length ≠ c.payload.length := by
    simp only [List.length_take]; omega
  simp only [fileRead, hlen, h0, if_false, hne, ne_eq, not_false_eq_true, if_true]

/-- A frame header that declares a payload, with no byte after the header:
`f.Read` returns `io.EOF` and the loop body takes the branch of line 104. -/
theorem readFrame_no_payload (ver : Int) (i : Nat) (c : Capture)
    (hc : c.fits) (h0 : c.payload ≠ []) :
    readFrame ver i (frameHeader ver c) = .readError := by
  have e : frameHeader ver c = putLE 4 0xAAAAAAAA ++ (putLE 4 c.payload.length ++
      ((if c.toServer then 1 else 0) ::
        ((if ver ≥ 2 then putLE 8 (ofSigned 64 c.timeMs) else []) ++ []))) := by
    unfold frameHeader
    simp only [List.append_nil]
  rw [e, readFrame_header ver i _ _ (putLE 8 (ofSigned 64 c.timeMs)) _ _ (putLE_length _ _)
    getLE_startSentinel (putLE_length _ _) (putLE_length _ _), getLE_length_field c hc]
  have hlen : c.payload.length ≠ 0 := by
    intro h; exact h0 (List.length_eq_zero.mp h)
  simp only [fileRead, hlen, if_false, if_true]

theorem frameHeader_starts (ver : Int) (c : Capture) (tail : List Byte) :
    frameHeader ver c ++ tail ≠ [] ∧ 4 ≤ (frameHeader ver c ++ tail).length ∧
      (frameHeader ver c ++ tail).take 4 = putLE 4 0xAAAAAAAA := by
  unfold frameHeader
  rw [List.append_assoc]
  exact ⟨by simp [putLE], by simp [putLE_length], List.take_left' (putLE_length _ _)⟩

/-- The part of C4 the code keeps. After whole frames that parse, a frame
whose header declares more payload bytes than the file has left, with at
least one of them there, makes `createReplayConnection` return the error
"truncated N", N the number of that frame. -/
theorem cut_payload_is_truncated (conn : σ) (ver : Int) (hv1 : 1 ≤ ver) (hv2 : ver < 2 ^ 31)
    (cs : List Capture) (c : Capture) (part : List Byte)
    (hfit : ∀ x ∈ cs, x.fits) (hc : c.fits) (hread : ∀ x ∈ cs, x.payload.length ≤ maxRW)
    (hparse : ∀ x ∈ cs, ∀ s e, (dec.decodeFrame s x.payload).2 ≠ .parseError e)
    (h0 : part ≠ []) (hlt : part.length < c.payload.length) :
    (createReplayConnection dec hs conn
        (replayFile ver (writeFrames ver cs ++ (frameHeader ver c ++ part)))).outcome
      = .ret (some (.truncated (cs.length + 1))) := by
  obtain ⟨st', _, hrun⟩ :=
    createReplayConnection_frames dec hs conn ver hv1 hv2 cs hfit hread hparse
  obtain ⟨hne, h4, htake⟩ := frameHeader_starts ver c part
  obtain ⟨fuel, hr⟩ := hrun (frameHeader ver c ++ part) (Or.inr ⟨h4, htake⟩)
  rw [hr, frameLoop_truncated dec hs ver fuel _ _ st' hne
    (readFrame_cut_payload ver _ c part hc h0 hlt)]

/-- The part of C4 the code misses. After whole frames that parse, a frame
header that declares a payload, with the file ending right after the header,
makes `createReplayConnection` log the read error, leave the loop and return
nil, as it does at a clean end of file. -/
theorem missing_payload_returns_nil (conn : σ) (ver : Int) (hv1 : 1 ≤ ver) (hv2 : ver < 2 ^ 31)
    (cs : List Capture) (c : Capture)
    (hfit : ∀ x ∈ cs, x.fits) (hc : c.fits) (hread : ∀ x ∈ cs, x.payload.length ≤ maxRW)
    (hparse : ∀ x ∈ cs, ∀ s e, (dec.decodeFrame s x.payload).2 ≠ .parseError e)
    (h0 : c.payload ≠ []) :
    (createReplayConnection dec hs conn
        (replayFile ver (writeFrames ver cs ++ frameHeader ver c))).outcome = .ret none := by
  obtain ⟨st', _, hrun⟩ :=
    createReplayConnection_frames dec hs conn ver hv1 hv2 cs hfit hread hparse
  obtain ⟨hne, h4, htake⟩ := frameHeader_starts ver c []
  rw [List.append_nil] at hne h4 htake
  obtain ⟨fuel, hr⟩ := hrun (frameHeader ver c) (Or.inr ⟨h4, htake⟩)
  rw [hr, frameLoop_readError dec hs ver fuel _ _ st' hne (readFrame_no_payload ver _ c hc h0)]
  rfl

end Replay

/-- C4 at the failing input: a version 2 file that ends right after a frame
header declaring a payload of one byte. The run returns nil, not the error
"truncated 1"; it took the read error branch once and made the `OnEnd` call
of a clean end of file. -/
theorem short_read_without_payload_returns_nil :
    (createReplayConnection exampleDecoder exampleHandlers () exampleCutFile).outcome
        = .ret none ∧
      (createReplayConnection exampleDecoder exampleHandlers () exampleCutFile).outcome
        ≠ .ret (some (.truncated 1)) ∧
      (createReplayConnection exampleDecoder exampleHandlers () exampleCutFile).state.readErrors
        = 1 ∧
      (createReplayConnection exampleDecoder exampleHandlers () exampleCutFile).state.trace
        = [.onEnd 0] := by
  decide

section Session
variable {σ P E : Type} (dec : Decoder σ P E) (hs : List Handler)

theorem filter_callHandlers_of_true (has : Handler → Bool) (cb : Nat → Event P) (p : Event P → Bool)
    (h : ∀ i, p (cb i) = true) :
    (callHandlers hs has cb).filter p = callHandlers hs has cb := by
  unfold callHandlers
  rw [List.filter_eq_self]
  intro e he
  rw [List.mem_filterMap] at he
  obtain ⟨ih, _, hih⟩ := he
  split_ifs at hih
  cases hih
  exact h _

theorem filter_callHandlers_of_false (has : Handler → Bool) (cb : Nat → Event P)
    (p : Event P → Bool) (h : ∀ i, p (cb i) = false) :
    (callHandlers hs has cb).filter p = [] := by
  unfold callHandlers
  rw [List.filter_eq_nil_iff]
  intro e he
  rw [List.mem_filterMap] at he
  obtain ⟨ih, _, hih⟩ := he
  split_ifs at hih
  cases hih
  simp [h]

theorem expectedSessionCalls_of_not_started (pks : List (P × Bool × Time))
    (h : pks.any (fun p => dec.isStartGame p.1) = false) :
    expectedSessionCalls dec hs pks = [] := by
  have : pks.dropWhile (fun p => !dec.isStartGame p.1) = [] := by
    rw [List.dropWhile_eq_nil_iff]
    intro x hx
    have := List.any_eq_false.mp h x hx
    simpa using this
  simp [expectedSessionCalls, this]

theorem expectedSessionCalls_append_of_not_started (pks : List (P × Bool × Time))
    (a : P × Bool × Time) (h : pks.any (fun p => dec.isStartGame p.1) = false) :
    expectedSessionCalls dec hs (pks ++ [a]) =
      if dec.isStartGame a.1 then callHandlers hs (·.ConnectCB) (fun h => .connectCB h) else [] := by
  have h0 : pks.dropWhile (fun p => !dec.isStartGame p.1) = [] := by
    rw [List.dropWhile_eq_nil_iff]
    intro x hx
    have := List.any_eq_false.mp h x hx
    simpa using this
  unfold expectedSessionCalls
  rw [List.dropWhile_append, h0]
  by_cases ha : dec.isStartGame a.1 = true
  · simp [List.dropWhile, ha]
  · simp [List.dropWhile, ha]

theorem expectedSessionCalls_append_of_started (pks : List (P × Bool × Time))
    (a : P × Bool × Time) (h : pks.any (fun p => dec.isStartGame p.1) = true) :
    expectedSessionCalls dec hs (pks ++ [a]) =
      expectedSessionCalls dec hs pks ++
        callHandlers hs (·.PacketCB) (fun h => .packetCB h a.1 a.2.1 a.2.2) := by
  unfold expectedSessionCalls
  rw [List.dropWhile_append]
  rcases hd : pks.dropWhile (fun p => !dec.isStartGame p.1) with _ | ⟨sg, later⟩
  · exfalso
    rw [List.dropWhile_eq_nil_iff] at hd
    obtain ⟨x, hx, hsg⟩ := List.any_eq_true.mp h
    have := hd x hx
    simp [hsg] at this
  · simp [hd]

theorem dispatchPacket_coherent (fr : Frame) (st : ReplayState σ P) (pk : P)
    (hfr : fr ∈ st.frames) (h : st.Coherent dec hs) :
    (dispatchPacket dec hs fr.toServer fr.timeReceived st pk).Coherent dec hs := by
  obtain ⟨h1, h2, h3⟩ := h
  have hmem : ∀ p ∈ st.packets ++ [(pk, fr.toServer, fr.timeReceived)],
      ∃ fr' ∈ st.frames, p.2 = (fr'.toServer, fr'.timeReceived) := by
    intro p hp
    rcases List.mem_append.mp hp with hp | hp
    · exact h3 p hp
    · rw [List.mem_singleton] at hp
      subst hp
      exact ⟨fr, hfr, rfl⟩
  have hpf : (callHandlers hs (·.PacketFunc)
      (fun h => Event.packetFunc h pk fr.toServer)).filter Event.isSessionCB = [] :=
    filter_callHandlers_of_false hs _ _ _ (fun _ => rfl)
  have hpc : (callHandlers hs (·.PacketCB)
      (fun h => Event.packetCB h pk fr.toServer fr.timeReceived)).filter Event.isSessionCB
      = callHandlers hs (·.PacketCB) (fun h => Event.packetCB h pk fr.toServer fr.timeReceived) :=
    filter_callHandlers_of_true hs _ _ _ (fun _ => rfl)
  have hcc : (callHandlers hs (·.ConnectCB)
      (fun h => (Event.connectCB h : Event P))).filter Event.isSessionCB
      = callHandlers hs (·.ConnectCB) (fun h => Event.connectCB h) :=
    filter_callHandlers_of_true hs _ _ _ (fun _ => rfl)
  unfold dispatchPacket
  dsimp only
  by_cases hg : st.gameStarted = true
  · have hany : st.packets.any (fun p => dec.isStartGame p.1) = true := by rw [← h1]; exact hg
    rw [if_pos hg]
    refine ⟨?_, ?_, hmem⟩
    · dsimp only
      rw [List.any_append, hany, hg]; rfl
    · dsimp only
      rw [List.filter_append, List.filter_append, hpf, hpc, List.append_nil, h2,
        expectedSessionCalls_append_of_started dec hs _ _ hany]
  · have hany : st.packets.any (fun p => dec.isStartGame p.1) = false := by
      rw [← h1]; simpa using hg
    have he := expectedSessionCalls_of_not_started dec hs _ hany
    rw [if_neg hg]
    by_cases hsg : dec.isStartGame pk = true
    · rw [if_pos hsg]
      refine ⟨?_, ?_, hmem⟩
      · dsimp only
        rw [List.any_append, hany]
        simp [hsg]
      · dsimp only
        rw [List.filter_append, List.filter_append, hpf, hcc, List.append_nil, h2, he,
          List.nil_append, expectedSessionCalls_append_of_not_started dec hs _ _ hany, if_pos hsg]
    · rw [if_neg hsg]
      refine ⟨?_, ?_, hmem⟩
      · dsimp only
        rw [List.any_append, hany]
        simp only [Bool.not_eq_true] at hg hsg
        simp [hsg, hg]
      · dsimp only
        rw [List.filter_append, hpf, List.append_nil, h2, he,
          expectedSessionCalls_append_of_not_started dec hs _ _ hany, if_neg hsg]

theorem foldl_dispatchPacket_coherent (fr : Frame) (pks : List P) (st : ReplayState σ P)
    (hfr : fr ∈ st.frames) (h : st.Coherent dec hs) :
    (pks.foldl (dispatchPacket dec hs fr.toServer fr.timeReceived) st).Coherent dec hs := by
  induction pks generalizing st with
  | nil => exact h
  | cons pk pks ih =>
    rw [List.foldl_cons]
    exact ih _ (by rw [dispatchPacket_frames]; exact hfr) (dispatchPacket_coherent dec hs fr st pk hfr h)

theorem finish_coherent (st : ReplayState σ P) (h : st.Coherent dec hs) :
    (finish (E := E) hs st).state.Coherent dec hs := by
  obtain ⟨h1, h2, h3⟩ := h
  refine ⟨h1, ?_, h3⟩
  have hoe : (callHandlers hs (·.OnEnd)
      (fun h => (Event.onEnd h : Event P))).filter Event.isSessionCB = [] :=
    filter_callHandlers_of_false hs _ _ _ (fun _ => rfl)
  simp only [finish, List.filter_append, hoe, List.append_nil, h2]

theorem frameLoop_coherent (ver : Int) (fuel i : Nat) (f : List Byte) (st : ReplayState σ P)
    (h : st.Coherent dec hs) : (frameLoop dec hs ver fuel i f st).state.Coherent dec hs := by
  induction fuel generalizing i f st with
  | zero => exact h
  | succ n ih =>
    rw [frameLoop]
    by_cases hf : f = []
    · simp only [hf, if_true]; exact finish_coherent dec hs st h
    · simp only [hf, if_false]
      cases hr : readFrame ver (i + 1) f with
      | wrongMagic => exact h
      | readError => exact finish_coherent dec hs _ h
      | truncated => exact h
      | wrongMagic2 => exact h
      | frame fr rest =>
        have h' : ∀ conn, ({ st with frames := st.frames ++ [fr], conn := conn } :
            ReplayState σ P).Coherent dec hs := by
          intro conn
          obtain ⟨h1, h2, h3⟩ := h
          refine ⟨h1, h2, fun p hp => ?_⟩
          obtain ⟨fr', hfr', e⟩ := h3 p hp
          exact ⟨fr', List.mem_append_left _ hfr', e⟩
        dsimp only
        rcases hd : dec.decodeFrame st.conn fr.payload with ⟨conn, _ | _ | pks⟩
        · exact h' conn
        · exact ih _ _ _ (h' conn)
        · exact ih _ _ _ (foldl_dispatchPacket_coherent dec hs fr pks _ (by simp) (h' conn))

theorem initialState_coherent (conn : σ) : (initialState (P := P) conn).Coherent dec hs := by
  refine ⟨rfl, rfl, ?_⟩
  intro p hp
  cases hp

theorem createReplayConnection_coherent (conn : σ) (file : List Byte) :
    (createReplayConnection dec hs conn file).state.Coherent dec hs := by
  unfold createReplayConnection
  dsimp only
  split_ifs
  · rcases binaryRead 4 (file.drop 4) with ⟨_ | hdr, rest⟩
    · exact initialState_coherent dec hs conn
    · exact frameLoop_coherent dec hs _ _ _ _ _ (initialState_coherent dec hs conn)
  · exact frameLoop_coherent dec hs _ _ _ _ _ (initialState_coherent dec hs conn)
  · exact frameLoop_coherent dec hs _ _ _ _ _ (initialState_coherent dec hs conn)

end Session

/-! ## Theorems: chunk handlers -/

section Handlers
variable {W E : Type} (env : Env W E)

theorem loadColumns_bugCheck_iff (w : W) (pk : SubChunkPacket) (ents : List SubChunkEntry)
    (columns : GoMap ChunkPos Column)
    (hload : ∀ ent ∈ ents, ∀ e, env.LoadChunk w (entryPos pk ent) ≠ .error e)
    (hcols : ∀ pos, (columns.lookup pos).isSome → ∃ col, env.LoadChunk w pos = .ok (some col)) :
    loadColumns env w pk ents columns = .error .bugCheck ↔
      ∃ ent ∈ ents, ent.Result = .success ∧ env.Ignored w (entryPos pk ent) = false ∧
        env.LoadChunk w (entryPos pk ent) = .ok none := by
  induction ents generalizing columns with
  | nil => simp [loadColumns]
  | cons ent rest ih =>
    have hload' : ∀ x ∈ rest, ∀ e, env.LoadChunk w (entryPos pk x) ≠ .error e :=
      fun x hx => hload x (List.mem_cons_of_mem _ hx)
    have hent := hload ent (List.mem_cons_self _ _)
    rw [loadColumns]
    dsimp only
    by_cases hres : ent.Result = .success
    swap
    · rw [if_pos hres, ih columns hload' hcols]
      simp [hres]
    rw [if_neg (not_not.mpr hres)]
    by_cases hign : env.Ignored w (entryPos pk ent) = true
    · rw [if_pos hign, ih columns hload' hcols]
      simp [hign]
    rw [if_neg hign]
    have hign' : env.Ignored w (entryPos pk ent) = false := by simpa using hign
    by_cases hin : (columns.lookup (entryPos pk ent)).isSome = true
    · rw [if_pos hin, ih columns hload' hcols]
      obtain ⟨col, hcol⟩ := hcols _ hin
      simp [hcol]
    rw [if_neg hin]
    rcases hl : env.LoadChunk w (entryPos pk ent) with e | (_ | col)
    · exact absurd hl (hent e)
    · simp only [true_iff]
      exact ⟨ent, List.mem_cons_self _ _, hres, hign', hl⟩
    · simp only
      rw [ih (columns.insert (entryPos pk ent) col) hload' ?_]
      · simp [hl]
      · intro pos hpos
        by_cases hp : pos = entryPos pk ent
        · subst hp; exact ⟨col, hl⟩
        · rw [AList.lookup_insert_ne hp] at hpos
          exact hcols pos hpos

theorem decodeBlockNBTs_ne_bugCheck (fuel : Nat) (buf : List Byte) (be : GoMap Pos UnknownBlock) :
    decodeBlockNBTs env fuel buf be ≠ .error .bugCheck := by
  induction fuel generalizing buf be with
  | zero =>
    rw [decodeBlockNBTs]
    split_ifs <;> simp
  | succ n ih =>
    rw [decodeBlockNBTs]
    split_ifs
    · rcases env.DecodeNBT buf with e | ⟨blockNBT, buf'⟩
      · simp
      · dsimp only
        rcases blockEntityOf blockNBT with _ | ⟨p, b⟩
        · simp
        · exact ih _ _
    · simp

theorem applyEntries_ne_bugCheck (pk : SubChunkPacket) (ents : List SubChunkEntry)
    (st : SubChunkState) : (applyEntries env pk ents st).2 ≠ some .bugCheck := by
  induction ents generalizing st with
  | nil => simp [applyEntries]
  | cons ent rest ih =>
    rw [applyEntries]
    dsimp only
    rcases st.columns.lookup (entryPos pk ent) with _ | col
    · exact ih _
    · dsimp only
      rcases hres : ent.Result with _ | _ | code
      · dsimp only
        rcases env.DecodeSubChunk ent.RawPayload _ with e | ⟨sub, index, buf⟩
        · simp
        · dsimp only
          split_ifs
          · rcases hd : decodeBlockNBTs env buf.length buf col.BlockEntities with e | be
            · dsimp only
              intro h
              simp only [Option.some.injEq] at h
              exact decodeBlockNBTs_ne_bugCheck env _ _ _ (h ▸ hd)
            · exact ih _
          · simp
      · exact ih _
      · exact ih _

/-- C6 as the code has it. When `LoadChunk` itself reports no error,
`processSubChunk` fails with "bug check: subchunk received before chunk"
exactly when some entry with the result code success addresses a position
that is not marked ignored and has no stored column. Entries with any other
result code, and positions marked ignored, never raise it. -/
theorem sub_chunk_before_chunk_iff (w : W) (pk : SubChunkPacket)
    (hload : ∀ ent ∈ pk.SubChunkEntries, ∀ e, env.LoadChunk w (entryPos pk ent) ≠ .error e) :
    (processSubChunk env w pk).err = some .bugCheck ↔
      ∃ ent ∈ pk.SubChunkEntries, ent.Result = .success ∧
        env.Ignored w (entryPos pk ent) = false ∧
        env.LoadChunk w (entryPos pk ent) = .ok none := by
  rw [← loadColumns_bugCheck_iff env w pk pk.SubChunkEntries ∅ hload
    (by intro pos h; simp at h)]
  unfold processSubChunk
  rcases hl : loadColumns env w pk pk.SubChunkEntries ∅ with e | columns
  · simp
  · dsimp only
    rcases ha : applyEntries env pk pk.SubChunkEntries ⟨columns, []⟩ with ⟨st, _ | e⟩
    · simp
    · have := applyEntries_ne_bugCheck env pk pk.SubChunkEntries ⟨columns, []⟩
      rw [ha] at this
      simp only [Option.some.injEq, reduceCtorEq, iff_false]
      intro h
      exact this (by rw [h])

theorem loadColumns_of_no_success (w : W) (pk : SubChunkPacket) (ents : List SubChunkEntry)
    (columns : GoMap ChunkPos Column) (h : ∀ ent ∈ ents, ent.Result ≠ .success) :
    loadColumns env w pk ents columns = .ok columns := by
  induction ents with
  | nil => rfl
  | cons ent rest ih =>
    rw [loadColumns, if_pos (h ent (List.mem_cons_self _ _))]
    exact ih (fun x hx => h x (List.mem_cons_of_mem _ hx))

theorem applyEntries_of_no_column (pk : SubChunkPacket) (ents : List SubChunkEntry) :
    applyEntries env pk ents ⟨∅, []⟩ = (⟨∅, []⟩, none) := by
  induction ents with
  | nil => rfl
  | cons ent rest ih =>
    rw [applyEntries]
    dsimp only
    rw [AList.lookup_empty]
    exact ih

/-- C7. A sub chunk packet none of whose entries has the result code success
is a no-op: `processSubChunk` returns no error, hands no payload to the
decoder, and leaves the world as it was, without a call of `StoreChunk`. -/
theorem sub_chunk_without_success_is_noop (w : W) (pk : SubChunkPacket)
    (h : ∀ ent ∈ pk.SubChunkEntries, ent.Result ≠ .success) :
    (processSubChunk env w pk).err = none ∧ (processSubChunk env w pk).decoded = [] ∧
      (processSubChunk env w pk).world = w := by
  unfold processSubChunk
  rw [loadColumns_of_no_success env w pk _ ∅ h]
  dsimp only
  rw [applyEntries_of_no_column]
  exact ⟨rfl, rfl, rfl⟩

theorem offsetLoop_eq (y : Int) (count : Nat) :
    offsetLoop y count = (List.range count).map (fun j : Nat => ((0 : Int), y + (j : Int), (0 : Int))) := by
  induction count generalizing y with
  | zero => rfl
  | succ n ih =>
    rw [offsetLoop, ih, List.range_succ_eq_map, List.map_cons, List.map_map]
    simp only [Nat.cast_zero, add_zero, List.cons.injEq, true_and]
    apply List.map_congr_left
    intro j _
    simp only [Function.comp, Nat.cast_succ]
    ring_nf

theorem take_offsetLoop (y : Int) (count k : Nat) :
    (offsetLoop y count).take k
      = (List.range (min k count)).map (fun j : Nat => ((0 : Int), y + (j : Int), (0 : Int))) := by
  rw [offsetLoop_eq, ← List.map_take, List.take_range]

theorem length_offsetLoop (y : Int) (count : Nat) : (offsetLoop y count).length = count := by
  rw [offsetLoop_eq]; simp

/-- C8 as the code has it. For a level chunk packet in limited mode with a
payload that decodes, cache disabled and the chunk accepted, the sub chunk
request carries the first `HighestSubChunk + 1` entries of the offset table of
the dimension, capped at the length of the table: the vertical offsets
`int8(Min/16) + j` for `j = 0, 1, ...` in increasing order. They are
0, 1, ..., `HighestSubChunk` when `int8(Min/16)` is 0 and the table is long
enough. -/
theorem limited_request_offsets (w : W) (pk : LevelChunkPacket) (t : Time)
    (ch : Chunk) (nbts : List NBTMap) (be : GoMap Pos UnknownBlock)
    (hne : pk.RawPayload ≠ []) (hmode : pk.SubChunkCount = .limited)
    (hcache : pk.CacheEnabled = false)
    (hdec : env.NetworkDecode pk.RawPayload 0 = .ok (ch, nbts))
    (hbe : blockEntitiesOf nbts ∅ = some be)
    (hadd : env.OnChunkAdd pk.Position t = true) :
    ∃ req, (processLevelChunk env w pk t).request = some req ∧
      (processLevelChunk env w pk t).err = none ∧
      req.Position = (pk.Position.1, 0, pk.Position.2) ∧
      (let r := env.Range (env.StoreChunk (env.setIgnored w pk.Position false) pk.Position ⟨ch, be⟩)
       let lo := int8 (Int.tdiv r.1 16)
       let n := (int8 (int8 (Int.tdiv r.2 16) + 1) - lo).toNat
       req.Offsets = (List.range (min (pk.HighestSubChunk + 1) n)).map
          (fun j : Nat => ((0 : Int), lo + (j : Int), (0 : Int))) ∧
        (lo = 0 → pk.HighestSubChunk < n →
          req.Offsets = (List.range (pk.HighestSubChunk + 1)).map
            (fun j : Nat => ((0 : Int), (j : Int), (0 : Int))))) := by
  have hlen : pk.RawPayload.length ≠ 0 := by
    intro h; exact hne (List.length_eq_zero.mp h)
  have hb : ∀ tbl : List (Int × Int × Int),
      ¬ (min ((pk.HighestSubChunk : Int) + 1) (tbl.length : Int) < 0) := by
    intro tbl; omega
  have hk : ∀ tbl : List (Int × Int × Int),
      (min ((pk.HighestSubChunk : Int) + 1) (tbl.length : Int)).toNat
        = min (pk.HighestSubChunk + 1) tbl.length := by
    intro tbl; omega
  unfold processLevelChunk
  simp only [hlen, if_false, hmode, hcache, Bool.false_eq_true, hdec, hbe, hadd, Bool.not_true,
    hb, hk]
  refine ⟨_, rfl, trivial, rfl, ?_⟩
  dsimp only
  have e1 : (offsetTable (env.Range (env.StoreChunk (env.setIgnored w pk.Position false)
      pk.Position ⟨ch, be⟩))).take
        (min (pk.HighestSubChunk + 1) (offsetTable (env.Range (env.StoreChunk
          (env.setIgnored w pk.Position false) pk.Position ⟨ch, be⟩))).length)
      = (List.range (min (pk.HighestSubChunk + 1)
          (int8 (int8 (Int.tdiv (env.Range (env.StoreChunk (env.setIgnored w pk.Position false)
            pk.Position ⟨ch, be⟩)).2 16) + 1) - int8 (Int.tdiv (env.Range (env.StoreChunk
            (env.setIgnored w pk.Position false) pk.Position ⟨ch, be⟩)).1 16)).toNat)).map
          (fun j : Nat => ((0 : Int), int8 (Int.tdiv (env.Range (env.StoreChunk
            (env.setIgnored w pk.Position false) pk.Position ⟨ch, be⟩)).1 16) + (j : Int),
            (0 : Int))) := by
    unfold offsetTable
    dsimp only
    rw [length_offsetLoop, take_offsetLoop]
    congr 2
    omega
  refine ⟨e1, fun hlo hh => ?_⟩
  rw [e1, hlo, Nat.min_eq_left (by omega)]
  simp

end Handlers

/-- C6, the counterexample: the packet addresses position (0,0), where no
column is stored, with an entry whose result code is success-all-air, and
`processSubChunk` returns no error. -/
theorem sub_chunk_without_column_no_error :
    (exampleEnv (-64, 319)).LoadChunk ∅
        (entryPos exampleAllAirPacket ⟨(0, 0, 0), .successAllAir, []⟩) = .ok none ∧
      (processSubChunk (exampleEnv (-64, 319)) ∅ exampleAllAirPacket).err = none :=
  ⟨rfl, by decide⟩

/-- C6 as the code has it, an instance: the second entry has the result code
success and addresses (1,0), where no column is stored. -/
theorem sub_chunk_before_chunk_iff_witness :
    (processSubChunk (exampleEnv (-64, 319)) ∅ exampleSuccessPacket).err = some .bugCheck :=
  (sub_chunk_before_chunk_iff (exampleEnv (-64, 319)) ∅ exampleSuccessPacket
    (by intro ent _ e h; simp [exampleEnv] at h)).mpr
    ⟨⟨(1, 0, 0), .success, [1, 2]⟩, by decide, rfl, rfl, rfl⟩

/-- C7, an instance: a packet with one all-air entry. -/
theorem sub_chunk_without_success_is_noop_witness :
    (processSubChunk (exampleEnv (-64, 319)) ∅ exampleAllAirPacket).err = none ∧
      (processSubChunk (exampleEnv (-64, 319)) ∅ exampleAllAirPacket).decoded = [] ∧
      (processSubChunk (exampleEnv (-64, 319)) ∅ exampleAllAirPacket).world = ∅ :=
  sub_chunk_without_success_is_noop (exampleEnv (-64, 319)) ∅ exampleAllAirPacket (by decide)

/-- C8, the counterexample: in a dimension of 24 slabs with the vertical range
-64 to 319, limited mode with highest sub chunk 3 requests the offsets
-4, -3, -2, -1, not 0, 1, 2, 3. -/
theorem limited_request_offsets_start_at_minimum :
    (processLevelChunk (exampleEnv (-64, 319)) ∅ exampleLevelChunk (.now 0)).request.map
        (·.Offsets) = some [(0, -4, 0), (0, -3, 0), (0, -2, 0), (0, -1, 0)] ∧
      (processLevelChunk (exampleEnv (-64, 319)) ∅ exampleLevelChunk (.now 0)).request.map
        (·.Offsets) ≠ some [(0, 0, 0), (0, 1, 0), (0, 2, 0), (0, 3, 0)] := by
  decide

/-- C8 as the code has it, an instance: in a dimension of 24 slabs with the
vertical range 0 to 383 the offsets are 0, 1, 2, 3. -/
theorem limited_request_offsets_witness :
    ∃ req, (processLevelChunk (exampleEnv (0, 383)) ∅ exampleLevelChunk (.now 0)).request
        = some req ∧ req.Offsets = [(0, 0, 0), (0, 1, 0), (0, 2, 0), (0, 3, 0)] := by
  obtain ⟨req, h1, _, _, _, h3⟩ :=
    limited_request_offsets (exampleEnv (0, 383)) ∅ exampleLevelChunk (.now 0)
      ⟨List.replicate 24 exampleAir⟩ [] ∅ (by decide) rfl rfl rfl rfl rfl
  exact ⟨req, h1, by rw [h3 (by decide) (by decide)]; rfl⟩

/-! ## Theorems: world state -/

theorem scanEmpty_eq_all (subs : List SubChunk) : scanEmpty subs = subs.all (·.empty) := by
  induction subs with
  | nil => rfl
  | cons s rest ih =>
    rw [scanEmpty, List.all_cons, ih]
    cases s.empty <;> simp

theorem lookup_foldl_cull (l : List (Sigma (fun _ : ChunkPos => Chunk)))
    (m : GoMap ChunkPos Chunk) (p : ChunkPos) :
    (l.foldl (fun m e => if scanEmpty e.2.sub then m.erase e.1 else m) m).lookup p
      = if ∃ e ∈ l, e.1 = p ∧ scanEmpty e.2.sub = true then none else m.lookup p := by
  induction l generalizing m with
  | nil => simp
  | cons e l ih =>
    rw [List.foldl_cons, ih]
    by_cases h1 : ∃ e' ∈ l, e'.1 = p ∧ scanEmpty e'.2.sub = true
    · have h2 : ∃ e' ∈ e :: l, e'.1 = p ∧ scanEmpty e'.2.sub = true := by
        obtain ⟨e', he', h⟩ := h1
        exact ⟨e', List.mem_cons_of_mem _ he', h⟩
      rw [if_pos h1, if_pos h2]
    · rw [if_neg h1]
      by_cases h3 : e.1 = p ∧ scanEmpty e.2.sub = true
      · have h2 : ∃ e' ∈ e :: l, e'.1 = p ∧ scanEmpty e'.2.sub = true :=
          ⟨e, List.mem_cons_self _ _, h3⟩
        rw [if_pos h2, if_pos h3.2, ← h3.1, AList.lookup_erase]
      · have h2 : ¬ ∃ e' ∈ e :: l, e'.1 = p ∧ scanEmpty e'.2.sub = true := by
          rintro ⟨e', he', h⟩
          rcases List.mem_cons.mp he' with rfl | he'
          · exact h3 h
          · exact h1 ⟨e', he', h⟩
        rw [if_neg h2]
        by_cases h4 : scanEmpty e.2.sub = true
        · rw [if_pos h4]
          have hne : p ≠ e.1 := fun hp => h3 ⟨hp.symm, h4⟩
          rw [AList.lookup_erase_ne hne]
        · rw [if_neg h4]

/-- The chunks map after the cull pass, position by position. -/
theorem lookup_cullChunks (w : worldStateMem) (p : ChunkPos) :
    w.cullChunks.chunks.lookup p
      = match w.chunks.lookup p with
        | some ch => if ch.sub.all (·.empty) then none else some ch
        | none => none := by
  unfold worldStateMem.cullChunks
  dsimp only
  rw [lookup_foldl_cull]
  rcases hl : w.chunks.lookup p with _ | ch
  · dsimp only
    split_ifs <;> rfl
  · dsimp only
    have hmem : (⟨p, ch⟩ : Sigma (fun _ : ChunkPos => Chunk)) ∈ w.chunks.entries :=
      AList.mem_lookup_iff.mp (by rw [hl]; rfl)
    by_cases ha : ch.sub.all (·.empty) = true
    · rw [if_pos ha, if_pos]
      exact ⟨⟨p, ch⟩, hmem, rfl, by rw [scanEmpty_eq_all]; exact ha⟩
    · rw [if_neg ha, if_neg]
      rintro ⟨⟨p', ch'⟩, he, hp, hs⟩
      dsimp only at hp hs
      subst hp
      have : ch' ∈ w.chunks.lookup p' := AList.mem_lookup_iff.mpr he
      rw [hl] at this
      have hc : ch' = ch := by simpa using this.symm
      subst hc
      rw [scanEmpty_eq_all] at hs
      exact ha hs

/-- C9. After the cull pass a position is in the chunks map exactly when it
was there before and its column has a slab that is not empty; a column is
removed exactly when every slab it holds is empty; a column that stays is the
column that was stored; the other maps of the store are untouched. -/
theorem cullChunks_removes_exactly_empty_columns (w : worldStateMem) (p : ChunkPos) :
    (p ∈ w.cullChunks.chunks ↔
        ∃ ch, w.chunks.lookup p = some ch ∧ ∃ sub ∈ ch.sub, sub.empty = false) ∧
      (∀ ch, w.chunks.lookup p = some ch →
        (w.cullChunks.chunks.lookup p = none ↔ ∀ sub ∈ ch.sub, sub.empty = true)) ∧
      (∀ ch, w.cullChunks.chunks.lookup p = some ch → w.chunks.lookup p = some ch) ∧
      w.cullChunks.blockNBTs = w.blockNBTs ∧ w.cullChunks.entities = w.entities ∧
      w.cullChunks.entityLinks = w.entityLinks ∧
      w.cullChunks.uniqueIDsToRuntimeIDs = w.uniqueIDsToRuntimeIDs := by
  have hl := lookup_cullChunks w p
  refine ⟨?_, ?_, ?_, rfl, rfl, rfl, rfl⟩
  · rw [← AList.lookup_isSome, hl]
    rcases w.chunks.lookup p with _ | ch
    · simp
    · by_cases ha : ch.sub.all (·.empty) = true
      · simp only [ha, if_true, Option.isSome_none, Bool.false_eq_true, Option.some.injEq,
          exists_eq_left', false_iff, not_exists, not_and]
        intro sub hsub
        simpa using List.all_eq_true.mp ha sub hsub
      · simp only [ha, if_false, Option.isSome_some, Option.some.injEq, exists_eq_left', true_iff]
        simpa using ha
  · intro ch hch
    rw [hl, hch]
    dsimp only
    by_cases ha : ch.sub.all (·.empty) = true
    · simp only [ha, if_true, true_iff]
      exact fun sub hsub => List.all_eq_true.mp ha sub hsub
    · simp only [ha, if_false, reduceCtorEq, false_iff]
      intro h
      exact ha (List.all_eq_true.mpr h)
  · intro ch hch
    rw [hl] at hch
    rcases h : w.chunks.lookup p with _ | ch'
    · rw [h] at hch; simp at hch
    · rw [h] at hch
      dsimp only at hch
      split_ifs at hch
      exact hch

theorem int32_of_range (z : Int) (h1 : -2 ^ 31 ≤ z) (h2 : z < 2 ^ 31) : int32 z = z := by
  unfold int32
  norm_num at h1 h2 ⊢
  omega

theorem sqrtBits_bounds (n b r : Nat) (h1 : r * r ≤ n) (h2 : n < (r + 2 ^ b) * (r + 2 ^ b)) :
    sqrtBits n b r * sqrtBits n b r ≤ n ∧ n < (sqrtBits n b r + 1) * (sqrtBits n b r + 1) := by
  induction b generalizing r with
  | zero => exact ⟨h1, by simpa using h2⟩
  | succ b ih =>
    rw [sqrtBits]
    split_ifs with hc
    · exact ih _ hc (by
        have : r + 2 ^ b + 2 ^ b = r + 2 ^ (b + 1) := by rw [pow_succ]; omega
        rw [this]; exact h2)
    · exact ih r h1 (by omega)

/-- Below 2^32 the square root by bits is the integer square root. -/
theorem sqrtBits_eq_sqrt (n : Nat) (h : n < 2 ^ 32) : sqrtBits n 16 0 = Nat.sqrt n := by
  obtain ⟨h1, h2⟩ := sqrtBits_bounds n 16 0 (by simp) (by norm_num at h ⊢; omega)
  exact Nat.eq_sqrt.mpr ⟨h1, h2⟩

/-- Within 32767 chunks of the center the 32-bit arithmetic is exact, and the
distance of line 84 is the integer square root, rounded down, of the squared
distance. -/
theorem chunkDist_of_near (cp : ChunkPos) (around : Pos)
    (hx1 : -2 ^ 31 ≤ Int.tdiv around.1 16) (hx2 : Int.tdiv around.1 16 < 2 ^ 31)
    (hz1 : -2 ^ 31 ≤ Int.tdiv around.2.2 16) (hz2 : Int.tdiv around.2.2 16 < 2 ^ 31)
    (hdx : |cp.1 - Int.tdiv around.1 16| < 2 ^ 15)
    (hdz : |cp.2 - Int.tdiv around.2.2 16| < 2 ^ 15) :
    chunkDist cp around
      = (Nat.sqrt ((cp.1 - Int.tdiv around.1 16) ^ 2
          + (cp.2 - Int.tdiv around.2.2 16) ^ 2).toNat : Nat) := by
  have hdx' := abs_lt.mp hdx
  have hdz' := abs_lt.mp hdz
  have sqx : (cp.1 - Int.tdiv around.1 16) ^ 2 < 2 ^ 30 := by
    have := sq_lt_sq' hdx'.1 hdx'.2
    norm_num at this ⊢
    linarith
  have sqz : (cp.2 - Int.tdiv around.2.2 16) ^ 2 < 2 ^ 30 := by
    have := sq_lt_sq' hdz'.1 hdz'.2
    norm_num at this ⊢
    linarith
  have px := sq_nonneg (cp.1 - Int.tdiv around.1 16)
  have pz := sq_nonneg (cp.2 - Int.tdiv around.2.2 16)
  unfold chunkDist i32Pow
  rw [int32_of_range _ hx1 hx2, int32_of_range _ hz1 hz2,
    int32_of_range (cp.1 - Int.tdiv around.1 16) (by norm_num at hdx' ⊢; linarith [hdx'.1])
      (by norm_num at hdx' ⊢; linarith [hdx'.2]),
    int32_of_range (cp.2 - Int.tdiv around.2.2 16) (by norm_num at hdz' ⊢; linarith [hdz'.1])
      (by norm_num at hdz' ⊢; linarith [hdz'.2]),
    int32_of_range ((cp.1 - Int.tdiv around.1 16) ^ 2) (by norm_num; linarith)
      (by norm_num at sqx ⊢; linarith),
    int32_of_range ((cp.2 - Int.tdiv around.2.2 16) ^ 2) (by norm_num; linarith)
      (by norm_num at sqz ⊢; linarith),
    int32_of_range _ (by norm_num; linarith) (by norm_num at sqx sqz ⊢; linarith)]
  unfold i32Sqrt
  rw [if_neg (by linarith), sqrtBits_eq_sqrt]
  have h31 : (cp.1 - Int.tdiv around.1 16) ^ 2 + (cp.2 - Int.tdiv around.2.2 16) ^ 2
      < 2 ^ 32 := by
    norm_num at sqx sqz ⊢; linarith
  have hnn : 0 ≤ (cp.1 - Int.tdiv around.1 16) ^ 2 + (cp.2 - Int.tdiv around.2.2 16) ^ 2 := by
    linarith
  zify
  rw [Int.toNat_of_nonneg hnn]
  exact_mod_cast h31

theorem chunkDist_le_iff (cp : ChunkPos) (around : Pos) (radius : Int)
    (hx1 : -2 ^ 31 ≤ Int.tdiv around.1 16) (hx2 : Int.tdiv around.1 16 < 2 ^ 31)
    (hz1 : -2 ^ 31 ≤ Int.tdiv around.2.2 16) (hz2 : Int.tdiv around.2.2 16 < 2 ^ 31)
    (hdx : |cp.1 - Int.tdiv around.1 16| < 2 ^ 15)
    (hdz : |cp.2 - Int.tdiv around.2.2 16| < 2 ^ 15) (hr : 0 ≤ radius) :
    chunkDist cp around ≤ radius ↔
      (cp.1 - Int.tdiv around.1 16) ^ 2 + (cp.2 - Int.tdiv around.2.2 16) ^ 2
        < (radius + 1) ^ 2 := by
  rw [chunkDist_of_near cp around hx1 hx2 hz1 hz2 hdx hdz]
  have hn : 0 ≤ (cp.1 - Int.tdiv around.1 16) ^ 2 + (cp.2 - Int.tdiv around.2.2 16) ^ 2 := by
    positivity
  obtain ⟨n, hn'⟩ := Int.eq_ofNat_of_zero_le hn
  obtain ⟨r, hr'⟩ := Int.eq_ofNat_of_zero_le hr
  rw [hn', hr', Int.toNat_ofNat]
  have : (Nat.sqrt n : Int) ≤ (r : Int) ↔ Nat.sqrt n < r + 1 := by omega
  rw [this, Nat.sqrt_lt']
  constructor
  · intro h; exact_mod_cast h
  · intro h; exact_mod_cast h

section Apply
variable (w : worldStateMem) (around : Pos) (radius : Int)

theorem foldl_applyChunk_calls (l : List (Sigma (fun _ : ChunkPos => Chunk)))
    (acc : worldStateMem × List (ChunkPos × Option Chunk)) :
    (l.foldl (applyChunk w around radius) acc).2
      = acc.2 ++ l.map (fun e =>
          (e.1, if chunkDist e.1 around ≤ radius ∨ radius < 0 then some e.2 else none)) := by
  induction l generalizing acc with
  | nil => simp
  | cons e l ih =>
    rw [List.foldl_cons, ih, List.map_cons]
    unfold applyChunk
    dsimp only
    split_ifs <;> simp

theorem foldl_applyChunk_untouched (l : List (Sigma (fun _ : ChunkPos => Chunk)))
    (acc : worldStateMem × List (ChunkPos × Option Chunk)) (cp : ChunkPos)
    (h : ∀ e ∈ l, e.1 = cp → ¬ (chunkDist cp around ≤ radius ∨ radius < 0)) :
    (l.foldl (applyChunk w around radius) acc).1.chunks.lookup cp = acc.1.chunks.lookup cp ∧
      (l.foldl (applyChunk w around radius) acc).1.blockNBTs.lookup cp
        = acc.1.blockNBTs.lookup cp := by
  induction l generalizing acc with
  | nil => exact ⟨rfl, rfl⟩
  | cons e l ih =>
    rw [List.foldl_cons]
    obtain ⟨h1, h2⟩ := ih (applyChunk w around radius acc e)
      (fun e' he' => h e' (List.mem_cons_of_mem _ he'))
    rw [h1, h2]
    unfold applyChunk
    dsimp only
    by_cases hc : chunkDist e.1 around ≤ radius ∨ radius < 0
    · have hne : cp ≠ e.1 := by
        intro hcp
        subst hcp
        exact h e (List.mem_cons_self _ _) rfl hc
      rw [if_pos hc]
      unfold worldStateMem.StoreChunk
      rcases w.blockNBTs.lookup e.1 with _ | m
      · exact ⟨AList.lookup_insert_ne hne, rfl⟩
      · exact ⟨AList.lookup_insert_ne hne, AList.lookup_insert_ne hne⟩
    · rw [if_neg hc]
      exact ⟨rfl, rfl⟩

theorem foldl_applyChunk_copied (l : List (Sigma (fun _ : ChunkPos => Chunk)))
    (hnd : l.NodupKeys) (acc : worldStateMem × List (ChunkPos × Option Chunk))
    (cp : ChunkPos) (c : Chunk) (hmem : (⟨cp, c⟩ : Sigma (fun _ : ChunkPos => Chunk)) ∈ l)
    (hc : chunkDist cp around ≤ radius ∨ radius < 0) :
    (l.foldl (applyChunk w around radius) acc).1.chunks.lookup cp = some c ∧
      ∀ m, w.blockNBTs.lookup cp = some m →
        (l.foldl (applyChunk w around radius) acc).1.blockNBTs.lookup cp = some m := by
  induction l generalizing acc with
  | nil => cases hmem
  | cons e l ih =>
    rw [List.foldl_cons]
    rcases List.mem_cons.mp hmem with he | he
    · subst he
      have hnot : cp ∉ l.keys := List.not_mem_keys_of_nodupKeys_cons hnd
      obtain ⟨h1, h2⟩ := foldl_applyChunk_untouched w around radius l
        (applyChunk w around radius acc ⟨cp, c⟩) cp
        (fun e' he' hcp => absurd (hcp ▸ List.mem_keys_of_mem he') hnot)
      rw [h1, h2]
      unfold applyChunk
      dsimp only
      rw [if_pos hc]
      unfold worldStateMem.StoreChunk
      rcases hb : w.blockNBTs.lookup cp with _ | m
      · exact ⟨AList.lookup_insert _, fun m hm => by cases hm⟩
      · refine ⟨AList.lookup_insert _, fun m' hm' => ?_⟩
        cases hm'
        exact AList.lookup_insert _
    · exact ih (List.nodupKeys_of_nodupKeys_cons hnd) _ he

theorem applyEntity_chunks (w2 : worldStateMem) (e : Sigma (fun _ : Nat => Entity)) :
    (applyEntity around radius w2 e).chunks = w2.chunks ∧
      (applyEntity around radius w2 e).blockNBTs = w2.blockNBTs := by
  unfold applyEntity
  dsimp only
  split_ifs
  · exact ⟨rfl, rfl⟩
  · exact ⟨rfl, rfl⟩

theorem foldl_applyEntity_chunks (l : List (Sigma (fun _ : Nat => Entity)))
    (w2 : worldStateMem) :
    (l.foldl (applyEntity around radius) w2).chunks = w2.chunks ∧
      (l.foldl (applyEntity around radius) w2).blockNBTs = w2.blockNBTs := by
  induction l generalizing w2 with
  | nil => exact ⟨rfl, rfl⟩
  | cons e l ih =>
    rw [List.foldl_cons]
    obtain ⟨h1, h2⟩ := ih (applyEntity around radius w2 e)
    obtain ⟨h3, h4⟩ := applyEntity_chunks around radius w2 e
    exact ⟨h1.trans h3, h2.trans h4⟩

/-- The chunk loop of `ApplyTo` in terms of the value `dist` of line 84. -/
theorem ApplyTo_columns_by_chunkDist (w2 : worldStateMem) :
    (w.ApplyTo w2 around radius).source = w.cullChunks ∧
      ((w.ApplyTo w2 around radius).calls.map Prod.fst = w.cullChunks.chunks.keys ∧
        ((w.ApplyTo w2 around radius).calls.map Prod.fst).Nodup) ∧
      (∀ cp c, w.cullChunks.chunks.lookup cp = some c →
        ((radius < 0 ∨ chunkDist cp around ≤ radius) →
          (cp, some c) ∈ (w.ApplyTo w2 around radius).calls ∧
          (w.ApplyTo w2 around radius).dest.chunks.lookup cp = some c ∧
          ∀ m, w.blockNBTs.lookup cp = some m →
            (w.ApplyTo w2 around radius).dest.blockNBTs.lookup cp = some m) ∧
        (¬ (radius < 0 ∨ chunkDist cp around ≤ radius) →
          (cp, none) ∈ (w.ApplyTo w2 around radius).calls ∧
          (w.ApplyTo w2 around radius).dest.chunks.lookup cp = w2.chunks.lookup cp ∧
          (w.ApplyTo w2 around radius).dest.blockNBTs.lookup cp = w2.blockNBTs.lookup cp)) ∧
      (∀ cp, w.cullChunks.chunks.lookup cp = none →
        (w.ApplyTo w2 around radius).dest.chunks.lookup cp = w2.chunks.lookup cp) ∧
      (∀ cp : ChunkPos, 0 ≤ radius →
        -2 ^ 31 ≤ Int.tdiv around.1 16 → Int.tdiv around.1 16 < 2 ^ 31 →
        -2 ^ 31 ≤ Int.tdiv around.2.2 16 → Int.tdiv around.2.2 16 < 2 ^ 31 →
        |cp.1 - Int.tdiv around.1 16| < 2 ^ 15 → |cp.2 - Int.tdiv around.2.2 16| < 2 ^ 15 →
        (chunkDist cp around ≤ radius ↔
          (cp.1 - Int.tdiv around.1 16) ^ 2 + (cp.2 - Int.tdiv around.2.2 16) ^ 2
            < (radius + 1) ^ 2)) := by
  have hcalls : (w.ApplyTo w2 around radius).calls
      = w.cullChunks.chunks.entries.map (fun e =>
          (e.1, if chunkDist e.1 around ≤ radius ∨ radius < 0 then some e.2 else none)) := by
    unfold worldStateMem.ApplyTo
    dsimp only
    rw [foldl_applyChunk_calls]
    rfl
  have hkeys : (w.ApplyTo w2 around radius).calls.map Prod.fst = w.cullChunks.chunks.keys := by
    rw [hcalls, List.map_map]
    rfl
  have hdest : ∀ cp, (w.ApplyTo w2 around radius).dest.chunks.lookup cp
      = (w.cullChunks.chunks.entries.foldl (applyChunk w.cullChunks around radius)
          (w2, [])).1.chunks.lookup cp ∧
      (w.ApplyTo w2 around radius).dest.blockNBTs.lookup cp
      = (w.cullChunks.chunks.entries.foldl (applyChunk w.cullChunks around radius)
          (w2, [])).1.blockNBTs.lookup cp := by
    intro cp
    unfold worldStateMem.ApplyTo
    dsimp only
    obtain ⟨h1, h2⟩ := foldl_applyEntity_chunks around radius w.cullChunks.entities.entries
      (w.cullChunks.chunks.entries.foldl (applyChunk w.cullChunks around radius) (w2, [])).1
    rw [h1, h2]
    exact ⟨rfl, rfl⟩
  refine ⟨rfl, ⟨hkeys, ?_⟩, ?_, ?_, ?_⟩
  · rw [hkeys]; exact w.cullChunks.chunks.keys_nodup
  · intro cp c hc
    have hmem : (⟨cp, c⟩ : Sigma (fun _ : ChunkPos => Chunk)) ∈ w.cullChunks.chunks.entries :=
      AList.mem_lookup_iff.mp (by rw [hc]; rfl)
    constructor
    · intro hr
      have hr' : chunkDist cp around ≤ radius ∨ radius < 0 := hr.symm
      obtain ⟨h1, h2⟩ := foldl_applyChunk_copied w.cullChunks around radius _
        w.cullChunks.chunks.nodupKeys (w2, []) cp c hmem hr'
      refine ⟨?_, ?_, ?_⟩
      · rw [hcalls, List.mem_map]
        exact ⟨⟨cp, c⟩, hmem, by dsimp only; rw [if_pos hr']⟩
      · rw [(hdest cp).1]; exact h1
      · intro m hm
        rw [(hdest cp).2]
        exact h2 m hm
    · intro hr
      have hr' : ¬ (chunkDist cp around ≤ radius ∨ radius < 0) := fun h => hr h.symm
      obtain ⟨h1, h2⟩ := foldl_applyChunk_untouched w.cullChunks around radius
        w.cullChunks.chunks.entries (w2, []) cp (fun _ _ _ => hr')
      refine ⟨?_, ?_, ?_⟩
      · rw [hcalls, List.mem_map]
        exact ⟨⟨cp, c⟩, hmem, by dsimp only; rw [if_neg hr']⟩
      · rw [(hdest cp).1]; exact h1
      · rw [(hdest cp).2]; exact h2
  · intro cp hc
    rw [(hdest cp).1]
    refine (foldl_applyChunk_untouched w.cullChunks around radius
      w.cullChunks.chunks.entries (w2, []) cp (fun e he hcp => ?_)).1
    exfalso
    have : cp ∈ w.cullChunks.chunks.keys := hcp ▸ List.mem_keys_of_mem he
    exact (AList.lookup_eq_none.mp hc) (AList.mem_keys.mpr this)
  · intro cp hr hx1 hx2 hz1 hz2 hdx hdz
    exact chunkDist_le_iff cp around radius hx1 hx2 hz1 hz2 hdx hdz hr

/-- For a center block whose x and z are not negative, the truncating division
of line 84 gives the chunk of the center block, and within 32767 chunks of it
the test `dist <= radius` is dx^2 + dz^2 < (radius + 1)^2. -/
theorem chunkDist_le_iff_of_nonneg (cp : ChunkPos) (hr : 0 ≤ radius)
    (hx : 0 ≤ around.1) (hz : 0 ≤ around.2.2)
    (hx2 : around.1 / 16 < 2 ^ 31) (hz2 : around.2.2 / 16 < 2 ^ 31)
    (hdx : |cp.1 - around.1 / 16| < 2 ^ 15) (hdz : |cp.2 - around.2.2 / 16| < 2 ^ 15) :
    chunkDist cp around ≤ radius ↔
      (cp.1 - around.1 / 16) ^ 2 + (cp.2 - around.2.2 / 16) ^ 2 < (radius + 1) ^ 2 := by
  have tx : Int.tdiv around.1 16 = around.1 / 16 := Int.tdiv_eq_ediv hx (by norm_num)
  have tz : Int.tdiv around.2.2 16 = around.2.2 / 16 := Int.tdiv_eq_ediv hz (by norm_num)
  have px : 0 ≤ around.1 / 16 := Int.ediv_nonneg hx (by norm_num)
  have pz : 0 ≤ around.2.2 / 16 := Int.ediv_nonneg hz (by norm_num)
  have h := chunkDist_le_iff cp around radius (by rw [tx]; linarith) (by rw [tx]; exact hx2)
    (by rw [tz]; linarith) (by rw [tz]; exact hz2) (by rw [tx]; exact hdx)
    (by rw [tz]; exact hdz) hr
  rw [tx, tz] at h
  exact h

/-- C10, amended. `ApplyTo` first removes the columns of the source whose
slabs are all empty. Then it calls the callback exactly once for each column
the source still holds. With a negative radius every such column is stored in
the destination, with the metadata map the source has for its position, and
passed to the callback. With a radius that is not negative, for a center
block whose x and z are not negative and a column within 32767 chunks of the
chunk of the center block (floor(x/16), floor(z/16)), the column is stored
and passed if and only if dx^2 + dz^2 < (radius + 1)^2, which is the
Euclidean chunk distance rounded down being at most the radius; otherwise the
callback gets nil and the destination keeps what it had at the position. -/
theorem ApplyTo_copies_columns_within_radius (w2 : worldStateMem) :
    (w.ApplyTo w2 around radius).source = w.cullChunks ∧
      ((w.ApplyTo w2 around radius).calls.map Prod.fst = w.cullChunks.chunks.keys ∧
        ((w.ApplyTo w2 around radius).calls.map Prod.fst).Nodup) ∧
      (∀ cp c, w.cullChunks.chunks.lookup cp = some c → radius < 0 →
        (cp, some c) ∈ (w.ApplyTo w2 around radius).calls ∧
          (w.ApplyTo w2 around radius).dest.chunks.lookup cp = some c ∧
          ∀ m, w.blockNBTs.lookup cp = some m →
            (w.ApplyTo w2 around radius).dest.blockNBTs.lookup cp = some m) ∧
      (∀ cp c, w.cullChunks.chunks.lookup cp = some c → 0 ≤ radius →
        0 ≤ around.1 → 0 ≤ around.2.2 → around.1 / 16 < 2 ^ 31 → around.2.2 / 16 < 2 ^ 31 →
        |cp.1 - around.1 / 16| < 2 ^ 15 → |cp.2 - around.2.2 / 16| < 2 ^ 15 →
        (((cp.1 - around.1 / 16) ^ 2 + (cp.2 - around.2.2 / 16) ^ 2 < (radius + 1) ^ 2 →
          (cp, some c) ∈ (w.ApplyTo w2 around radius).calls ∧
          (w.ApplyTo w2 around radius).dest.chunks.lookup cp = some c ∧
          ∀ m, w.blockNBTs.lookup cp = some m →
            (w.ApplyTo w2 around radius).dest.blockNBTs.lookup cp = some m) ∧
        (¬ ((cp.1 - around.1 / 16) ^ 2 + (cp.2 - around.2.2 / 16) ^ 2 < (radius + 1) ^ 2) →
          (cp, none) ∈ (w.ApplyTo w2 around radius).calls ∧
          (w.ApplyTo w2 around radius).dest.chunks.lookup cp = w2.chunks.lookup cp ∧
          (w.ApplyTo w2 around radius).dest.blockNBTs.lookup cp = w2.blockNBTs.lookup cp))) ∧
      (∀ cp, w.cullChunks.chunks.lookup cp = none →
        (w.ApplyTo w2 around radius).dest.chunks.lookup cp = w2.chunks.lookup cp) := by
  obtain ⟨h1, h2, h3, h4, _⟩ := ApplyTo_columns_by_chunkDist w around radius w2
  refine ⟨h1, h2, ?_, ?_, h4⟩
  · intro cp c hc hr
    exact (h3 cp c hc).1 (Or.inl hr)
  · intro cp c hc hr hx hz hx2 hz2 hdx hdz
    have hiff := chunkDist_le_iff_of_nonneg around radius cp hr hx hz hx2 hz2 hdx hdz
    constructor
    · intro hd
      exact (h3 cp c hc).1 (Or.inr (hiff.mpr hd))
    · intro hd
      refine (h3 cp c hc).2 ?_
      rintro (hneg | hle)
      · omega
      · exact hd (hiff.mp hle)

end Apply

/-- C10, an instance: the source of the counterexample, the center at the
origin and the radius 1. The column at (1,1), with dx^2 + dz^2 = 2 < 4, is
copied and passed to the callback; the column at (5,0), with 25, gets nil. -/
theorem ApplyTo_copies_columns_within_radius_witness :
    ((1, 1), some ⟨[exampleAir, exampleSlab]⟩)
        ∈ (exampleSource.ApplyTo emptyWorldState (0, 0, 0) 1).calls ∧
      (exampleSource.ApplyTo emptyWorldState (0, 0, 0) 1).dest.chunks.lookup (1, 1)
        = some ⟨[exampleAir, exampleSlab]⟩ ∧
      ((5, 0), none) ∈ (exampleSource.ApplyTo emptyWorldState (0, 0, 0) 1).calls ∧
      (exampleSource.ApplyTo emptyWorldState (0, 0, 0) 1).dest.chunks.lookup (5, 0) = none :=
  have h := (ApplyTo_copies_columns_within_radius exampleSource (0, 0, 0) 1
    emptyWorldState).2.2.2.1
  have h11 := (h (1, 1) ⟨[exampleAir, exampleSlab]⟩ (by decide) (by decide) (by decide)
    (by decide) (by decide) (by decide) (by decide) (by decide)).1 (by decide)
  have h50 := (h (5, 0) ⟨[exampleSlab]⟩ (by decide) (by decide) (by decide)
    (by decide) (by decide) (by decide) (by decide) (by decide)).2 (by decide)
  ⟨h11.1, h11.2.1, h50.1, h50.2.1⟩

/-- C10, the counterexample. The source holds a column of empty slabs at
(0,0) and columns with content at (1,1) and (5,0); the center is the origin
and the radius is 1. The column at (1,1) is copied to the destination and
passed to the callback although its Euclidean distance from the center chunk,
the square root of 2, is more than 1; and the column at (0,0), a column of the
source, gets no callback at all and is not copied. -/
theorem ApplyTo_rounds_distance_down :
    (exampleSource.ApplyTo emptyWorldState (0, 0, 0) 1).dest.chunks.lookup (1, 1)
        = some ⟨[exampleAir, exampleSlab]⟩ ∧
      (exampleSource.ApplyTo emptyWorldState (0, 0, 0) 1).calls
        = [((5, 0), none), ((1, 1), some ⟨[exampleAir, exampleSlab]⟩)] ∧
      ¬ ((1 : Int) < 0 ∨ Real.sqrt (((1 : ℝ) - 0) ^ 2 + ((1 : ℝ) - 0) ^ 2) ≤ 1) ∧
      exampleSource.chunks.lookup (0, 0) = some ⟨[exampleAir]⟩ ∧
      (exampleSource.ApplyTo emptyWorldState (0, 0, 0) (-1)).dest.chunks.lookup (0, 0) = none := by
  refine ⟨by decide, by decide, ?_, by decide, by decide⟩
  rintro (h | h)
  · exact absurd h (by decide)
  · have h2 : (1 : ℝ) < Real.sqrt (((1 : ℝ) - 0) ^ 2 + ((1 : ℝ) - 0) ^ 2) := by
      rw [Real.lt_sqrt (by norm_num)]
      norm_num
    linarith

/-! ## Theorems: projection of columns and entities -/

/-- C11 at the failing input. The center block (-1, 0, -1) lies in the chunk
(-1,-1), as `cubePosInChunk` computes it. With radius 0 `ApplyTo` takes
`-1 / 16 = 0` for the center chunk: it copies the column at (0,0) and passes
nil for the column at (-1,-1), which is not copied. -/
theorem ApplyTo_radius_zero_truncates_center :
    (cubePosInChunk (-1, 0, -1)).1 = (-1, -1) ∧
      (exampleNegativeSource.ApplyTo emptyWorldState (-1, 0, -1) 0).calls
        = [((-1, -1), none), ((0, 0), some ⟨[exampleSlab]⟩)] ∧
      (exampleNegativeSource.ApplyTo emptyWorldState (-1, 0, -1) 0).dest.chunks.lookup (0, 0)
        = some ⟨[exampleSlab]⟩ ∧
      (exampleNegativeSource.ApplyTo emptyWorldState (-1, 0, -1) 0).dest.chunks.lookup (-1, -1)
        = none := by
  decide

theorem ApplyTo_calls_eq (w w2 : worldStateMem) (around : Pos) (radius : Int) :
    (w.ApplyTo w2 around radius).calls
      = w.cullChunks.chunks.entries.map (fun e =>
          (e.1, if chunkDist e.1 around ≤ radius ∨ radius < 0 then some e.2 else none)) := by
  unfold worldStateMem.ApplyTo
  dsimp only
  rw [foldl_applyChunk_calls]
  rfl

/-- The part of C11 the code keeps. For a center block with coordinates that
are not negative, and a column within 32767 chunks of it, `ApplyTo` with
radius 0 passes the column to the callback exactly when its position is the
chunk that contains the center block. -/
theorem ApplyTo_radius_zero_of_nonneg_center (w w2 : worldStateMem) (around : Pos)
    (cp : ChunkPos) (c : Chunk) (hc : w.cullChunks.chunks.lookup cp = some c)
    (hx : 0 ≤ around.1) (hz : 0 ≤ around.2.2)
    (hx2 : around.1 / 16 < 2 ^ 31) (hz2 : around.2.2 / 16 < 2 ^ 31)
    (hdx : |cp.1 - around.1 / 16| < 2 ^ 15) (hdz : |cp.2 - around.2.2 / 16| < 2 ^ 15) :
    (cp, some c) ∈ (w.ApplyTo w2 around 0).calls ↔ cp = (around.1 / 16, around.2.2 / 16) := by
  have tx : Int.tdiv around.1 16 = around.1 / 16 := Int.tdiv_eq_ediv hx (by norm_num)
  have tz : Int.tdiv around.2.2 16 = around.2.2 / 16 := Int.tdiv_eq_ediv hz (by norm_num)
  have px : 0 ≤ around.1 / 16 := Int.ediv_nonneg hx (by norm_num)
  have pz : 0 ≤ around.2.2 / 16 := Int.ediv_nonneg hz (by norm_num)
  have hmem : (⟨cp, c⟩ : Sigma (fun _ : ChunkPos => Chunk)) ∈ w.cullChunks.chunks.entries :=
    AList.mem_lookup_iff.mp (by rw [hc]; rfl)
  have hd := chunkDist_le_iff cp around 0 (by rw [tx]; linarith) (by rw [tx]; exact hx2)
    (by rw [tz]; linarith) (by rw [tz]; exact hz2) (by rw [tx]; exact hdx) (by rw [tz]; exact hdz)
    (le_refl _)
  rw [tx, tz] at hd
  have hzero : (cp.1 - around.1 / 16) ^ 2 + (cp.2 - around.2.2 / 16) ^ 2 < (0 + 1) ^ 2 ↔
      cp = (around.1 / 16, around.2.2 / 16) := by
    constructor
    · intro h
      have h1 := sq_nonneg (cp.1 - around.1 / 16)
      have h2 := sq_nonneg (cp.2 - around.2.2 / 16)
      have e1 : (cp.1 - around.1 / 16) ^ 2 = 0 := by nlinarith
      have e2 : (cp.2 - around.2.2 / 16) ^ 2 = 0 := by nlinarith
      have e1' := pow_eq_zero_iff (n := 2) (by norm_num) |>.mp e1
      have e2' := pow_eq_zero_iff (n := 2) (by norm_num) |>.mp e2
      exact Prod.ext (by simpa using sub_eq_zero.mp e1') (by simpa using sub_eq_zero.mp e2')
    · intro h
      rw [h]
      simp
  rw [ApplyTo_calls_eq, List.mem_map, ← hzero, ← hd]
  constructor
  · rintro ⟨e, _, he⟩
    simp only [Prod.mk.injEq] at he
    obtain ⟨h1, h2⟩ := he
    rw [h1] at h2
    by_cases hcond : chunkDist cp around ≤ 0 ∨ (0 : Int) < 0
    · rcases hcond with h | h
      · exact h
      · exact absurd h (lt_irrefl _)
    · rw [if_neg hcond] at h2
      cases h2
  · intro h
    exact ⟨⟨cp, c⟩, hmem, by dsimp only; rw [if_pos (Or.inl h)]⟩

section Entities
variable (around : Pos) (radius : Int)

theorem applyChunk_entities (w : worldStateMem)
    (acc : worldStateMem × List (ChunkPos × Option Chunk))
    (e : Sigma (fun _ : ChunkPos => Chunk)) :
    (applyChunk w around radius acc e).1.entities = acc.1.entities := by
  unfold applyChunk
  dsimp only
  split_ifs
  · unfold worldStateMem.StoreChunk
    rcases w.blockNBTs.lookup e.1 with _ | m <;> rfl
  · rfl

theorem foldl_applyChunk_entities (w : worldStateMem)
    (l : List (Sigma (fun _ : ChunkPos => Chunk)))
    (acc : worldStateMem × List (ChunkPos × Option Chunk)) :
    (l.foldl (applyChunk w around radius) acc).1.entities = acc.1.entities := by
  induction l generalizing acc with
  | nil => rfl
  | cons e l ih => rw [List.foldl_cons, ih, applyChunk_entities]

theorem applyEntity_lookup_ne (w2 : worldStateMem) (e : Sigma (fun _ : Nat => Entity)) (k : Nat)
    (h : k ≠ e.1) : (applyEntity around radius w2 e).entities.lookup k = w2.entities.lookup k := by
  unfold applyEntity
  dsimp only
  split_ifs
  · exact AList.lookup_insert_ne h
  · rfl

theorem foldl_applyEntity_untouched (l : List (Sigma (fun _ : Nat => Entity)))
    (w2 : worldStateMem) (k : Nat) (h : ∀ e ∈ l, e.1 ≠ k) :
    (l.foldl (applyEntity around radius) w2).entities.lookup k = w2.entities.lookup k := by
  induction l generalizing w2 with
  | nil => rfl
  | cons e l ih =>
    rw [List.foldl_cons, ih _ (fun e' he' => h e' (List.mem_cons_of_mem _ he')),
      applyEntity_lookup_ne around radius w2 e k (fun hk => h e (List.mem_cons_self _ _) hk.symm)]

theorem foldl_applyEntity_lookup (l : List (Sigma (fun _ : Nat => Entity))) (hnd : l.NodupKeys)
    (w2 : worldStateMem) (k : Nat) (es : Entity)
    (hmem : (⟨k, es⟩ : Sigma (fun _ : Nat => Entity)) ∈ l) :
    (l.foldl (applyEntity around radius) w2).entities.lookup k
      = if (w2.GetEntity k).isSome ∨ entityDist es around < int32 (radius * 16) ∨ radius < 0
        then some es else w2.entities.lookup k := by
  induction l generalizing w2 with
  | nil => cases hmem
  | cons e l ih =>
    rw [List.foldl_cons]
    rcases List.mem_cons.mp hmem with he | he
    · subst he
      have hnot : k ∉ l.keys := List.not_mem_keys_of_nodupKeys_cons hnd
      rw [foldl_applyEntity_untouched around radius l _ k
        (fun e' he' hk => hnot (hk ▸ List.mem_keys_of_mem he'))]
      unfold applyEntity
      dsimp only
      split_ifs
      · exact AList.lookup_insert _
      · rfl
    · have hne : k ≠ e.1 := by
        intro hk
        exact List.not_mem_keys_of_nodupKeys_cons hnd (hk ▸ List.mem_keys_of_mem he)
      rw [ih (List.nodupKeys_of_nodupKeys_cons hnd) _ he]
      have h1 := applyEntity_lookup_ne around radius w2 e k hne
      unfold worldStateMem.GetEntity
      rw [h1]

/-- Within 32767 blocks of the center the 32-bit arithmetic is exact, and the
distance of line 97 is the integer square root, rounded down, of the squared
distance. -/
theorem entityDist_of_near (es : Entity) (around : Pos)
    (hdx : |es.x - around.1| < 2 ^ 15) (hdz : |es.z - around.2.2| < 2 ^ 15) :
    entityDist es around
      = (Nat.sqrt ((es.x - around.1) ^ 2 + (es.z - around.2.2) ^ 2).toNat : Nat) := by
  have hdx' := abs_lt.mp hdx
  have hdz' := abs_lt.mp hdz
  have sqx : (es.x - around.1) ^ 2 < 2 ^ 30 := by
    have := sq_lt_sq' hdx'.1 hdx'.2
    norm_num at this ⊢
    linarith
  have sqz : (es.z - around.2.2) ^ 2 < 2 ^ 30 := by
    have := sq_lt_sq' hdz'.1 hdz'.2
    norm_num at this ⊢
    linarith
  have px := sq_nonneg (es.x - around.1)
  have pz := sq_nonneg (es.z - around.2.2)
  unfold entityDist i32Pow
  rw [int32_of_range (es.x - around.1) (by norm_num at hdx' ⊢; linarith [hdx'.1])
      (by norm_num at hdx' ⊢; linarith [hdx'.2]),
    int32_of_range (es.z - around.2.2) (by norm_num at hdz' ⊢; linarith [hdz'.1])
      (by norm_num at hdz' ⊢; linarith [hdz'.2]),
    int32_of_range ((es.x - around.1) ^ 2) (by norm_num; linarith)
      (by norm_num at sqx ⊢; linarith),
    int32_of_range ((es.z - around.2.2) ^ 2) (by norm_num; linarith)
      (by norm_num at sqz ⊢; linarith),
    int32_of_range _ (by norm_num; linarith) (by norm_num at sqx sqz ⊢; linarith)]
  unfold i32Sqrt
  rw [if_neg (by linarith), sqrtBits_eq_sqrt]
  have h31 : (es.x - around.1) ^ 2 + (es.z - around.2.2) ^ 2 < 2 ^ 32 := by
    norm_num at sqx sqz ⊢; linarith
  have hnn : 0 ≤ (es.x - around.1) ^ 2 + (es.z - around.2.2) ^ 2 := by linarith
  zify
  rw [Int.toNat_of_nonneg hnn]
  exact_mod_cast h31

theorem entityDist_lt_iff (es : Entity) (around : Pos) (radius : Int)
    (hdx : |es.x - around.1| < 2 ^ 15) (hdz : |es.z - around.2.2| < 2 ^ 15)
    (hr : 0 ≤ radius) (hr2 : radius < 2 ^ 27) :
    entityDist es around < int32 (radius * 16) ↔
      (es.x - around.1) ^ 2 + (es.z - around.2.2) ^ 2 < (radius * 16) ^ 2 := by
  rw [entityDist_of_near es around hdx hdz,
    int32_of_range (radius * 16) (by norm_num; linarith) (by norm_num at hr2 ⊢; linarith)]
  have hn : 0 ≤ (es.x - around.1) ^ 2 + (es.z - around.2.2) ^ 2 := by positivity
  obtain ⟨n, hn'⟩ := Int.eq_ofNat_of_zero_le hn
  obtain ⟨r, hr'⟩ := Int.eq_ofNat_of_zero_le (show 0 ≤ radius * 16 by linarith)
  rw [hn', hr', Int.toNat_ofNat]
  have : (Nat.sqrt n : Int) < (r : Int) ↔ Nat.sqrt n < r := by omega
  rw [this, Nat.sqrt_lt']
  constructor
  · intro h; exact_mod_cast h
  · intro h; exact_mod_cast h

end Entities

/-- The entity loop of `ApplyTo` in terms of the value `dist` of line 97 and
of the `int32` product `radius*16`. -/
theorem ApplyTo_entities_by_entityDist (w w2 : worldStateMem) (around : Pos) (radius : Int) :
    (∀ k es, w.entities.lookup k = some es →
        (((w2.GetEntity k).isSome ∨ entityDist es around < int32 (radius * 16) ∨ radius < 0) →
          (w.ApplyTo w2 around radius).dest.entities.lookup k = some es) ∧
        (¬ ((w2.GetEntity k).isSome ∨ entityDist es around < int32 (radius * 16) ∨ radius < 0) →
          (w.ApplyTo w2 around radius).dest.entities.lookup k = none)) ∧
      (∀ k, k ∈ w2.entities → k ∈ (w.ApplyTo w2 around radius).dest.entities) ∧
      (∀ k, w.entities.lookup k = none →
        (w.ApplyTo w2 around radius).dest.entities.lookup k = w2.entities.lookup k) ∧
      (radius < 0 → ∀ k es, w.entities.lookup k = some es →
        (w.ApplyTo w2 around radius).dest.entities.lookup k = some es) ∧
      (∀ es : Entity, 0 ≤ radius → radius < 2 ^ 27 →
        |es.x - around.1| < 2 ^ 15 → |es.z - around.2.2| < 2 ^ 15 →
        (entityDist es around < int32 (radius * 16) ↔
          (es.x - around.1) ^ 2 + (es.z - around.2.2) ^ 2 < (radius * 16) ^ 2)) := by
  have hdest : ∀ k, (w.ApplyTo w2 around radius).dest.entities.lookup k
      = (w.entities.entries.foldl (applyEntity around radius)
          (w.cullChunks.chunks.entries.foldl (applyChunk w.cullChunks around radius)
            (w2, [])).1).entities.lookup k := fun _ => rfl
  have hstart : (w.cullChunks.chunks.entries.foldl (applyChunk w.cullChunks around radius)
      (w2, [])).1.entities = w2.entities := foldl_applyChunk_entities around radius _ _ _
  have hstored : ∀ k es, w.entities.lookup k = some es →
      (w.ApplyTo w2 around radius).dest.entities.lookup k
        = if (w2.GetEntity k).isSome ∨ entityDist es around < int32 (radius * 16) ∨ radius < 0
          then some es else w2.entities.lookup k := by
    intro k es hk
    have hmem : (⟨k, es⟩ : Sigma (fun _ : Nat => Entity)) ∈ w.entities.entries :=
      AList.mem_lookup_iff.mp (by rw [hk]; rfl)
    rw [hdest, foldl_applyEntity_lookup around radius _ w.entities.nodupKeys _ k es hmem]
    unfold worldStateMem.GetEntity
    rw [hstart]
  have hother : ∀ k, w.entities.lookup k = none →
      (w.ApplyTo w2 around radius).dest.entities.lookup k = w2.entities.lookup k := by
    intro k hk
    rw [hdest, foldl_applyEntity_untouched around radius _ _ k ?_, hstart]
    intro e he hek
    have : k ∈ w.entities.keys := hek ▸ List.mem_keys_of_mem he
    exact (AList.lookup_eq_none.mp hk) (AList.mem_keys.mpr this)
  refine ⟨fun k es hk => ⟨fun hc => ?_, fun hc => ?_⟩, fun k hk => ?_, hother,
    fun hr k es hk => ?_, fun es hr hr2 hdx hdz => entityDist_lt_iff es around radius hdx hdz hr hr2⟩
  · rw [hstored k es hk, if_pos hc]
  · rw [hstored k es hk, if_neg hc]
    have : ¬ (w2.GetEntity k).isSome := fun h => hc (Or.inl h)
    unfold worldStateMem.GetEntity at this
    simpa using this
  · rw [← AList.lookup_isSome] at hk ⊢
    rcases hs : w.entities.lookup k with _ | es
    · rw [hother k hs]; exact hk
    · have hk' : (w2.GetEntity k).isSome = true := hk
      rw [hstored k es hs, if_pos (Or.inl hk')]; rfl
  · rw [hstored k es hk, if_pos (Or.inr (Or.inr hr))]

/-- C12, as the spec words it, fails: with the center at the origin and the
radius 1, an entity at the block (16, 0), whose planar distance from the
center is 16 blocks and so within 1*16 blocks, is not stored into the empty
destination; an entity at (15, 0) is. -/
theorem ApplyTo_leaves_entity_at_radius :
    exampleEntitySource.entities.lookup 7 = some ⟨7, 70, 16, 0⟩ ∧
      Real.sqrt (((16 : ℝ) - 0) ^ 2 + ((0 : ℝ) - 0) ^ 2) ≤ 1 * 16 ∧
      (exampleEntitySource.ApplyTo emptyWorldState (0, 0, 0) 1).dest.entities.lookup 7 = none ∧
      (exampleEntitySource.ApplyTo emptyWorldState (0, 0, 0) 1).dest.entities.lookup 8
        = some ⟨8, 80, 15, 0⟩ := by
  refine ⟨by decide, ?_, by decide, by decide⟩
  have h : ((16 : ℝ) - 0) ^ 2 + ((0 : ℝ) - 0) ^ 2 = 16 ^ 2 := by norm_num
  rw [h, Real.sqrt_sq (by norm_num)]
  norm_num

/-- C12, amended. With a negative radius `ApplyTo` stores every entity of the
source into the destination. With a radius that is not negative and below
2^27, an entity of the source whose block coordinates differ from those of
the center by less than 32768 in x and in z is stored if and only if the
destination already holds an entity with its runtime id or its planar block
distance from the center is strictly less than radius*16 blocks, that is
dx^2 + dz^2 < (radius*16)^2; an entity that is not stored is not in the
destination after the call. Every runtime id the destination held before
the call it still holds after it, and the ids the source does not hold are
as they were. -/
theorem ApplyTo_stores_entities_in_range (w w2 : worldStateMem) (around : Pos) (radius : Int) :
    (radius < 0 → ∀ k es, w.entities.lookup k = some es →
        (w.ApplyTo w2 around radius).dest.entities.lookup k = some es) ∧
      (∀ k es, w.entities.lookup k = some es → 0 ≤ radius → radius < 2 ^ 27 →
        |es.x - around.1| < 2 ^ 15 → |es.z - around.2.2| < 2 ^ 15 →
        ((w.ApplyTo w2 around radius).dest.entities.lookup k = some es ↔
          ((w2.GetEntity k).isSome = true ∨
            (es.x - around.1) ^ 2 + (es.z - around.2.2) ^ 2 < (radius * 16) ^ 2)) ∧
        (¬ ((w2.GetEntity k).isSome = true ∨
            (es.x - around.1) ^ 2 + (es.z - around.2.2) ^ 2 < (radius * 16) ^ 2) →
          (w.ApplyTo w2 around radius).dest.entities.lookup k = none)) ∧
      (∀ k, k ∈ w2.entities → k ∈ (w.ApplyTo w2 around radius).dest.entities) ∧
      (∀ k, w.entities.lookup k = none →
        (w.ApplyTo w2 around radius).dest.entities.lookup k = w2.entities.lookup k) := by
  obtain ⟨h1, h2, h3, h4, h5⟩ := ApplyTo_entities_by_entityDist w w2 around radius
  refine ⟨h4, ?_, h2, h3⟩
  intro k es hk hr hr2 hdx hdz
  have hiff := h5 es hr hr2 hdx hdz
  have hcond : ((w2.GetEntity k).isSome = true ∨ entityDist es around < int32 (radius * 16) ∨
      radius < 0) ↔ ((w2.GetEntity k).isSome = true ∨
        (es.x - around.1) ^ 2 + (es.z - around.2.2) ^ 2 < (radius * 16) ^ 2) := by
    constructor
    · rintro (h | h | h)
      · exact Or.inl h
      · exact Or.inr (hiff.mp h)
      · omega
    · rintro (h | h)
      · exact Or.inl h
      · exact Or.inr (Or.inl (hiff.mpr h))
  have hnone : ¬ ((w2.GetEntity k).isSome = true ∨
      (es.x - around.1) ^ 2 + (es.z - around.2.2) ^ 2 < (radius * 16) ^ 2) →
      (w.ApplyTo w2 around radius).dest.entities.lookup k = none :=
    fun hc => (h1 k es hk).2 (fun h => hc (hcond.mp h))
  refine ⟨⟨fun hs => ?_, fun hc => (h1 k es hk).1 (hcond.mpr hc)⟩, hnone⟩
  by_contra hc
  rw [hnone hc] at hs
  cases hs

/-- C12, an instance: the source of the counterexample, the center at the
origin and the radius 1. The entity at (15, 0), with 225 < 256, is stored;
the entity at (16, 0), with 256, is not. -/
theorem ApplyTo_stores_entities_in_range_witness :
    (exampleEntitySource.ApplyTo emptyWorldState (0, 0, 0) 1).dest.entities.lookup 8
        = some ⟨8, 80, 15, 0⟩ ∧
      (exampleEntitySource.ApplyTo emptyWorldState (0, 0, 0) 1).dest.entities.lookup 7 = none :=
  have h := (ApplyTo_stores_entities_in_range exampleEntitySource emptyWorldState
    (0, 0, 0) 1).2.1
  ⟨(h 8 ⟨8, 80, 15, 0⟩ (by decide) (by decide) (by decide) (by decide) (by decide)).1.mpr
      (Or.inr (by decide)),
    (h 7 ⟨7, 70, 16, 0⟩ (by decide) (by decide) (by decide) (by decide) (by decide)).2
      (by decide)⟩

/-! ## Theorems: block metadata -/

theorem lookup_foldl_insert (l : List (Sigma (fun _ : String => NBTValue))) (hnd : l.NodupKeys)
    (dst : NBTMap) (k : String) :
    (l.foldl (fun d e => d.insert e.1 e.2) dst).lookup k
      = match l.dlookup k with
        | some v => some v
        | none => dst.lookup k := by
  induction l generalizing dst with
  | nil => rfl
  | cons e l ih =>
    rw [List.foldl_cons, ih (List.nodupKeys_of_nodupKeys_cons hnd)]
    by_cases hk : k = e.1
    · subst hk
      have hnot : e.1 ∉ l.keys := List.not_mem_keys_of_nodupKeys_cons hnd
      rw [List.dlookup_eq_none.mpr hnot]
      obtain ⟨a, b⟩ := e
      rw [List.dlookup_cons_eq]
      exact AList.lookup_insert _
    · rw [List.dlookup_cons_ne _ _ hk]
      rcases l.dlookup k with _ | v
      · exact AList.lookup_insert_ne hk
      · rfl

/-- The library function `maps.Copy`, key by key: the value of the source
where it has the key, else the value of the destination. -/
theorem lookup_mapsCopy (dst src : NBTMap) (k : String) :
    (mapsCopy dst src).lookup k
      = match src.lookup k with
        | some v => some v
        | none => dst.lookup k :=
  lookup_foldl_insert src.entries src.nodupKeys dst k

/-! ## Theorems: entity links -/

section GoMapReplace
variable {κ ν : Type} [DecidableEq κ]

theorem kreplace_cons_eq (a : κ) (b b' : ν) (l : List (Sigma (fun _ : κ => ν))) :
    List.kreplace a b ((⟨a, b'⟩ : Sigma (fun _ : κ => ν)) :: l) = ⟨a, b⟩ :: l := by
  unfold List.kreplace
  rw [List.lookmap_cons_some]
  simp

theorem kreplace_cons_ne (a a' : κ) (b b' : ν) (l : List (Sigma (fun _ : κ => ν)))
    (h : a ≠ a') :
    List.kreplace a b ((⟨a', b'⟩ : Sigma (fun _ : κ => ν)) :: l) = ⟨a', b'⟩ :: List.kreplace a b l := by
  unfold List.kreplace
  rw [List.lookmap_cons_none]
  simp [h]

theorem dlookup_kreplace_self (a : κ) (b : ν) (l : List (Sigma (fun _ : κ => ν)))
    (h : a ∈ l.keys) : (l.kreplace a b).dlookup a = some b := by
  induction l with
  | nil => simp at h
  | cons e l ih =>
    obtain ⟨a', b'⟩ := e
    by_cases ha : a = a'
    · subst ha
      rw [kreplace_cons_eq, List.dlookup_cons_eq]
    · have hmem : a ∈ l.keys := by
        simp only [List.keys_cons, List.mem_cons] at h
        rcases h with h | h
        · exact absurd h ha
        · exact h
      rw [kreplace_cons_ne _ _ _ _ _ ha, List.dlookup_cons_ne _ _ ha]
      exact ih hmem

theorem dlookup_kreplace_ne (a k : κ) (b : ν) (l : List (Sigma (fun _ : κ => ν)))
    (h : k ≠ a) : (l.kreplace a b).dlookup k = l.dlookup k := by
  induction l with
  | nil => rfl
  | cons e l ih =>
    obtain ⟨a', b'⟩ := e
    by_cases ha : a = a'
    · subst ha
      rw [kreplace_cons_eq, List.dlookup_cons_ne _ _ h, List.dlookup_cons_ne _ _ h]
    · rw [kreplace_cons_ne _ _ _ _ _ ha]
      by_cases hk : k = a'
      · subst hk
        rw [List.dlookup_cons_eq, List.dlookup_cons_eq]
      · rw [List.dlookup_cons_ne _ _ hk, List.dlookup_cons_ne _ _ hk]
        exact ih

theorem lookup_replace_self (a : κ) (b : ν) (s : GoMap κ ν) (h : a ∈ s) :
    (s.replace a b).lookup a = some b :=
  dlookup_kreplace_self a b s.entries h

theorem lookup_replace_ne (a k : κ) (b : ν) (s : GoMap κ ν) (h : k ≠ a) :
    (s.replace a b).lookup k = s.lookup k :=
  dlookup_kreplace_ne a k b s.entries h

theorem replace_lookup_self (a : κ) (b : ν) (s : GoMap κ ν) (h : s.lookup a = some b) :
    s.replace a b = s :=
  AList.ext (List.kreplace_self s.nodupKeys (AList.mem_lookup_iff.mp (by rw [h]; rfl)))

theorem erase_of_lookup_none (a : κ) (s : GoMap κ ν) (h : s.lookup a = none) :
    s.erase a = s :=
  AList.ext (List.kerase_of_not_mem_keys (AList.lookup_eq_none.mp h))

end GoMapReplace

theorem rides_addRider (w : worldStateMem) (ridden rider mount r : Int) :
    ({ w with entityLinks := addRider w.entityLinks ridden rider } : worldStateMem).rides mount r
      = if ridden = mount ∧ rider = r then true else w.rides mount r := by
  unfold worldStateMem.rides addRider
  dsimp only
  rcases hl : w.entityLinks.lookup ridden with _ | riders
  · dsimp only
    by_cases hm : ridden = mount
    · subst hm
      rw [AList.lookup_insert, hl]
      dsimp only
      by_cases hr : rider = r
      · subst hr
        rw [AList.lookup_insert, if_pos ⟨rfl, rfl⟩]
        rfl
      · rw [AList.lookup_insert_ne (Ne.symm hr), if_neg (fun h => hr h.2)]
        rfl
    · rw [AList.lookup_insert_ne (Ne.symm hm)]
      simp [hm]
  · dsimp only
    have hin : ridden ∈ w.entityLinks := AList.lookup_isSome.mp (by rw [hl]; rfl)
    by_cases hm : ridden = mount
    · subst hm
      rw [lookup_replace_self _ _ _ hin, hl]
      by_cases hr : rider = r
      · subst hr; simp [AList.lookup_insert]
      · simp [hr, AList.lookup_insert_ne (Ne.symm hr)]
    · rw [lookup_replace_ne _ _ _ _ (Ne.symm hm)]
      simp [hm]

theorem rides_removeRider (w : worldStateMem) (ridden rider mount r : Int) :
    ({ w with entityLinks := removeRider w.entityLinks ridden rider } : worldStateMem).rides mount r
      = if ridden = mount ∧ rider = r then false else w.rides mount r := by
  unfold worldStateMem.rides removeRider
  dsimp only
  rcases hl : w.entityLinks.lookup ridden with _ | riders
  · dsimp only
    by_cases hm : ridden = mount
    · subst hm
      rw [hl]
      simp
    · simp [hm]
  · dsimp only
    have hin : ridden ∈ w.entityLinks := AList.lookup_isSome.mp (by rw [hl]; rfl)
    by_cases hm : ridden = mount
    · subst hm
      rw [lookup_replace_self _ _ _ hin, hl]
      by_cases hr : rider = r
      · subst hr; simp [AList.lookup_erase]
      · simp [hr, AList.lookup_erase_ne (Ne.symm hr)]
    · rw [lookup_replace_ne _ _ _ _ (Ne.symm hm)]
      simp [hm]

/-- One link event: the pair it concerns rides after it exactly when the
event is an add; every other pair is as before. -/
theorem rides_AddEntityLink (w : worldStateMem) (el : EntityLink) (mount r : Int) :
    (w.AddEntityLink el).rides mount r
      = if el.concerns mount r then el.isAdd else w.rides mount r := by
  unfold worldStateMem.AddEntityLink EntityLink.concerns EntityLink.isAdd
  rcases ht : el.LinkType with _ | _ | _ | code
  · dsimp only
    rw [rides_removeRider]
    by_cases h : el.RiddenEntityUniqueID = mount ∧ el.RiderEntityUniqueID = r
    · simp [h.1, h.2]
    · rw [if_neg h]
      have : (el.RiddenEntityUniqueID == mount && el.RiderEntityUniqueID == r) = false := by
        simpa [Bool.and_eq_false_iff] using fun h1 h2 => h ⟨h1, h2⟩
      simp [this]
  · dsimp only
    rw [rides_addRider]
    by_cases h : el.RiddenEntityUniqueID = mount ∧ el.RiderEntityUniqueID = r
    · simp [h.1, h.2]
    · rw [if_neg h]
      have : (el.RiddenEntityUniqueID == mount && el.RiderEntityUniqueID == r) = false := by
        simpa [Bool.and_eq_false_iff] using fun h1 h2 => h ⟨h1, h2⟩
      simp [this]
  · dsimp only
    rw [rides_addRider]
    by_cases h : el.RiddenEntityUniqueID = mount ∧ el.RiderEntityUniqueID = r
    · simp [h.1, h.2]
    · rw [if_neg h]
      have : (el.RiddenEntityUniqueID == mount && el.RiderEntityUniqueID == r) = false := by
        simpa [Bool.and_eq_false_iff] using fun h1 h2 => h ⟨h1, h2⟩
      simp [this]
  · simp

theorem addRider_addRider (links : GoMap Int (GoMap Int Unit)) (ridden rider : Int) :
    addRider (addRider links ridden rider) ridden rider = addRider links ridden rider := by
  have key : ∀ riders : GoMap Int Unit, ∀ s : GoMap Int (GoMap Int Unit),
      s.lookup ridden = some (riders.insert rider ()) → addRider s ridden rider = s := by
    intro riders s hs
    unfold addRider
    rw [hs]
    dsimp only
    rw [AList.insert_insert]
    exact replace_lookup_self _ _ _ hs
  unfold addRider
  rcases hl : links.lookup ridden with _ | riders
  · dsimp only
    exact key ∅ _ (AList.lookup_insert _)
  · dsimp only
    exact key riders _ (lookup_replace_self _ _ _ (AList.lookup_isSome.mp (by rw [hl]; rfl)))

theorem removeRider_of_absent (links : GoMap Int (GoMap Int Unit)) (ridden rider : Int)
    (h : ∀ riders, links.lookup ridden = some riders → riders.lookup rider = none) :
    removeRider links ridden rider = links := by
  unfold removeRider
  rcases hl : links.lookup ridden with _ | riders
  · rfl
  · dsimp only
    rw [erase_of_lookup_none _ _ (h riders hl)]
    exact replace_lookup_self _ _ _ hl

/-- C15. After any sequence of link events, a rider is in the rider set of a
mount exactly when the last event of type rider, passenger or remove for the
pair was an add, and as before the sequence when there was no such event. To
add the same link twice gives the state that adding it once gives. To remove
a rider that is not in the set of the mount, also when the mount has no set,
leaves the store as it was. -/
theorem entity_links_follow_last_event (w : worldStateMem) (events : List EntityLink)
    (mount rider : Int) :
    ((events.foldl worldStateMem.AddEntityLink w).rides mount rider
        = match (events.filter (fun el => el.concerns mount rider)).getLast? with
          | some el => el.isAdd
          | none => w.rides mount rider) ∧
      (∀ (w' : worldStateMem) (el : EntityLink), el.isAdd = true →
        (w'.AddEntityLink el).AddEntityLink el = w'.AddEntityLink el) ∧
      (∀ (w' : worldStateMem) (el : EntityLink), el.LinkType = .remove →
        w'.rides el.RiddenEntityUniqueID el.RiderEntityUniqueID = false →
        w'.AddEntityLink el = w') := by
  refine ⟨?_, ?_, ?_⟩
  · induction events generalizing w with
    | nil => rfl
    | cons el rest ih =>
      rw [List.foldl_cons, ih, rides_AddEntityLink, List.filter_cons]
      by_cases hc : el.concerns mount rider = true
      · rw [if_pos hc, if_pos hc, List.getLast?_cons]
        generalize (rest.filter (fun el => el.concerns mount rider)).getLast? = g
        cases g <;> rfl
      · rw [if_neg hc, if_neg hc]
  · intro w' el hadd
    unfold EntityLink.isAdd at hadd
    unfold worldStateMem.AddEntityLink
    rcases ht : el.LinkType with _ | _ | _ | code
    · simp [ht] at hadd
    · dsimp only; rw [addRider_addRider]
    · dsimp only; rw [addRider_addRider]
    · simp [ht] at hadd
  · intro w' el ht hr
    unfold worldStateMem.AddEntityLink
    rw [ht]
    dsimp only
    rw [removeRider_of_absent]
    intro riders hl
    unfold worldStateMem.rides at hr
    rw [hl] at hr
    simpa using hr

/-! ## Theorems: map compositor -/

theorem ChangeZoom_zoomLevel {Img : Type} (m : MapUI Img) :
    m.ChangeZoom.zoomLevel
      = if Int.tdiv m.zoomLevel 2 = 0 then 16 else Int.tdiv m.zoomLevel 2 := rfl

theorem ChangeZoom_iterate_five {Img : Type} (k : Nat) :
    (MapUI.ChangeZoom^[5 * k] (NewMapUI : MapUI Img)).zoomLevel = 16 := by
  induction k with
  | zero => rfl
  | succ k ih =>
    have h5 : 5 * (k + 1) = 5 + 5 * k := by ring
    rw [h5, Function.iterate_add_apply]
    simp only [Function.iterate_succ, Function.iterate_zero, Function.comp_apply, id_eq,
      ChangeZoom_zoomLevel, ih]
    decide

theorem processElem_zoomLevel {Img : Type} (lib : Raster Img) (m : MapUI Img) (r : RenderElem) :
    (m.processElem lib r).zoomLevel = m.zoomLevel := by
  unfold MapUI.processElem
  rcases r.ch with _ | ch
  · dsimp only
    rcases m.oldRendered.lookup r.pos with _ | img <;> rfl
  · dsimp only
    rcases r.isDeferredState with _ | _ <;> rfl

theorem drain_zoomLevel {Img : Type} (lib : Raster Img) (q : List RenderElem) (m : MapUI Img)
    (u : List ChunkPos) : (MapUI.drain lib q m u).1.zoomLevel = m.zoomLevel := by
  induction q generalizing m u with
  | nil => rfl
  | cons r rest ih =>
    rw [MapUI.drain, ih, processElem_zoomLevel]

/-- The part of C16 the code keeps. The zoom level of a new map is 16, and
after `n` complete calls of `ChangeZoom` it is 16 divided by 2 to the power
`n mod 5`: it goes through 16, 8, 4, 2, 1 and back to 16, and is not 0 after
a complete call. No other method of the map writes the zoom level. -/
theorem ChangeZoom_cycles (Img : Type) (n : Nat) :
    (NewMapUI : MapUI Img).zoomLevel = 16 ∧
      (MapUI.ChangeZoom^[n] (NewMapUI : MapUI Img)).zoomLevel = 16 / 2 ^ (n % 5) ∧
      (MapUI.ChangeZoom^[n] (NewMapUI : MapUI Img)).zoomLevel ≠ 0 ∧
      (∀ (lib : Raster Img) (m : MapUI Img),
        m.SchedRedraw.zoomLevel = m.zoomLevel ∧ m.Reset.zoomLevel = m.zoomLevel ∧
        (∀ pos ch d, (m.SetChunk pos ch d).zoomLevel = m.zoomLevel) ∧
        (m.processQueue lib).1.zoomLevel = m.zoomLevel) := by
  have key : (MapUI.ChangeZoom^[n] (NewMapUI : MapUI Img)).zoomLevel = 16 / 2 ^ (n % 5) := by
    have hn : n = n % 5 + 5 * (n / 5) := by omega
    have hlt : n % 5 < 5 := Nat.mod_lt _ (by decide)
    generalize n % 5 = r at hn hlt
    generalize n / 5 = k at hn
    subst hn
    rw [Function.iterate_add_apply]
    have h16 := @ChangeZoom_iterate_five Img k
    interval_cases r <;>
      simp only [Function.iterate_succ, Function.iterate_zero, Function.comp_apply, id_eq,
        ChangeZoom_zoomLevel, h16] <;> decide
  refine ⟨rfl, key, ?_, ?_⟩
  · rw [key]
    have hlt : n % 5 < 5 := Nat.mod_lt _ (by decide)
    generalize n % 5 = r at hlt
    interval_cases r <;> decide
  · intro lib m
    exact ⟨rfl, rfl, fun _ _ _ => rfl, drain_zoomLevel lib _ _ _⟩

theorem drain_eq_foldl {Img : Type} (lib : Raster Img) (q : List RenderElem) (m : MapUI Img)
    (u : List ChunkPos) :
    MapUI.drain lib q m u
      = ({ q.foldl (MapUI.processElem lib) m with renderQueue := [] },
          u ++ (q.filter (fun r => r.ch.isSome)).map (fun r => r.pos)) := by
  induction q generalizing m u with
  | nil => simp [MapUI.drain]
  | cons r rest ih =>
    rw [MapUI.drain, ih, List.foldl_cons, List.filter_cons]
    rcases r.ch.isSome with _ | _ <;> simp

theorem processElem_renderedChunks {Img : Type} (lib : Raster Img) (m : MapUI Img)
    (r : RenderElem) (p : ChunkPos) :
    (m.processElem lib r).renderedChunks.lookup p
      = if p = r.pos then
          match r.ch with
          | some c => some (if r.isDeferredState then lib.tint (lib.Chunk2Img c) else lib.Chunk2Img c)
          | none => m.oldRendered.lookup r.pos
        else m.renderedChunks.lookup p := by
  unfold MapUI.processElem
  rcases r.ch with _ | ch
  · dsimp only
    rcases ho : m.oldRendered.lookup r.pos with _ | img
    · dsimp only
      by_cases hp : p = r.pos
      · rw [if_pos hp, hp, AList.lookup_erase]
      · rw [if_neg hp, AList.lookup_erase_ne hp]
    · dsimp only
      by_cases hp : p = r.pos
      · rw [if_pos hp, hp, AList.lookup_insert]
      · rw [if_neg hp, AList.lookup_insert_ne hp]
  · dsimp only
    rcases r.isDeferredState with _ | _
    · by_cases hp : p = r.pos
      · rw [if_pos hp, hp]; exact AList.lookup_insert _
      · rw [if_neg hp]; exact AList.lookup_insert_ne hp
    · by_cases hp : p = r.pos
      · rw [if_pos hp, hp]; exact AList.lookup_insert _
      · rw [if_neg hp]; exact AList.lookup_insert_ne hp

theorem processElem_oldRendered {Img : Type} (lib : Raster Img) (m : MapUI Img)
    (r : RenderElem) (p : ChunkPos) :
    (m.processElem lib r).oldRendered.lookup p
      = if p = r.pos ∧ r.ch.isSome = true ∧ r.isDeferredState = true then
          match m.renderedChunks.lookup p with
          | some old => some old
          | none => m.oldRendered.lookup p
        else m.oldRendered.lookup p := by
  unfold MapUI.processElem
  rcases r.ch with _ | ch
  · dsimp only
    rw [if_neg (by simp)]
    rcases m.oldRendered.lookup r.pos with _ | img <;> rfl
  · dsimp only
    rcases r.isDeferredState with _ | _
    · simp
    · by_cases hp : p = r.pos
      · subst hp
        rcases m.renderedChunks.lookup r.pos with _ | old
        · simp
        · simp [AList.lookup_insert]
      · rcases m.renderedChunks.lookup r.pos with _ | old
        · simp [hp]
        · simp [hp, AList.lookup_insert_ne hp]

theorem foldl_processElem_other {Img : Type} (lib : Raster Img) (q : List RenderElem)
    (m : MapUI Img) (p : ChunkPos) (hq : ∀ r ∈ q, r.pos ≠ p) :
    (q.foldl (MapUI.processElem lib) m).renderedChunks.lookup p = m.renderedChunks.lookup p ∧
      (q.foldl (MapUI.processElem lib) m).oldRendered.lookup p = m.oldRendered.lookup p := by
  induction q generalizing m with
  | nil => exact ⟨rfl, rfl⟩
  | cons r rest ih =>
    have hr : p ≠ r.pos := fun h => hq r (List.mem_cons_self _ _) h.symm
    have h := ih (m.processElem lib r) (fun r' hr' => hq r' (List.mem_cons_of_mem _ hr'))
    rw [List.foldl_cons, h.1, h.2, processElem_renderedChunks, processElem_oldRendered,
      if_neg hr, if_neg (fun h => hr h.1)]
    exact ⟨rfl, rfl⟩

/-- C17. The queue is drained oldest first: the map after `processQueue` is the
left fold of the per-request step over the queue, with the queue empty, and
the positions returned are those of the requests with a column, in order;
this holds for every queue, the empty one included. The step of one request
sets the tile of its position to the raster of its column when the request
is final, and to the tinted raster when it is provisional, after the tile the
position had, if any, became its fallback; for a request with no column the
tile becomes the fallback of the position, and there is no tile when there is
no fallback. Tiles and fallbacks of other positions stay. So when a final
request for a position is in the queue and no request for the position comes
after it, whatever came before, a provisional request included, the tile of
the position is the untinted raster of the final column. -/
theorem processQueue_applies_requests_in_order {Img : Type} (lib : Raster Img) (m : MapUI Img) :
    (m.processQueue lib).1
        = { m.renderQueue.foldl (MapUI.processElem lib) m with renderQueue := [] } ∧
      (m.processQueue lib).2
        = (m.renderQueue.filter (fun r => r.ch.isSome)).map (fun r => r.pos) ∧
      (∀ (m' : MapUI Img) (r : RenderElem) (p : ChunkPos),
        (m'.processElem lib r).renderedChunks.lookup p
            = (if p = r.pos then
                match r.ch with
                | some c => some (if r.isDeferredState then lib.tint (lib.Chunk2Img c)
                    else lib.Chunk2Img c)
                | none => m'.oldRendered.lookup r.pos
              else m'.renderedChunks.lookup p) ∧
          (m'.processElem lib r).oldRendered.lookup p
            = (if p = r.pos ∧ r.ch.isSome = true ∧ r.isDeferredState = true then
                match m'.renderedChunks.lookup p with
                | some old => some old
                | none => m'.oldRendered.lookup p
              else m'.oldRendered.lookup p)) ∧
      (∀ (q1 q2 : List RenderElem) (pos : ChunkPos) (c : Chunk),
        m.renderQueue = q1 ++ ⟨pos, some c, false⟩ :: q2 → (∀ r ∈ q2, r.pos ≠ pos) →
          (m.processQueue lib).1.renderedChunks.lookup pos = some (lib.Chunk2Img c)) := by
  have h1 := drain_eq_foldl lib m.renderQueue m []
  refine ⟨?_, ?_, ?_, ?_⟩
  · unfold MapUI.processQueue; rw [h1]
  · unfold MapUI.processQueue; rw [h1]; rfl
  · intro m' r p
    exact ⟨processElem_renderedChunks lib m' r p, processElem_oldRendered lib m' r p⟩
  · intro q1 q2 pos c hq hlater
    unfold MapUI.processQueue
    rw [h1, hq]
    show (List.foldl (MapUI.processElem lib) m (q1 ++ ⟨pos, some c, false⟩ :: q2)).renderedChunks.lookup pos = _
    rw [List.foldl_append, List.foldl_cons, (foldl_processElem_other lib q2 _ pos hlater).1,
      processElem_renderedChunks]
    simp

/-- C17, an instance: a provisional request for (0, 0) followed by a final
one, on a new map. The requests are taken in that order, both positions are
returned, and the tile is the untinted raster of the final column. -/
theorem processQueue_applies_requests_in_order_witness :
    ((((NewMapUI : MapUI Nat).SetChunk (0, 0) (some ⟨[]⟩) true).SetChunk (0, 0)
        (some ⟨[exampleSlab]⟩) false).processQueue exampleRaster).2 = [(0, 0), (0, 0)] ∧
      ((((NewMapUI : MapUI Nat).SetChunk (0, 0) (some ⟨[]⟩) true).SetChunk (0, 0)
        (some ⟨[exampleSlab]⟩) false).processQueue exampleRaster).1.renderedChunks.lookup (0, 0)
        = some 1 :=
  have h := processQueue_applies_requests_in_order exampleRaster
    (((NewMapUI : MapUI Nat).SetChunk (0, 0) (some ⟨[]⟩) true).SetChunk (0, 0)
      (some ⟨[exampleSlab]⟩) false)
  ⟨h.2.1, h.2.2.2 [⟨(0, 0), some ⟨[]⟩, true⟩] [] (0, 0) ⟨[exampleSlab]⟩ rfl (by simp)⟩

theorem processQueue_oldRendered {Img : Type} (lib : Raster Img) (m : MapUI Img) :
    (m.processQueue lib).1.oldRendered
      = (m.renderQueue.foldl (MapUI.processElem lib) m).oldRendered := by
  unfold MapUI.processQueue
  rw [drain_eq_foldl]

/-- C19, as the spec words it, fails: a stone of the colour (5, 10, 200, 255)
with a block above a neighbour is drawn as (5, 10, 190, 255). The channels 5
and 10 stay as they are; the difference clamped at zero is 0 for both. -/
theorem chunkGetColorAt_keeps_low_channels :
    haveUp exampleRenderLib ⟨[]⟩ 3 10 3 = true ∧
      blockColorAt exampleRenderLib ⟨[]⟩ 3 3 3 10 = some ⟨5, 10, 200, 255⟩ ∧
      chunkGetColorAt exampleRenderLib ⟨[]⟩ 3 10 3 = some ⟨5, 10, 190, 255⟩ ∧
      max ((5 : Int) - 10) 0 = 0 ∧ max ((10 : Int) - 10) 0 = 0 := by
  decide

/-- C19, amended. When `blockColorAt` gives a colour, `chunkGetColorAt` gives
that colour for a pixel with no block above a neighbour; for a pixel with
one, each of R, G and B above 10 is lowered by 10, each of R, G and B of 10
or less stays as it is, and alpha stays. The darkened channel is the
difference clamped at zero exactly for 0 and for the values above 10. -/
theorem chunkGetColorAt_darkens_channels_above_ten (lib : RenderLib) (c : Chunk) (x : Nat)
    (y : Int) (z : Nat) (col : RGBA) (hcol : blockColorAt lib c x z 3 y = some col) :
    chunkGetColorAt lib c x y z
        = some (if haveUp lib c x y z then
            ⟨if col.R > 10 then col.R - 10 else col.R, if col.G > 10 then col.G - 10 else col.G,
              if col.B > 10 then col.B - 10 else col.B, col.A⟩
          else col) ∧
      (∀ v : Nat, ((darkenChannel v : Nat) : Int) = max ((v : Int) - 10) 0 ↔ v = 0 ∨ 10 < v) := by
  constructor
  · unfold chunkGetColorAt
    rw [hcol]
    dsimp only
    rcases haveUp lib c x y z with _ | _ <;> rfl
  · intro v
    unfold darkenChannel
    split_ifs with h
    · have : ((v - 10 : Nat) : Int) = (v : Int) - 10 := by omega
      rw [this]
      constructor
      · intro _; exact Or.inr h
      · intro _; omega
    · constructor
      · intro hv; omega
      · intro hv; omega

/-- A bright stone, (50, 60, 200, 255), under a block: every channel is
lowered by 10. -/
theorem chunkGetColorAt_darkens_channels_above_ten_witness :
    chunkGetColorAt { exampleRenderLib with
        BlockByRuntimeID := fun _ => some ⟨false, false, ⟨50, 60, 200, 255⟩⟩ } ⟨[]⟩ 3 10 3
      = some (if haveUp { exampleRenderLib with
            BlockByRuntimeID := fun _ => some ⟨false, false, ⟨50, 60, 200, 255⟩⟩ } ⟨[]⟩ 3 10 3 then
          ⟨40, 50, 190, 255⟩ else ⟨50, 60, 200, 255⟩) :=
  (chunkGetColorAt_darkens_channels_above_ten { exampleRenderLib with
    BlockByRuntimeID := fun _ => some ⟨false, false, ⟨50, 60, 200, 255⟩⟩ } ⟨[]⟩ 3 10 3
    ⟨50, 60, 200, 255⟩ rfl).1

/-! ## Theorems: bounds and export -/

theorem foldl_bounds_max_nonneg {Img : Type} (l : List (Sigma (fun _ : ChunkPos => Img)))
    (b : ChunkPos × ChunkPos) (hb : 0 ≤ b.2.1 ∧ 0 ≤ b.2.2) :
    0 ≤ (l.foldl (fun (b : ChunkPos × ChunkPos) chunk =>
          ((min b.1.1 chunk.1.1, min b.1.2 chunk.1.2), (max b.2.1 chunk.1.1, max b.2.2 chunk.1.2)))
        b).2.1 ∧
      0 ≤ (l.foldl (fun (b : ChunkPos × ChunkPos) chunk =>
          ((min b.1.1 chunk.1.1, min b.1.2 chunk.1.2), (max b.2.1 chunk.1.1, max b.2.2 chunk.1.2)))
        b).2.2 := by
  induction l generalizing b with
  | nil => exact hb
  | cons e l ih =>
    rw [List.foldl_cons]
    exact ih _ ⟨le_max_of_le_left hb.1, le_max_of_le_left hb.2⟩

/-- The maximum corner that `GetBounds` returns has no negative coordinate,
whatever the tiles are. -/
theorem GetBounds_max_nonneg {Img : Type} (m : MapUI Img) :
    0 ≤ m.GetBounds.2.1 ∧ 0 ≤ m.GetBounds.2.2 := by
  unfold MapUI.GetBounds
  split_ifs
  · exact ⟨le_refl _, le_refl _⟩
  · exact foldl_bounds_max_nonneg _ _ ⟨le_refl _, le_refl _⟩

/-- C20 fails on a map whose one tile is at the chunk (-5, -5): the maximum
starts at (0, 0), not at the least `int32`, so `GetBounds` returns the corners
(-5, -5) and (0, 0), where the maximum over the tile positions is (-5, -5),
and `ToImage` makes an image of 96 by 96 pixels, where (max - min + 1) * 16
over the tile positions is 16 by 16. The tile is drawn at (0, 0). -/
theorem GetBounds_max_starts_at_zero :
    exampleNegativeMap.renderedChunks.keys = [(-5, -5)] ∧
      exampleNegativeMap.GetBounds = ((-5, -5), (0, 0)) ∧
      (exampleNegativeMap.ToImage exampleRaster).2.width = 96 ∧
      (exampleNegativeMap.ToImage exampleRaster).2.height = 96 ∧
      (exampleNegativeMap.ToImage exampleRaster).2.draws = [((0, 0, 16, 16), 1)] := by
  decide

/-! ## Theorems: cancellation -/

/-- C21, as the spec words it, fails: with a context that was cancelled before
the call, the run on a file of three frames reads the three frames, visits
their four packets with ten callback calls, and returns nil as it does with
a context that is never cancelled. -/
theorem cancelled_context_reads_every_frame :
    exampleCancelled.Err 1 = true ∧
      (createReplayConnectionCtx exampleCancelled exampleDecoder exampleHandlers ()
        (WriteReplayHeader ++ writeFrames 2 exampleCaptures)).state.frames.length = 3 ∧
      (createReplayConnectionCtx exampleCancelled exampleDecoder exampleHandlers ()
        (WriteReplayHeader ++ writeFrames 2 exampleCaptures)).state.packets.length = 4 ∧
      (createReplayConnectionCtx exampleCancelled exampleDecoder exampleHandlers ()
        (WriteReplayHeader ++ writeFrames 2 exampleCaptures)).state.trace.length = 10 ∧
      (createReplayConnectionCtx exampleCancelled exampleDecoder exampleHandlers ()
        (WriteReplayHeader ++ writeFrames 2 exampleCaptures)).outcome = .ret none := by
  decide

/-- C21, amended. The run does not depend on the context: for every file it
is the run with a context that is never cancelled, so a cancellation stops no
frame from being read or dispatched and is never reported as an error. For
the header of `WriteReplayHeader` followed by the frames of captures that the
layout can hold, whose payloads are no longer than the 1 GiB that one `Read`
call takes and are accepted by `ParseData`, with any context, cancelled or
not, the run returns nil and has read every frame. -/
theorem replay_ignores_cancellation {σ P E : Type} (ctx : Context) (dec : Decoder σ P E)
    (hs : List Handler) (conn : σ) (cs : List Capture) (hfit : ∀ c ∈ cs, c.fits)
    (hread : ∀ c ∈ cs, c.payload.length ≤ maxRW)
    (hparse : ∀ c ∈ cs, ∀ s e, (dec.decodeFrame s c.payload).2 ≠ .parseError e) :
    (∀ file, createReplayConnectionCtx ctx dec hs conn file
        = createReplayConnectionCtx Context.Background dec hs conn file) ∧
      (createReplayConnectionCtx ctx dec hs conn (WriteReplayHeader ++ writeFrames 2 cs)).outcome
        = .ret none ∧
      (createReplayConnectionCtx ctx dec hs conn
          (WriteReplayHeader ++ writeFrames 2 cs)).state.frames
        = cs.map (fun c => ⟨c.payload, c.toServer, .unixMilli c.timeMs⟩) := by
  refine ⟨fun _ => rfl, ?_⟩
  unfold createReplayConnectionCtx
  obtain ⟨st', hf, hrun⟩ :=
    createReplayConnection_frames dec hs conn 2 (by norm_num) (by norm_num) cs hfit hread hparse
  obtain ⟨fuel, hr⟩ := hrun [] (Or.inl rfl)
  have e : WriteReplayHeader ++ writeFrames 2 cs = replayFile 2 (writeFrames 2 cs ++ []) := by
    simp [replayFile, WriteReplayHeader_eq]
  rw [e, hr, frameLoop_nil]
  simp [finish, hf, framesOf_timestamped 2 (le_refl _)]

/-- C21, an instance: the three example captures read under a context that
was cancelled before the call. -/
theorem replay_ignores_cancellation_witness :
    (createReplayConnectionCtx exampleCancelled exampleDecoder exampleHandlers ()
        (WriteReplayHeader ++ writeFrames 2 exampleCaptures)).outcome = .ret none ∧
      (createReplayConnectionCtx exampleCancelled exampleDecoder exampleHandlers ()
        (WriteReplayHeader ++ writeFrames 2 exampleCaptures)).state.frames
        = exampleCaptures.map (fun c => ⟨c.payload, c.toServer, .unixMilli c.timeMs⟩) :=
  (replay_ignores_cancellation exampleCancelled exampleDecoder exampleHandlers () exampleCaptures
    (by decide) (by decide) (by intro c _ s e h; simp [exampleDecoder] at h)).2

/-! ## Theorems: fallback cache -/

theorem processElem_oldRendered_isSome {Img : Type} (lib : Raster Img) (m : MapUI Img)
    (r : RenderElem) (p : ChunkPos) :
    ((m.processElem lib r).oldRendered.lookup p).isSome = true ↔
      (m.oldRendered.lookup p).isSome = true ∨
        (r.pos = p ∧ r.ch.isSome = true ∧ r.isDeferredState = true ∧
          (m.renderedChunks.lookup p).isSome = true) := by
  rw [processElem_oldRendered]
  by_cases h : p = r.pos ∧ r.ch.isSome = true ∧ r.isDeferredState = true
  · rw [if_pos h]
    obtain ⟨h1, h2, h3⟩ := h
    rcases hl : m.renderedChunks.lookup p with _ | old
    · simp
    · simp [h1, h2, h3]
  · rw [if_neg h]
    constructor
    · exact Or.inl
    · rintro (h' | ⟨h1, h2, h3, _⟩)
      · exact h'
      · exact absurd ⟨h1.symm, h2, h3⟩ h

theorem foldl_processElem_oldRendered_isSome {Img : Type} (lib : Raster Img)
    (q : List RenderElem) (m : MapUI Img) (p : ChunkPos) :
    ((q.foldl (MapUI.processElem lib) m).oldRendered.lookup p).isSome = true ↔
      (m.oldRendered.lookup p).isSome = true ∨
        ∃ q1 r q2, q = q1 ++ r :: q2 ∧ r.pos = p ∧ r.ch.isSome = true ∧
          r.isDeferredState = true ∧
          ((q1.foldl (MapUI.processElem lib) m).renderedChunks.lookup p).isSome = true := by
  induction q generalizing m with
  | nil => simp
  | cons r0 rest ih =>
    rw [List.foldl_cons, ih, processElem_oldRendered_isSome]
    constructor
    · rintro ((h | h) | ⟨q1, r, q2, hq, h⟩)
      · exact Or.inl h
      · exact Or.inr ⟨[], r0, rest, rfl, h⟩
      · exact Or.inr ⟨r0 :: q1, r, q2, by rw [hq]; rfl, h⟩
    · rintro (h | ⟨q1, r, q2, hq, h⟩)
      · exact Or.inl (Or.inl h)
      · cases q1 with
        | nil =>
          simp only [List.nil_append, List.cons.injEq] at hq
          obtain ⟨rfl, rfl⟩ := hq
          exact Or.inl (Or.inr h)
        | cons a q1 =>
          simp only [List.cons_append, List.cons.injEq] at hq
          obtain ⟨rfl, rfl⟩ := hq
          exact Or.inr ⟨q1, r, q2, rfl, h⟩

/-- C22, as the spec words it, fails: on a new map, a final request for (0, 0),
then a provisional one, then a final one. After the queue is drained the
latest request for (0, 0) is final and its tile is the untinted raster, and
the fallback cache still holds the tile of the first request for (0, 0). -/
theorem fallback_entry_survives_final_request :
    (((((NewMapUI : MapUI Nat).SetChunk (0, 0) (some ⟨[]⟩) false).SetChunk (0, 0)
        (some ⟨[exampleSlab]⟩) true).SetChunk (0, 0)
          (some ⟨[exampleSlab, exampleSlab]⟩) false).processQueue
            exampleRaster).1.renderedChunks.lookup (0, 0) = some 2 ∧
      (((((NewMapUI : MapUI Nat).SetChunk (0, 0) (some ⟨[]⟩) false).SetChunk (0, 0)
        (some ⟨[exampleSlab]⟩) true).SetChunk (0, 0)
          (some ⟨[exampleSlab, exampleSlab]⟩) false).processQueue
            exampleRaster).1.oldRendered.lookup (0, 0) = some 0 := by
  decide

/-- C22, amended. A new map and a map after `Reset` have an empty fallback
cache. After `processQueue` the fallback cache has an entry for a position
exactly when it had one before, or some request of the queue for the position
had a column, was marked deferred, and found a tile at the position when its
turn came. No request removes an entry, a later final request included: the
entry stays until `Reset`. -/
theorem fallback_entries_come_from_provisional_requests {Img : Type} (lib : Raster Img)
    (m : MapUI Img) (p : ChunkPos) :
    (NewMapUI : MapUI Img).oldRendered.lookup p = none ∧
      m.Reset.oldRendered.lookup p = none ∧
      (((m.processQueue lib).1.oldRendered.lookup p).isSome = true ↔
        (m.oldRendered.lookup p).isSome = true ∨
          ∃ q1 r q2, m.renderQueue = q1 ++ r :: q2 ∧ r.pos = p ∧ r.ch.isSome = true ∧
            r.isDeferredState = true ∧
            ((q1.foldl (MapUI.processElem lib) m).renderedChunks.lookup p).isSome = true) ∧
      (∀ (m' : MapUI Img) (r : RenderElem), (m'.oldRendered.lookup p).isSome = true →
        ((m'.processElem lib r).oldRendered.lookup p).isSome = true) := by
  refine ⟨rfl, rfl, ?_, ?_⟩
  · rw [processQueue_oldRendered]
    exact foldl_processElem_oldRendered_isSome lib m.renderQueue m p
  · intro m' r h
    exact (processElem_oldRendered_isSome lib m' r p).mpr (Or.inl h)

/-! ## Theorems: canvas scale -/

theorem roundHalfEven_intCast (n : ℤ) : roundHalfEven (n : ℚ) = n := by
  unfold roundHalfEven
  simp

theorem float64Exp_two_zpow (k : ℤ) (hk : -1022 ≤ k) : float64Exp ((2 : ℚ) ^ k) = k - 52 := by
  unfold float64Exp
  have hpos : (0 : ℚ) < 2 ^ k := zpow_pos (by norm_num) k
  have hlog : Int.log 2 ((2 : ℚ) ^ k) = k := by
    have h := @Int.log_zpow ℚ _ _ 2 (by norm_num) k
    simpa using h
  rw [abs_of_pos hpos, hlog]
  omega

/-- A power of two in the range of the normal numbers is a `float64`:
rounding leaves it as it is. -/
theorem roundFloat64_two_zpow (k : ℤ) (hk : -1022 ≤ k) :
    roundFloat64 ((2 : ℚ) ^ k) = 2 ^ k := by
  unfold roundFloat64
  have hpos : (0 : ℚ) < 2 ^ k := zpow_pos (by norm_num) k
  rw [if_neg (ne_of_gt hpos), float64Exp_two_zpow k hk]
  have h52 : (2 : ℚ) ^ k / 2 ^ (k - 52) = ((2 ^ 52 : ℤ) : ℚ) := by
    rw [← zpow_sub₀ (by norm_num : (2 : ℚ) ≠ 0)]
    have : k - (k - 52) = (52 : ℕ) := by omega
    rw [this, zpow_natCast]
    norm_num
  rw [h52, roundHalfEven_intCast]
  have : (((2 ^ 52 : ℤ) : ℚ)) = (2 : ℚ) ^ (52 : ℤ) := by norm_num
  rw [this, ← zpow_add₀ (by norm_num : (2 : ℚ) ≠ 0)]
  congr 1
  omega

theorem roundFloat64_powers :
    roundFloat64 128 = 128 ∧ roundFloat64 64 = 64 ∧ roundFloat64 32 = 32 ∧
      roundFloat64 16 = 16 ∧ roundFloat64 8 = 8 ∧ roundFloat64 4 = 4 ∧ roundFloat64 2 = 2 ∧
      roundFloat64 1 = 1 ∧ roundFloat64 (1 / 2) = 1 / 2 ∧ roundFloat64 (1 / 4) = 1 / 4 ∧
      roundFloat64 (1 / 8) = 1 / 8 ∧ roundFloat64 (1 / 16) = 1 / 16 := by
  have h7 := roundFloat64_two_zpow 7 (by norm_num)
  have h6 := roundFloat64_two_zpow 6 (by norm_num)
  have h5 := roundFloat64_two_zpow 5 (by norm_num)
  have h4 := roundFloat64_two_zpow 4 (by norm_num)
  have h3 := roundFloat64_two_zpow 3 (by norm_num)
  have h2 := roundFloat64_two_zpow 2 (by norm_num)
  have h1 := roundFloat64_two_zpow 1 (by norm_num)
  have h0 := roundFloat64_two_zpow 0 (by norm_num)
  have n1 := roundFloat64_two_zpow (-1) (by norm_num)
  have n2 := roundFloat64_two_zpow (-2) (by norm_num)
  have n3 := roundFloat64_two_zpow (-3) (by norm_num)
  have n4 := roundFloat64_two_zpow (-4) (by norm_num)
  norm_num [zpow_neg] at h7 h6 h5 h4 h3 h2 h1 h0 n1 n2 n3 n4
  norm_num
  exact ⟨h7, h6, h5, h4, h3, h2, h1, h0, n1, n2, n3, n4⟩

theorem ChangeZoom_iterate_zoomLevel (Img : Type) (n : Nat) :
    (MapUI.ChangeZoom^[n] (NewMapUI : MapUI Img)).zoomLevel = 16 / 2 ^ (n % 5) := by
  have hn : n = n % 5 + 5 * (n / 5) := by omega
  have hlt : n % 5 < 5 := Nat.mod_lt _ (by decide)
  generalize n % 5 = r at hn hlt
  generalize n / 5 = k at hn
  subst hn
  rw [Function.iterate_add_apply]
  have h16 := @ChangeZoom_iterate_five Img k
  interval_cases r <;>
    simp only [Function.iterate_succ, Function.iterate_zero, Function.comp_apply, id_eq,
      ChangeZoom_zoomLevel, h16] <;> decide

/-- C23. For a zoom level `z` among 1, 2, 4, 8 and 16, which are the zoom
levels a map can have, the `float64` computations of `Redraw` are exact:
`chunksPerLine` is 128 / z, `pxPerBlock` is z / 16, and `pxSizeChunk`, the
floor of `pxPerBlock * 16`, is z. -/
theorem Redraw_scale_is_zoom (z : Int) (hz : z ∈ ([1, 2, 4, 8, 16] : List Int)) :
    chunksPerLine z = some (128 / (z : ℚ)) ∧ pxPerBlock z = some ((z : ℚ) / 16) ∧
      pxSizeChunk z = some z ∧
      (∀ (Img : Type) (n : Nat),
        (MapUI.ChangeZoom^[n] (NewMapUI : MapUI Img)).zoomLevel ∈ ([1, 2, 4, 8, 16] : List Int)) := by
  obtain ⟨h7, h6, h5, h4, h3, h2, h1, h0, n1, n2, n3, n4⟩ := roundFloat64_powers
  have hreach : ∀ (Img : Type) (n : Nat),
      (MapUI.ChangeZoom^[n] (NewMapUI : MapUI Img)).zoomLevel ∈ ([1, 2, 4, 8, 16] : List Int) := by
    intro Img n
    rw [ChangeZoom_iterate_zoomLevel]
    have hlt : n % 5 < 5 := Nat.mod_lt _ (by decide)
    generalize n % 5 = r at hlt
    interval_cases r <;> decide
  simp only [List.mem_cons, List.mem_singleton, List.not_mem_nil, or_false] at hz
  rcases hz with rfl | rfl | rfl | rfl | rfl
  · have e : Int.tdiv 128 1 = 128 := by decide
    refine ⟨?_, ?_, ?_, hreach⟩ <;>
      norm_num [pxSizeChunk, pxPerBlock, chunksPerLine, float64Div, float64Mul, e, h7, h6, h5,
        h4, h3, h2, h1, h0, n1, n2, n3, n4]
  · have e : Int.tdiv 128 2 = 64 := by decide
    refine ⟨?_, ?_, ?_, hreach⟩ <;>
      norm_num [pxSizeChunk, pxPerBlock, chunksPerLine, float64Div, float64Mul, e, h7, h6, h5,
        h4, h3, h2, h1, h0, n1, n2, n3, n4]
  · have e : Int.tdiv 128 4 = 32 := by decide
    refine ⟨?_, ?_, ?_, hreach⟩ <;>
      norm_num [pxSizeChunk, pxPerBlock, chunksPerLine, float64Div, float64Mul, e, h7, h6, h5,
        h4, h3, h2, h1, h0, n1, n2, n3, n4]
  · have e : Int.tdiv 128 8 = 16 := by decide
    refine ⟨?_, ?_, ?_, hreach⟩ <;>
      norm_num [pxSizeChunk, pxPerBlock, chunksPerLine, float64Div, float64Mul, e, h7, h6, h5,
        h4, h3, h2, h1, h0, n1, n2, n3, n4]
  · have e : Int.tdiv 128 16 = 8 := by decide
    refine ⟨?_, ?_, ?_, hreach⟩ <;>
      norm_num [pxSizeChunk, pxPerBlock, chunksPerLine, float64Div, float64Mul, e, h7, h6, h5,
        h4, h3, h2, h1, h0, n1, n2, n3, n4]

/-- C23, an instance: at zoom level 4 a block takes a quarter of a pixel and a
chunk 4 pixels. -/
theorem Redraw_scale_is_zoom_witness :
    pxPerBlock 4 = some ((4 : ℚ) / 16) ∧ pxSizeChunk 4 = some 4 :=
  have h := Redraw_scale_is_zoom 4 (by decide)
  ⟨by simpa using h.2.1, h.2.2.1⟩

/-! ## Theorems: termination of the frame loop -/

theorem binaryRead_rest_ne_nil (n : Nat) (f : List Byte) (h : (binaryRead n f).2 ≠ []) :
    ∃ bs, f = bs ++ (binaryRead n f).2 ∧ bs.length = n := by
  unfold binaryRead at h ⊢
  by_cases hn : n ≤ f.length
  · simp only [hn, if_true]
    exact ⟨f.take n, (List.take_append_drop n f).symm, by simp [List.length_take, hn]⟩
  · simp [hn] at h

theorem binaryRead_value_ne_zero (n : Nat) (f : List Byte)
    (h : ((binaryRead n f).1.map getLE).getD 0 ≠ 0) :
    ∃ bs, f = bs ++ (binaryRead n f).2 ∧ bs.length = n := by
  unfold binaryRead at h ⊢
  by_cases hn : n ≤ f.length
  · simp only [hn, if_true]
    exact ⟨f.take n, (List.take_append_drop n f).symm, by simp [List.length_take, hn]⟩
  · simp [hn] at h

theorem fileRead_ok (len : Nat) (f p rest : List Byte) (h : fileRead len f = .ok p rest) :
    f = p ++ rest := by
  unfold fileRead at h
  split_ifs at h with h0 hf
  · simp only [ReadResult.ok.injEq] at h
    obtain ⟨rfl, rfl⟩ := h
    rfl
  · simp only [ReadResult.ok.injEq] at h
    obtain ⟨rfl, rfl⟩ := h
    exact (List.take_append_drop _ f).symm

theorem readFrame_proj (ver : Int) (i : Nat) (f : List Byte) :
    readFrame ver i f =
      if ((binaryRead 4 f).1.map getLE).getD 0 ≠ 0xAAAAAAAA then .wrongMagic
      else
        match fileRead (((binaryRead 4 (binaryRead 4 f).2).1.map getLE).getD 0)
          (if ver ≥ 2 then (binaryRead 8 (binaryRead 1 (binaryRead 4 (binaryRead 4 f).2).2).2).2
            else (binaryRead 1 (binaryRead 4 (binaryRead 4 f).2).2).2) with
        | .err => .readError
        | .ok payload f5 =>
          if payload.length ≠ ((binaryRead 4 (binaryRead 4 f).2).1.map getLE).getD 0 then .truncated
          else if ((binaryRead 4 f5).1.map getLE).getD 0 ≠ 0xBBBBBBBB then .wrongMagic2
          else .frame ⟨payload,
            ((binaryRead 1 (binaryRead 4 (binaryRead 4 f).2).2).1.map
              (fun bs => decide (getLE bs ≠ 0))).getD false,
            if ver ≥ 2 then
              .unixMilli (toSigned 64
                (((binaryRead 8 (binaryRead 1 (binaryRead 4 (binaryRead 4 f).2).2).2).1.map
                  getLE).getD 0))
            else .now i⟩ (binaryRead 4 f5).2 := by
  unfold readFrame
  by_cases hv : ver ≥ 2
  · (simp only [hv, if_true]; try rfl)
  · (simp only [hv, if_false]; try rfl)

/-- A frame the loop body accepts takes its header, its payload and its end
sentinel from the front of the file: 13 bytes and the payload before version
2, 21 bytes and the payload from version 2 on. -/
theorem readFrame_advance (ver : Int) (i : Nat) (f rest : List Byte) (fr : Frame)
    (h : readFrame ver i f = .frame fr rest) :
    ∃ pre, f = pre ++ rest ∧ pre.length = (if ver ≥ 2 then 21 else 13) + fr.payload.length := by
  rw [readFrame_proj] at h
  by_cases hmagic : ((binaryRead 4 f).1.map getLE).getD 0 ≠ 0xAAAAAAAA
  · rw [if_pos hmagic] at h
    exact absurd h (by simp)
  rw [if_neg hmagic] at h
  generalize hf4 : (if ver ≥ 2 then
      (binaryRead 8 (binaryRead 1 (binaryRead 4 (binaryRead 4 f).2).2).2).2
    else (binaryRead 1 (binaryRead 4 (binaryRead 4 f).2).2).2) = f4 at h
  rcases hr : fileRead (((binaryRead 4 (binaryRead 4 f).2).1.map getLE).getD 0) f4 with
    _ | ⟨payload, f5⟩
  · rw [hr] at h; simp at h
  rw [hr] at h
  simp only at h
  by_cases hlen : payload.length ≠ ((binaryRead 4 (binaryRead 4 f).2).1.map getLE).getD 0
  · rw [if_pos hlen] at h
    exact absurd h (by simp)
  rw [if_neg hlen] at h
  by_cases hmagic2 : ((binaryRead 4 f5).1.map getLE).getD 0 ≠ 0xBBBBBBBB
  · rw [if_pos hmagic2] at h
    exact absurd h (by simp)
  rw [if_neg hmagic2] at h
  simp only [FrameRead.frame.injEq] at h
  obtain ⟨hfr, hrest⟩ := h
  have hpay : fr.payload = payload := by rw [← hfr]
  obtain ⟨e, he, hel⟩ := binaryRead_value_ne_zero 4 f5 (by
    intro h0; rw [h0] at hmagic2; exact hmagic2 (by norm_num))
  rw [hrest] at he
  have h4 : f4 = payload ++ (e ++ rest) := by rw [fileRead_ok _ _ _ _ hr, he]
  have hne4 : f4 ≠ [] := by
    rw [h4]
    intro hnil
    have := congrArg List.length hnil
    simp only [List.length_append, List.length_nil] at this
    omega
  have step3 : ∃ p3, (binaryRead 1 (binaryRead 4 (binaryRead 4 f).2).2).2 = p3 ++ f4 ∧
      p3.length = if ver ≥ 2 then 8 else 0 := by
    by_cases hv : ver ≥ 2
    · simp only [hv, if_true] at hf4 ⊢
      obtain ⟨bs, hbs, hbl⟩ := binaryRead_rest_ne_nil 8 _ (by rw [hf4]; exact hne4)
      rw [hf4] at hbs
      exact ⟨bs, hbs, hbl⟩
    · simp only [hv, if_false] at hf4 ⊢
      exact ⟨[], by rw [hf4]; rfl, rfl⟩
  obtain ⟨p3, hp3, hp3l⟩ := step3
  have hne3 : (binaryRead 1 (binaryRead 4 (binaryRead 4 f).2).2).2 ≠ [] := by
    rw [hp3]
    intro hnil
    exact hne4 (List.append_eq_nil.mp hnil).2
  obtain ⟨p2, hp2, hp2l⟩ := binaryRead_rest_ne_nil 1 _ hne3
  have hne2 : (binaryRead 4 (binaryRead 4 f).2).2 ≠ [] := by
    rw [hp2]
    intro hnil
    exact hne3 (List.append_eq_nil.mp hnil).2
  obtain ⟨p1, hp1, hp1l⟩ := binaryRead_rest_ne_nil 4 _ hne2
  have hne1 : (binaryRead 4 f).2 ≠ [] := by
    rw [hp1]
    intro hnil
    exact hne2 (List.append_eq_nil.mp hnil).2
  obtain ⟨p0, hp0, hp0l⟩ := binaryRead_rest_ne_nil 4 _ hne1
  refine ⟨p0 ++ (p1 ++ (p2 ++ (p3 ++ (payload ++ e)))), ?_, ?_⟩
  · rw [hp0, hp1, hp2, hp3, h4]
    simp only [List.append_assoc]
  · simp only [List.length_append, hp0l, hp1l, hp2l, hp3l, hel, hpay]
    split_ifs <;> omega

section Termination
variable {σ P E : Type} (dec : Decoder σ P E) (hs : List Handler)

theorem readFrame_shorter (ver : Int) (i : Nat) (f rest : List Byte) (fr : Frame)
    (h : readFrame ver i f = .frame fr rest) :
    rest.length + (if ver ≥ 2 then 21 else 13) ≤ f.length := by
  obtain ⟨pre, hf, hl⟩ := readFrame_advance ver i f rest fr h
  rw [hf, List.length_append, hl]
  omega

/-- With a bound above the number of frames the file has room for, the loop
ends before the bound does. -/
theorem frameLoop_finishes (ver : Int) (fuel i : Nat) (f : List Byte) (st : ReplayState σ P)
    (hfuel : f.length < fuel * (if ver ≥ 2 then 21 else 13)) :
    (frameLoop dec hs ver fuel i f st).outcome ≠ .unfinished := by
  induction fuel generalizing i f st with
  | zero => simp at hfuel
  | succ n ih =>
    rw [frameLoop]
    by_cases hf : f = []
    · simp only [hf, if_true, finish]
      intro h; cases h
    · simp only [hf, if_false]
      cases hr : readFrame ver (i + 1) f with
      | wrongMagic => intro h; cases h
      | readError => simp only [finish]; intro h; cases h
      | truncated => intro h; cases h
      | wrongMagic2 => intro h; cases h
      | frame fr rest =>
        have hlt : rest.length < n * (if ver ≥ 2 then 21 else 13) := by
          have := readFrame_shorter ver (i + 1) f rest fr hr
          rw [Nat.succ_mul] at hfuel
          omega
        dsimp only
        rcases hd : dec.decodeFrame st.conn fr.payload with ⟨conn, _ | _ | pks⟩
        · intro h; cases h
        · exact ih _ _ _ hlt
        · exact ih _ _ _ hlt

/-- The result of the loop does not depend on the bound, once the bound is
above the number of frames the file has room for. -/
theorem frameLoop_bound_irrelevant (ver : Int) (fuel fuel' i : Nat) (f : List Byte)
    (st : ReplayState σ P) (hfuel : f.length < fuel * (if ver ≥ 2 then 21 else 13))
    (hfuel' : f.length < fuel' * (if ver ≥ 2 then 21 else 13)) :
    frameLoop dec hs ver fuel i f st = frameLoop dec hs ver fuel' i f st := by
  induction fuel generalizing fuel' i f st with
  | zero => simp at hfuel
  | succ n ih =>
    cases fuel' with
    | zero => simp at hfuel'
    | succ n' =>
      rw [frameLoop, frameLoop]
      by_cases hf : f = []
      · simp only [hf, if_true]
      · simp only [hf, if_false]
        cases hr : readFrame ver (i + 1) f with
        | wrongMagic => rfl
        | readError => rfl
        | truncated => rfl
        | wrongMagic2 => rfl
        | frame fr rest =>
          have hsh := readFrame_shorter ver (i + 1) f rest fr hr
          have hlt : rest.length < n * (if ver ≥ 2 then 21 else 13) := by
            rw [Nat.succ_mul] at hfuel
            omega
          have hlt' : rest.length < n' * (if ver ≥ 2 then 21 else 13) := by
            rw [Nat.succ_mul] at hfuel'
            omega
          dsimp only
          rcases hd : dec.decodeFrame st.conn fr.payload with ⟨conn, _ | _ | pks⟩
          · rfl
          · exact ih _ _ _ _ hlt hlt'
          · exact ih _ _ _ _ hlt hlt'

/-- The frames the loop accepts fit in the file: each takes its overhead. -/
theorem frameLoop_frames_le (ver : Int) (fuel i : Nat) (f : List Byte) (st : ReplayState σ P) :
    (frameLoop dec hs ver fuel i f st).state.frames.length * (if ver ≥ 2 then 21 else 13)
      ≤ st.frames.length * (if ver ≥ 2 then 21 else 13) + f.length := by
  induction fuel generalizing i f st with
  | zero => exact Nat.le_add_right _ _
  | succ n ih =>
    rw [frameLoop]
    by_cases hf : f = []
    · simp only [hf, if_true, finish]
      exact Nat.le_add_right _ _
    · simp only [hf, if_false]
      cases hr : readFrame ver (i + 1) f with
      | wrongMagic => exact Nat.le_add_right _ _
      | readError => exact Nat.le_add_right _ _
      | truncated => exact Nat.le_add_right _ _
      | wrongMagic2 => exact Nat.le_add_right _ _
      | frame fr rest =>
        have hsh := readFrame_shorter ver (i + 1) f rest fr hr
        dsimp only
        rcases hd : dec.decodeFrame st.conn fr.payload with ⟨conn, _ | _ | pks⟩
        · dsimp only
          rw [List.length_append, List.length_singleton, Nat.add_mul]
          omega
        · refine le_trans (ih _ _ _) ?_
          dsimp only
          rw [List.length_append, List.length_singleton, Nat.add_mul]
          omega
        · refine le_trans (ih _ _ _) ?_
          rw [foldl_dispatchPacket_frames]
          dsimp only
          rw [List.length_append, List.length_singleton, Nat.add_mul]
          omega

theorem binaryRead_rest_le (n : Nat) (f : List Byte) : (binaryRead n f).2.length ≤ f.length := by
  unfold binaryRead
  split_ifs
  · simp
  · simp

/-- C24. For every file, whatever its bytes, the run of
`createReplayConnection` ends with a return: the bound of the loop of the
embedding is never reached, and any bound above the number of frames the file
has room for gives the same run. A pass of the loop body that does not leave
the loop took a whole frame from the front of the file, 13 bytes and the
payload before version 2 and 21 bytes and the payload from version 2 on, so
the frames read, times that overhead, fit in the bytes the loop started
with, and the frames of a run, times 13, fit in the file. -/
theorem frame_loop_terminates (conn : σ) (file : List Byte) :
    (createReplayConnection dec hs conn file).outcome ≠ .unfinished ∧
      (createReplayConnection dec hs conn file).state.frames.length * 13 ≤ file.length ∧
      (∀ (ver : Int) (i : Nat) (f rest : List Byte) (fr : Frame),
        readFrame ver i f = .frame fr rest →
          ∃ pre, f = pre ++ rest ∧
            pre.length = (if ver ≥ 2 then 21 else 13) + fr.payload.length) ∧
      (∀ (ver : Int) (fuel i : Nat) (f : List Byte) (st : ReplayState σ P),
        f.length < fuel * (if ver ≥ 2 then 21 else 13) →
          frameLoop dec hs ver fuel i f st = frameLoop dec hs ver (f.length + 1) i f st ∧
          (frameLoop dec hs ver fuel i f st).outcome ≠ .unfinished) ∧
      (∀ (ver : Int) (fuel i : Nat) (f : List Byte) (st : ReplayState σ P),
        (frameLoop dec hs ver fuel i f st).state.frames.length * (if ver ≥ 2 then 21 else 13)
          ≤ st.frames.length * (if ver ≥ 2 then 21 else 13) + f.length) := by
  have hbound : ∀ (ver : Int) (n : Nat), n < (n + 1) * (if ver ≥ 2 then 21 else 13) := by
    intro ver n
    split_ifs <;> omega
  have hrun : ∀ (ver : Int) (rest : List Byte), rest.length ≤ file.length →
      (frameLoop dec hs ver (file.length + 1) 0 rest (initialState conn) :
          ReplayResult σ P E).outcome ≠ .unfinished ∧
        (frameLoop dec hs ver (file.length + 1) 0 rest (initialState conn) :
          ReplayResult σ P E).state.frames.length * 13 ≤ file.length := by
    intro ver rest hle
    constructor
    · apply frameLoop_finishes
      have := hbound ver file.length
      omega
    · have h := frameLoop_frames_le dec hs ver (file.length + 1) 0 rest (initialState conn)
      have h0 : (initialState conn : ReplayState σ P).frames.length = 0 := rfl
      rw [h0, Nat.zero_mul, Nat.zero_add] at h
      have h13 : (frameLoop dec hs ver (file.length + 1) 0 rest (initialState conn) :
            ReplayResult σ P E).state.frames.length * 13
          ≤ (frameLoop dec hs ver (file.length + 1) 0 rest (initialState conn) :
            ReplayResult σ P E).state.frames.length * (if ver ≥ 2 then 21 else 13) := by
        apply Nat.mul_le_mul_left
        split_ifs <;> omega
      omega
  have hmain : (createReplayConnection dec hs conn file).outcome ≠ .unfinished ∧
      (createReplayConnection dec hs conn file).state.frames.length * 13 ≤ file.length := by
    unfold createReplayConnection
    dsimp only
    split_ifs with hm h4
    · have hle : (binaryRead 4 (file.drop 4)).2.length ≤ file.length :=
        le_trans (binaryRead_rest_le 4 _) (by simp)
      rcases hb : binaryRead 4 (file.drop 4) with ⟨_ | hdr, rest⟩
      · exact ⟨(by intro h; cases h), Nat.zero_le _⟩
      · rw [hb] at hle
        exact hrun _ rest hle
    · exact hrun 1 file (le_refl _)
    · exact hrun 1 _ (by simp)
  refine ⟨hmain.1, hmain.2, ?_, ?_, ?_⟩
  · intro ver i f rest fr h
    exact readFrame_advance ver i f rest fr h
  · intro ver fuel i f st hfuel
    exact ⟨frameLoop_bound_irrelevant dec hs ver fuel (f.length + 1) i f st hfuel
      (hbound ver f.length), frameLoop_finishes dec hs ver fuel i f st hfuel⟩
  · intro ver fuel i f st
    exact frameLoop_frames_le dec hs ver fuel i f st

end Termination

/-! ## Theorems: payloads longer than one read -/

theorem exampleHugePayload_length : exampleHugePayload.length = maxRW + 1 := by
  unfold exampleHugePayload
  exact List.length_replicate _ _

theorem exampleHugeCapture_fits :
    exampleHugeCapture.fits ∧ maxRW < exampleHugeCapture.payload.length := by
  have h : exampleHugeCapture.payload.length = maxRW + 1 := exampleHugePayload_length
  unfold Capture.fits
  rw [h]
  refine ⟨⟨?_, ?_, ?_⟩, Nat.lt_succ_self _⟩
  · unfold maxRW; norm_num
  · show -2 ^ 63 ≤ (5 : Int); norm_num
  · show (5 : Int) < 2 ^ 63; norm_num

/-- A frame whose payload is longer than one `Read` call takes: `f.Read`
returns fewer bytes than the header declares, and the loop body reports a
truncated frame, whatever follows the payload. -/
theorem readFrame_oversized (ver : Int) (i : Nat) (c : Capture) (tail : List Byte)
    (hc : c.fits) (hbig : maxRW < c.payload.length) :
    readFrame ver i (frameStart ver c ++ tail) = .truncated := by
  rw [frameStart_append, readFrame_header ver i _ _ (putLE 8 (ofSigned 64 c.timeMs)) _ _
    (putLE_length _ _) getLE_startSentinel (putLE_length _ _) (putLE_length _ _),
    getLE_length_field c hc]
  have hlen : c.payload.length ≠ 0 := by omega
  have hnil : c.payload ++ tail ≠ [] := by
    intro h
    have := congrArg List.length h
    simp only [List.length_append, List.length_nil] at this
    omega
  have hne : ((c.payload ++ tail).take (min c.payload.length maxRW)).length
      ≠ c.payload.length := by
    simp only [List.length_take, List.length_append]; omega
  simp only [fileRead, hlen, hnil, if_false, hne, ne_eq, not_false_eq_true, if_true]

section Oversized
variable {σ P E : Type} (dec : Decoder σ P E) (hs : List Handler)

/-- After whole frames that parse, a whole frame whose payload is longer than
one `Read` call takes makes `createReplayConnection` return the error
"truncated N", N the number of that frame, whatever follows its payload:
its end sentinel, another sentinel, or more frames. -/
theorem oversized_payload_is_truncated (conn : σ) (ver : Int) (hv1 : 1 ≤ ver)
    (hv2 : ver < 2 ^ 31) (cs : List Capture) (c : Capture) (tail : List Byte)
    (hfit : ∀ x ∈ cs, x.fits) (hc : c.fits) (hread : ∀ x ∈ cs, x.payload.length ≤ maxRW)
    (hparse : ∀ x ∈ cs, ∀ s e, (dec.decodeFrame s x.payload).2 ≠ .parseError e)
    (hbig : maxRW < c.payload.length) :
    (createReplayConnection dec hs conn
        (replayFile ver (writeFrames ver cs ++ (frameStart ver c ++ tail)))).outcome
        = .ret (some (.truncated (cs.length + 1))) ∧
      (createReplayConnection dec hs conn
        (replayFile ver (writeFrames ver cs ++ (frameStart ver c ++ tail)))).state.frames
        = framesOf ver 0 cs := by
  obtain ⟨st', hf, hrun⟩ :=
    createReplayConnection_frames dec hs conn ver hv1 hv2 cs hfit hread hparse
  obtain ⟨fuel, hr⟩ := hrun (frameStart ver c ++ tail) (Or.inr (frameStart_starts ver c tail))
  rw [hr, frameLoop_truncated dec hs ver fuel _ _ st' (frameStart_ne_nil _ _ _)
    (readFrame_oversized ver _ c tail hc hbig)]
  exact ⟨rfl, hf⟩

end Oversized

/-- C1 at the failing input: the header of `WriteReplayHeader` followed by one
frame, laid out as the write path does, whose payload of 2^30 + 1 bytes fits
the 4-byte length field. The read does not end without error and does not
give the frame back: the run returns "truncated 1" and has read no frame. -/
theorem round_trip_fails_above_one_read :
    exampleHugeCapture.fits ∧ exampleHugeCapture.payload.length = 2 ^ 30 + 1 ∧
      (createReplayConnection exampleDecoder exampleHandlers ()
        (WriteReplayHeader ++ writeFrames 2 [exampleHugeCapture])).outcome
        = .ret (some (.truncated 1)) ∧
      (createReplayConnection exampleDecoder exampleHandlers ()
        (WriteReplayHeader ++ writeFrames 2 [exampleHugeCapture])).state.frames = [] := by
  have h := oversized_payload_is_truncated exampleDecoder exampleHandlers () 2 (by norm_num)
    (by norm_num) [] exampleHugeCapture (putLE 4 0xBBBBBBBB) (by simp) exampleHugeCapture_fits.1
    (by simp) (by simp) exampleHugeCapture_fits.2
  have e : WriteReplayHeader ++ writeFrames 2 [exampleHugeCapture]
      = replayFile 2 (writeFrames 2 [] ++
          (frameStart 2 exampleHugeCapture ++ putLE 4 0xBBBBBBBB)) := by
    simp only [writeFrames, writeFrame, replayFile, WriteReplayHeader_eq, List.nil_append,
      List.append_nil, List.append_assoc, ge_iff_le, le_refl, if_true]
  rw [e]
  exact ⟨exampleHugeCapture_fits.1, exampleHugePayload_length, h.1, h.2⟩

/-- C3 at the failing input: a version 2 file whose first frame has a payload
of 2^30 + 1 bytes followed by four bytes that are not the end sentinel. The
run returns "truncated 1", not "wrong Magic2". -/
theorem wrong_end_sentinel_unseen_above_one_read :
    exampleHugeCapture.payload.length = 2 ^ 30 + 1 ∧
      ([0xBB, 0xBB, 0xBB, 0xBA] : List Byte) ≠ putLE 4 0xBBBBBBBB ∧
      (createReplayConnection exampleDecoder exampleHandlers ()
        (replayFile 2 (frameStart 2 exampleHugeCapture ++ [0xBB, 0xBB, 0xBB, 0xBA]))).outcome
        = .ret (some (.truncated 1)) ∧
      (createReplayConnection exampleDecoder exampleHandlers ()
        (replayFile 2 (frameStart 2 exampleHugeCapture ++ [0xBB, 0xBB, 0xBB, 0xBA]))).outcome
        ≠ .ret (some .wrongMagic2) := by
  have h := oversized_payload_is_truncated exampleDecoder exampleHandlers () 2 (by norm_num)
    (by norm_num) [] exampleHugeCapture [0xBB, 0xBB, 0xBB, 0xBA] (by simp)
    exampleHugeCapture_fits.1 (by simp) (by simp) exampleHugeCapture_fits.2
  have e : replayFile 2 (frameStart 2 exampleHugeCapture ++ [0xBB, 0xBB, 0xBB, 0xBA])
      = replayFile 2 (writeFrames 2 [] ++
          (frameStart 2 exampleHugeCapture ++ [0xBB, 0xBB, 0xBB, 0xBA])) := by
    simp only [writeFrames, List.nil_append]
  rw [e, h.1]
  refine ⟨exampleHugePayload_length, by decide, rfl, ?_⟩
  intro hne
  cases hne

/-! ## Theorems: the zoom level between the two writes of `ChangeZoom` -/

/-- The method `ChangeZoom` is its two writes in sequence, then `SchedRedraw`. -/
theorem ChangeZoom_eq_writes {Img : Type} (m : MapUI Img) :
    m.ChangeZoom = m.halveZoom.wrapZoom.SchedRedraw := by
  unfold MapUI.ChangeZoom MapUI.halveZoom MapUI.wrapZoom
  dsimp only
  split_ifs <;> rfl

/-- C16 at the failing schedule. After four `ChangeZoom` calls on a new map
the zoom level is 1. The fifth call is its two writes in sequence; the first
leaves the zoom level 0 in the field, the second sets 16. On the map as the
first write leaves it, line 237 of `Redraw`, `128 / m.zoomLevel`, divides by
zero: the zoom level is 0 in a state that `Redraw` can see. -/
theorem zoom_level_zero_between_writes :
    (MapUI.ChangeZoom^[4] (NewMapUI : MapUI Nat)).zoomLevel = 1 ∧
      (MapUI.ChangeZoom^[4] (NewMapUI : MapUI Nat)).ChangeZoom
        = (MapUI.ChangeZoom^[4] (NewMapUI : MapUI Nat)).halveZoom.wrapZoom.SchedRedraw ∧
      (MapUI.ChangeZoom^[4] (NewMapUI : MapUI Nat)).halveZoom.zoomLevel = 0 ∧
      chunksPerLine (MapUI.ChangeZoom^[4] (NewMapUI : MapUI Nat)).halveZoom.zoomLevel = none ∧
      (MapUI.ChangeZoom^[4] (NewMapUI : MapUI Nat)).halveZoom.wrapZoom.zoomLevel = 16 := by
  refine ⟨by decide, ChangeZoom_eq_writes _, by decide, ?_, by decide⟩
  have h : (MapUI.ChangeZoom^[4] (NewMapUI : MapUI Nat)).halveZoom.zoomLevel = 0 := by decide
  rw [h]
  rfl

/-! ## Theorems: the session callbacks against their specification -/

section SessionSpec
variable {σ P E : Type} (dec : Decoder σ P E) (hs : List Handler)

theorem filterMap_enumFrom_eq (has : Handler → Bool) (cb : Nat → Event P) (l : List Handler)
    (i : Nat) :
    (l.enumFrom i).filterMap (fun ih => if has ih.2 then some (cb ih.1) else none)
      = (handlersWithFrom has i l).map cb := by
  induction l generalizing i with
  | nil => rfl
  | cons h l ih =>
    rw [List.enumFrom_cons, handlersWithFrom]
    by_cases hh : has h = true
    · simp only [List.filterMap_cons, hh, if_true, List.map_cons, ih]
    · simp only [List.filterMap_cons, hh, if_false, ih]
      rfl

theorem callHandlers_eq_map (has : Handler → Bool) (cb : Nat → Event P) :
    callHandlers hs has cb = (handlersWithFrom has 0 hs).map cb := by
  unfold callHandlers
  exact filterMap_enumFrom_eq has cb hs 0

theorem specSessionCalls_started (pks : List (P × Bool × Time)) :
    specSessionCalls dec.isStartGame hs true pks
      = pks.flatMap (fun p =>
          callHandlers hs (·.PacketCB) (fun h => .packetCB h p.1 p.2.1 p.2.2)) := by
  induction pks with
  | nil => rfl
  | cons p ps ih =>
    rw [specSessionCalls, List.flatMap_cons, ih, callHandlers_eq_map]

theorem expectedSessionCalls_eq_spec (pks : List (P × Bool × Time)) :
    expectedSessionCalls dec hs pks = specSessionCalls dec.isStartGame hs false pks := by
  induction pks with
  | nil => rfl
  | cons p ps ih =>
    rw [specSessionCalls]
    by_cases hp : dec.isStartGame p.1 = true
    · rw [if_pos hp, specSessionCalls_started, ← callHandlers_eq_map]
      unfold expectedSessionCalls
      simp [List.dropWhile, hp]
    · rw [if_neg hp, ← ih]
      unfold expectedSessionCalls
      simp [List.dropWhile, hp]

theorem dispatchPacket_step (toServer : Bool) (t : Time) (st : ReplayState σ P) (pk : P) :
    (dispatchPacket dec hs toServer t st pk).packets = st.packets ++ [(pk, toServer, t)] ∧
      (dispatchPacket dec hs toServer t st pk).conn
        = (specConnAfter dec st.conn st.gameStarted [pk]).1 ∧
      (dispatchPacket dec hs toServer t st pk).gameStarted
        = (specConnAfter dec st.conn st.gameStarted [pk]).2 := by
  unfold dispatchPacket
  dsimp only
  rcases hg : st.gameStarted with _ | _
  · by_cases hp : dec.isStartGame pk = true
    · simp [specConnAfter, hp]
    · simp [specConnAfter, hp, hg]
  · simp [specConnAfter]

theorem specConnAfter_cons (conn : σ) (started : Bool) (pk : P) (pks : List P) :
    specConnAfter dec conn started (pk :: pks)
      = specConnAfter dec (specConnAfter dec conn started [pk]).1
          (specConnAfter dec conn started [pk]).2 pks := by
  rcases started with _ | _
  · by_cases hp : dec.isStartGame pk = true
    · simp [specConnAfter, hp]
    · simp [specConnAfter, hp]
  · cases pks <;> simp [specConnAfter]

theorem foldl_dispatchPacket_spec (toServer : Bool) (t : Time) (pks : List P)
    (st : ReplayState σ P) :
    (pks.foldl (dispatchPacket dec hs toServer t) st).packets
        = st.packets ++ pks.map (fun pk => (pk, toServer, t)) ∧
      (pks.foldl (dispatchPacket dec hs toServer t) st).conn
        = (specConnAfter dec st.conn st.gameStarted pks).1 ∧
      (pks.foldl (dispatchPacket dec hs toServer t) st).gameStarted
        = (specConnAfter dec st.conn st.gameStarted pks).2 := by
  induction pks generalizing st with
  | nil =>
    refine ⟨by simp, ?_, ?_⟩
    · show st.conn = _
      generalize st.gameStarted = g
      cases g <;> rfl
    · show st.gameStarted = _
      generalize st.gameStarted = g
      cases g <;> rfl
  | cons pk pks ih =>
    obtain ⟨h1, h2, h3⟩ := ih (dispatchPacket dec hs toServer t st pk)
    obtain ⟨d1, d2, d3⟩ := dispatchPacket_step dec hs toServer t st pk
    refine ⟨?_, ?_, ?_⟩
    · rw [List.foldl_cons, h1, d1, List.map_cons, List.append_assoc, List.singleton_append]
    · rw [List.foldl_cons, h2, d2, d3]
      exact (congrArg Prod.fst (specConnAfter_cons dec st.conn st.gameStarted pk pks)).symm
    · rw [List.foldl_cons, h3, d2, d3]
      exact (congrArg Prod.snd (specConnAfter_cons dec st.conn st.gameStarted pk pks)).symm

/-- The invariant of the frame loop that ties the packets it has visited to
the frames it has read: whatever frames follow, the packets decoded from all
frames are the packets visited so far followed by those of the frames that
follow, decoded from the present state of the connection. -/
theorem frameLoop_packets (conn0 : σ) (ver : Int) (fuel i : Nat) (f : List Byte)
    (st : ReplayState σ P)
    (h : ∀ rest, specDecodedPackets dec conn0 false (st.frames ++ rest)
      = st.packets ++ specDecodedPackets dec st.conn st.gameStarted rest) :
    (frameLoop dec hs ver fuel i f st : ReplayResult σ P E).state.packets
      = specDecodedPackets dec conn0 false
          (frameLoop dec hs ver fuel i f st : ReplayResult σ P E).state.frames := by
  have hst : st.packets = specDecodedPackets dec conn0 false st.frames := by
    have := h []
    rw [List.append_nil] at this
    rw [this, specDecodedPackets, List.append_nil]
  induction fuel generalizing i f st with
  | zero => exact hst
  | succ n ih =>
    rw [frameLoop]
    by_cases hf : f = []
    · simp only [hf, if_true]; exact hst
    · simp only [hf, if_false]
      cases hr : readFrame ver (i + 1) f with
      | wrongMagic => exact hst
      | readError => exact hst
      | truncated => exact hst
      | wrongMagic2 => exact hst
      | frame fr rest =>
        dsimp only
        have hfr := h [fr]
        rcases hd : dec.decodeFrame st.conn fr.payload with ⟨conn, e | _ | pks⟩
        · dsimp only
          rw [hfr, specDecodedPackets, hd]
          simp
        · dsimp only
          apply ih
          · intro rest'
            have := h (fr :: rest')
            rw [specDecodedPackets, hd] at this
            dsimp only at this ⊢
            rw [List.append_assoc, List.singleton_append, this]
          · dsimp only
            rw [hfr, specDecodedPackets, hd]
            simp [specDecodedPackets]
        · dsimp only
          obtain ⟨p1, p2, p3⟩ := foldl_dispatchPacket_spec dec hs fr.toServer fr.timeReceived pks
            ({ st with frames := st.frames ++ [fr], conn := conn } : ReplayState σ P)
          have hfrm := foldl_dispatchPacket_frames dec hs fr.toServer fr.timeReceived pks
            ({ st with frames := st.frames ++ [fr], conn := conn } : ReplayState σ P)
          have hinv : ∀ rest', specDecodedPackets dec conn0 false
              ((pks.foldl (dispatchPacket dec hs fr.toServer fr.timeReceived)
                ({ st with frames := st.frames ++ [fr], conn := conn } :
                  ReplayState σ P)).frames ++ rest')
              = (pks.foldl (dispatchPacket dec hs fr.toServer fr.timeReceived)
                ({ st with frames := st.frames ++ [fr], conn := conn } :
                  ReplayState σ P)).packets ++
                specDecodedPackets dec
                  (pks.foldl (dispatchPacket dec hs fr.toServer fr.timeReceived)
                    ({ st with frames := st.frames ++ [fr], conn := conn } :
                      ReplayState σ P)).conn
                  (pks.foldl (dispatchPacket dec hs fr.toServer fr.timeReceived)
                    ({ st with frames := st.frames ++ [fr], conn := conn } :
                      ReplayState σ P)).gameStarted rest' := by
            intro rest'
            have := h (fr :: rest')
            rw [specDecodedPackets, hd] at this
            dsimp only at this
            rw [hfrm, p1, p2, p3]
            dsimp only
            rw [List.append_assoc, List.singleton_append, this, List.append_assoc]
          apply ih _ _ _ hinv
          have := hinv []
          rw [List.append_nil] at this
          rw [this, specDecodedPackets, List.append_nil]

theorem createReplayConnection_packets (conn : σ) (file : List Byte) :
    (createReplayConnection dec hs conn file).state.packets
      = specDecodedPackets dec conn false (createReplayConnection dec hs conn file).state.frames := by
  have h0 : ∀ rest, specDecodedPackets dec conn false
      ((initialState conn : ReplayState σ P).frames ++ rest)
      = (initialState conn : ReplayState σ P).packets ++
        specDecodedPackets dec (initialState conn : ReplayState σ P).conn
          (initialState conn : ReplayState σ P).gameStarted rest := fun _ => rfl
  unfold createReplayConnection
  dsimp only
  split_ifs
  · rcases binaryRead 4 (file.drop 4) with ⟨_ | hdr, rest⟩
    · rfl
    · exact frameLoop_packets dec hs conn _ _ _ _ _ h0
  · exact frameLoop_packets dec hs conn _ _ _ _ _ h0
  · exact frameLoop_packets dec hs conn _ _ _ _ _ h0

/-- C5. For every replay file, the calls of `ConnectCB` and `PacketCB` made
during the run are the specified ones for the packets that `ParseData` and
`Decode` give for the frames read, frame by frame and in order: no `PacketCB`
call for a packet up to and including the first StartGame packet; one
`ConnectCB(nil)` call for each handler that has the callback, at the first
StartGame packet and so before every `PacketCB` call; then, for every packet
decoded after it (a later StartGame too), one `PacketCB` call for each
handler that has the callback, with the direction flag and the time of the
frame the packet was decoded from. The packets the loop visited are exactly
those decoded packets. For the header of `WriteReplayHeader` followed by
written frames that the reader takes, the frames read are the written ones,
so the calls are the specified ones for the packets of the written
payloads, with the written direction flags and timestamps. -/
theorem session_callbacks_follow_first_start_game (conn : σ) (file : List Byte) :
    (createReplayConnection dec hs conn file).state.trace.filter Event.isSessionCB
        = specSessionCalls dec.isStartGame hs false
            (specDecodedPackets dec conn false
              (createReplayConnection dec hs conn file).state.frames) ∧
      (createReplayConnection dec hs conn file).state.packets
        = specDecodedPackets dec conn false
            (createReplayConnection dec hs conn file).state.frames ∧
      (∀ cs : List Capture, (∀ c ∈ cs, c.fits) → (∀ c ∈ cs, c.payload.length ≤ maxRW) →
        (∀ c ∈ cs, ∀ s e, (dec.decodeFrame s c.payload).2 ≠ .parseError e) →
        (createReplayConnection dec hs conn
            (WriteReplayHeader ++ writeFrames 2 cs)).state.trace.filter Event.isSessionCB
          = specSessionCalls dec.isStartGame hs false
              (specDecodedPackets dec conn false
                (cs.map (fun c => ⟨c.payload, c.toServer, .unixMilli c.timeMs⟩)))) := by
  have key : ∀ file : List Byte,
      (createReplayConnection dec hs conn file).state.trace.filter Event.isSessionCB
        = specSessionCalls dec.isStartGame hs false
            (specDecodedPackets dec conn false
              (createReplayConnection dec hs conn file).state.frames) := by
    intro file
    rw [(createReplayConnection_coherent dec hs conn file).2.1, expectedSessionCalls_eq_spec,
      createReplayConnection_packets]
  refine ⟨key file, createReplayConnection_packets dec hs conn file, ?_⟩
  intro cs hfit hread hparse
  rw [key, (replay_round_trip dec hs conn cs hfit hread hparse).2.1]

end SessionSpec

/-- C5, an instance: the three example captures, whose payload bytes are the
packets 0, 1, 2 of the first frame and 7 of the third, packet 1 being
StartGame; the first handler has every callback and the second `PacketCB`
only. -/
theorem session_callbacks_follow_first_start_game_witness :
    (createReplayConnection exampleDecoder exampleHandlers ()
        (WriteReplayHeader ++ writeFrames 2 exampleCaptures)).state.trace.filter Event.isSessionCB
      = [.connectCB 0, .packetCB 0 2 true (.unixMilli 5), .packetCB 1 2 true (.unixMilli 5),
          .packetCB 0 7 false (.unixMilli 1234567890123),
          .packetCB 1 7 false (.unixMilli 1234567890123)] :=
  ((session_callbacks_follow_first_start_game exampleDecoder exampleHandlers () []).2.2
    exampleCaptures (by decide) (by decide)
    (by intro c _ s e h; simp [exampleDecoder] at h)).trans (by decide)

/-! ## Theorems: block metadata with maps as objects -/

theorem foldl_max_ge (l : List (Sigma (fun _ : ChunkPos => Ref))) (n : Nat) :
    n ≤ l.foldl (fun n e => max n e.2) n ∧
      ∀ e ∈ l, e.2 ≤ l.foldl (fun n e => max n e.2) n := by
  induction l generalizing n with
  | nil => exact ⟨le_refl _, fun e he => by cases he⟩
  | cons a l ih =>
    obtain ⟨h1, h2⟩ := ih (max n a.2)
    rw [List.foldl_cons]
    refine ⟨le_trans (le_max_left _ _) h1, fun e he => ?_⟩
    rcases List.mem_cons.mp he with rfl | he
    · exact le_trans (le_max_right _ _) h1
    · exact h2 e he

/-- The address taken for a new inner map is held by no chunk position. -/
theorem lt_freshRef (w : blockNBTMem) (cp : ChunkPos) (r : Ref)
    (h : w.blockNBTs.lookup cp = some r) : r < w.freshRef := by
  have hmem : (⟨cp, r⟩ : Sigma (fun _ : ChunkPos => Ref)) ∈ w.blockNBTs.entries :=
    AList.mem_lookup_iff.mp (by rw [h]; rfl)
  have := (foldl_max_ge w.blockNBTs.entries 0).2 _ hmem
  unfold blockNBTMem.freshRef
  exact Nat.lt_succ_of_le this

/-- Lines 114-118 leave the inner map of the chunk in the outer map, change no
property map, and change no blob. -/
theorem chunkMapFor_spec (w : blockNBTMem) (cp : ChunkPos) :
    (w.chunkMapFor cp).1.blockNBTs.lookup cp = some (w.chunkMapFor cp).2 ∧
      (w.chunkMapFor cp).1.props = w.props ∧
      ∀ cp' pos', (w.chunkMapFor cp).1.refAt cp' pos' = w.refAt cp' pos' := by
  unfold blockNBTMem.chunkMapFor
  rcases hl : w.blockNBTs.lookup cp with _ | r
  · refine ⟨AList.lookup_insert _, rfl, fun cp' pos' => ?_⟩
    unfold blockNBTMem.refAt
    dsimp only
    by_cases hcp : cp' = cp
    · subst hcp
      rw [AList.lookup_insert, hl]
      simp [Function.update_same]
    · rw [AList.lookup_insert_ne hcp]
      rcases hl' : w.blockNBTs.lookup cp' with _ | r'
      · rfl
      · have hne : r' ≠ w.freshRef := Nat.ne_of_lt (lt_freshRef w cp' r' hl')
        simp [Function.update_noteq hne]
  · exact ⟨hl, rfl, fun _ _ => rfl⟩

/-- The blob as the maps hold it after the assignment of line 134. -/
theorem refAt_storeBlob (w : blockNBTMem) (r : Ref) (pos : Pos) (b : BlobRef) (cp' : ChunkPos)
    (pos' : Pos) :
    (w.storeBlob r pos b).refAt cp' pos'
      = if w.blockNBTs.lookup cp' = some r ∧ pos' = pos then some b else w.refAt cp' pos' := by
  unfold blockNBTMem.refAt blockNBTMem.storeBlob
  dsimp only
  rcases hl : w.blockNBTs.lookup cp' with _ | r'
  · simp
  · by_cases hr : r' = r
    · subst hr
      by_cases hp : pos' = pos
      · subst hp
        simp [Function.update_same, AList.lookup_insert]
      · simp [Function.update_same, AList.lookup_insert_ne hp, hp]
    · have hr' : ¬ (some r' = some r) := fun h => hr (Option.some.inj h)
      simp [Function.update_noteq hr, hr]

theorem refAt_props (w : blockNBTMem) (f : Ref → NBTMap) (cp' : ChunkPos) (pos' : Pos) :
    ({ w with props := f } : blockNBTMem).refAt cp' pos' = w.refAt cp' pos' := rfl

theorem blobFor_eq (w : blockNBTMem) (pos : Pos) (m : Option Ref) :
    (w.chunkMapFor (cubePosInChunk pos).1).1.blobFor (w.chunkMapFor (cubePosInChunk pos).1).2 pos m
      = match w.refAt (cubePosInChunk pos).1 pos with
        | some b => some b
        | none =>
          match (w.deref m).lookup "id" with
          | some (.str id) => some ⟨id, m⟩
          | _ => none := by
  obtain ⟨c1, c2, c3⟩ := chunkMapFor_spec w (cubePosInChunk pos).1
  have hr : ((w.chunkMapFor (cubePosInChunk pos).1).1.chunkMaps
      (w.chunkMapFor (cubePosInChunk pos).1).2).lookup pos = w.refAt (cubePosInChunk pos).1 pos := by
    rw [← c3 (cubePosInChunk pos).1 pos]
    unfold blockNBTMem.refAt
    rw [c1]
    rfl
  have hd : (w.chunkMapFor (cubePosInChunk pos).1).1.deref m = w.deref m := by
    unfold blockNBTMem.deref
    rw [c2]
  unfold blockNBTMem.blobFor
  rw [hr, hd]
  try rfl

/-- The result of `SetBlockNBT` with `merge = true` when the blob it works on
holds a map that is not nil. -/
theorem SetBlockNBT_merge_eq (w : blockNBTMem) (pos : Pos) (m : Option Ref) (b : BlobRef)
    (dst : Ref)
    (hb : (w.chunkMapFor (cubePosInChunk pos).1).1.blobFor
      (w.chunkMapFor (cubePosInChunk pos).1).2 pos m = some b)
    (hd : b.Properties = some dst) :
    SetBlockNBT w pos m true
      = some (({ (w.chunkMapFor (cubePosInChunk pos).1).1 with
          props := Function.update w.props dst (mapsCopy (w.props dst) (w.deref m)) } :
            blockNBTMem).storeBlob (w.chunkMapFor (cubePosInChunk pos).1).2 pos b) := by
  obtain ⟨c1, c2, c3⟩ := chunkMapFor_spec w (cubePosInChunk pos).1
  have hdr : (w.chunkMapFor (cubePosInChunk pos).1).1.deref m = w.deref m := by
    unfold blockNBTMem.deref
    rw [c2]
  unfold SetBlockNBT
  dsimp only
  rw [hb]
  dsimp only
  rw [if_pos rfl, hd, hdr]
  unfold blockNBTMem.copyInto
  dsimp only
  rw [c2]
  rfl

/-- C13, amended. With `merge = true`, when the position `p` holds a blob
whose property map is not nil, or holds no blob and `m` has a string "id",
`SetBlockNBT` returns, and the blob a reader finds at `p` in the inner map of
the chunk (`int32(p.x >> 4)`, `int32(p.z >> 4)`) has at every key the value
of `m` where `m` has the key, else the value the previous blob had there, and
no other key. The blob at another place, one that is not the same position
of the same inner map, is as before when it does not hold the map object
that the blob at `p` holds; a blob that holds that object shows the merged
entries as well. -/
theorem SetBlockNBT_merge_keeps_and_overwrites (w : blockNBTMem) (pos : Pos) (m : Option Ref)
    (h : (∃ b dst, w.refAt (cubePosInChunk pos).1 pos = some b ∧ b.Properties = some dst) ∨
      (w.refAt (cubePosInChunk pos).1 pos = none ∧
        ∃ id, (w.deref m).lookup "id" = some (.str id))) :
    (cubePosInChunk pos).1 = (int32 (pos.1 >>> 4), int32 (pos.2.2 >>> 4)) ∧
    ∃ w' b, SetBlockNBT w pos m true = some w' ∧
      w'.blobAt (cubePosInChunk pos).1 pos = some b ∧
      (∀ k, b.Properties.lookup k
        = match (w.deref m).lookup k with
          | some v => some v
          | none =>
            (w.blobAt (cubePosInChunk pos).1 pos).bind (fun old => old.Properties.lookup k)) ∧
      (∀ cp' pos',
        ¬ (w'.blockNBTs.lookup cp' = w'.blockNBTs.lookup (cubePosInChunk pos).1 ∧ pos' = pos) →
        (∀ b0 b1, w.refAt cp' pos' = some b0 →
          w'.refAt (cubePosInChunk pos).1 pos = some b1 → b0.Properties ≠ b1.Properties) →
        w'.blobAt cp' pos' = w.blobAt cp' pos') ∧
      (∀ cp' pos' b0 b1, w'.refAt cp' pos' = some b0 →
        w'.refAt (cubePosInChunk pos).1 pos = some b1 → b0.Properties = b1.Properties →
        w'.deref b0.Properties = b.Properties) := by
  refine ⟨rfl, ?_⟩
  obtain ⟨c1, c2, c3⟩ := chunkMapFor_spec w (cubePosInChunk pos).1
  have hbf := blobFor_eq w pos m
  -- the blob the call works on, and the map object it holds
  have hb : ∃ b dst, (w.chunkMapFor (cubePosInChunk pos).1).1.blobFor
        (w.chunkMapFor (cubePosInChunk pos).1).2 pos m = some b ∧ b.Properties = some dst ∧
      ∀ k, (mapsCopy (w.props dst) (w.deref m)).lookup k
        = match (w.deref m).lookup k with
          | some v => some v
          | none =>
            (w.blobAt (cubePosInChunk pos).1 pos).bind (fun old => old.Properties.lookup k) := by
    rcases h with ⟨b, dst, hb, hd⟩ | ⟨hnone, id, hid⟩
    · refine ⟨b, dst, by rw [hbf, hb], hd, fun k => ?_⟩
      rw [lookup_mapsCopy]
      unfold blockNBTMem.blobAt
      rw [hb]
      generalize (w.deref m).lookup k = x
      cases x with
      | none => simp [hd, blockNBTMem.deref]
      | some v => rfl
    · rcases m with _ | d
      · simp [blockNBTMem.deref] at hid
      · refine ⟨⟨id, some d⟩, d, by rw [hbf, hnone]; simp [hid], rfl, fun k => ?_⟩
        rw [lookup_mapsCopy]
        unfold blockNBTMem.blobAt
        rw [hnone]
        simp only [blockNBTMem.deref, Option.map_none', Option.none_bind]
        rcases (w.props d).lookup k with _ | v <;> rfl
  obtain ⟨b, dst, hb1, hd, hk⟩ := hb
  have hset := SetBlockNBT_merge_eq w pos m b dst hb1 hd
  have href : ∀ cp' pos',
      (({ (w.chunkMapFor (cubePosInChunk pos).1).1 with
          props := Function.update w.props dst (mapsCopy (w.props dst) (w.deref m)) } :
            blockNBTMem).storeBlob (w.chunkMapFor (cubePosInChunk pos).1).2 pos b).refAt cp' pos'
        = if (w.chunkMapFor (cubePosInChunk pos).1).1.blockNBTs.lookup cp'
              = some (w.chunkMapFor (cubePosInChunk pos).1).2 ∧ pos' = pos then some b
          else w.refAt cp' pos' := by
    intro cp' pos'
    rw [refAt_storeBlob, refAt_props, c3]
  have hself := href (cubePosInChunk pos).1 pos
  rw [if_pos ⟨c1, rfl⟩] at hself
  refine ⟨_, ⟨b.Name, mapsCopy (w.props dst) (w.deref m)⟩, hset, ?_, hk, ?_, ?_⟩
  · unfold blockNBTMem.blobAt
    rw [hself]
    simp [hd, blockNBTMem.deref, blockNBTMem.storeBlob, Function.update_same]
  · intro cp' pos' hslot hshare
    have hslot' : ¬ ((w.chunkMapFor (cubePosInChunk pos).1).1.blockNBTs.lookup cp'
        = some (w.chunkMapFor (cubePosInChunk pos).1).2 ∧ pos' = pos) := by
      intro hc
      apply hslot
      refine ⟨?_, hc.2⟩
      show (w.chunkMapFor (cubePosInChunk pos).1).1.blockNBTs.lookup cp'
        = (w.chunkMapFor (cubePosInChunk pos).1).1.blockNBTs.lookup (cubePosInChunk pos).1
      rw [hc.1, c1]
    have hr := href cp' pos'
    rw [if_neg hslot'] at hr
    unfold blockNBTMem.blobAt
    rw [hr]
    rcases hb0 : w.refAt cp' pos' with _ | b0
    · rfl
    · have hne : b0.Properties ≠ some dst := by
        have := hshare b0 b hb0 hself
        rwa [hd] at this
      simp only [Option.map_some', Option.some.injEq, UnknownBlock.mk.injEq, true_and]
      rcases hp : b0.Properties with _ | d0
      · rfl
      · have hd0 : d0 ≠ dst := by
          intro hc
          apply hne
          rw [hp, hc]
        simp [blockNBTMem.deref, blockNBTMem.storeBlob, Function.update_noteq hd0]
  · intro cp' pos' b0 b1 hb0 hb1' hsame
    rw [hself] at hb1'
    cases hb1'
    rw [hsame, hd]
    simp [blockNBTMem.deref, blockNBTMem.storeBlob, Function.update_same]

/-- C13, as the spec words it, fails. Two calls with `merge = false` gave the
same map to the blobs at (1, 2, 3) and (4, 5, 6); the blob at (4, 5, 6) has
no "BurnTime". After the furnace map is merged into the blob at (1, 2, 3),
the blob at (4, 5, 6), another block position, has the "BurnTime" of the
furnace. And for a map without "id" at a position that holds no blob the call
panics, so no blob is stored. -/
theorem SetBlockNBT_merge_changes_blob_sharing_map :
    exampleSharedStore.bind
        (fun w => (w.blobAt (0, 0) (4, 5, 6)).map (fun b => b.Properties.lookup "BurnTime"))
        = some none ∧
      (exampleSharedStore.bind (fun w => SetBlockNBT w (1, 2, 3) (some 1) true)).bind
        (fun w => (w.blobAt (0, 0) (4, 5, 6)).map (fun b => b.Properties.lookup "BurnTime"))
        = some (some (.int32 3)) ∧
      (exampleObjects.deref (some 2)).lookup "id" = none ∧
      (SetBlockNBT exampleObjects (1, 2, 3) (some 2) true).isNone = true := by
  refine ⟨by decide, by decide, by decide, by decide⟩

/-- C13, an instance: the furnace map, the object at address 1, merged into
the chest at (1, 2, 3) gives "id" and "BurnTime" of the furnace and keeps
"Items" of the chest. -/
theorem SetBlockNBT_merge_keeps_and_overwrites_witness :
    ∃ w' b, SetBlockNBT exampleBlobStore (1, 2, 3) (some 1) true = some w' ∧
      w'.blobAt (cubePosInChunk (1, 2, 3)).1 (1, 2, 3) = some b ∧
      b.Properties.lookup "id" = some (.str "Furnace") ∧
      b.Properties.lookup "BurnTime" = some (.int32 3) ∧
      b.Properties.lookup "Items" = some (.int32 7) ∧
      b.Properties.lookup "Lock" = none := by
  obtain ⟨_, w', b, h1, h2, h3, _⟩ :=
    SetBlockNBT_merge_keeps_and_overwrites exampleBlobStore (1, 2, 3) (some 1)
      (Or.inl ⟨⟨"Chest", some 0⟩, 0, by decide, rfl⟩)
  exact ⟨w', b, h1, h2, by rw [h3]; decide, by rw [h3]; decide, by rw [h3]; decide,
    by rw [h3]; decide⟩

/-- With `merge = false`, a position that already holds a blob keeps the name
of that blob and gets the map `m` as its property map. -/
theorem SetBlockNBT_replace_keeps_name (w : blockNBTMem) (pos : Pos) (m : Option Ref)
    (b : BlobRef) (hb : w.refAt (cubePosInChunk pos).1 pos = some b) :
    ∃ w', SetBlockNBT w pos m false = some w' ∧
      w'.refAt (cubePosInChunk pos).1 pos = some ⟨b.Name, m⟩ := by
  obtain ⟨c1, c2, c3⟩ := chunkMapFor_spec w (cubePosInChunk pos).1
  have hbf := blobFor_eq w pos m
  rw [hb] at hbf
  refine ⟨(w.chunkMapFor (cubePosInChunk pos).1).1.storeBlob
    (w.chunkMapFor (cubePosInChunk pos).1).2 pos ⟨b.Name, m⟩, ?_, ?_⟩
  · unfold SetBlockNBT
    dsimp only
    rw [hbf]
    rfl
  · rw [refAt_storeBlob, if_pos ⟨c1, rfl⟩]

/-- C14 at the failing input. The store holds a chest at the block (1, 2, 3);
`SetBlockNBT` with `merge = false` and a map whose "id" is "Furnace" leaves a
blob with the properties of the new map and the name "Chest". -/
theorem SetBlockNBT_replace_leaves_old_name :
    exampleBlobStore.blobAt (cubePosInChunk (1, 2, 3)).1 (1, 2, 3)
        = some ⟨"Chest", ((∅ : NBTMap).insert "id" (.str "Chest")).insert "Items" (.int32 7)⟩ ∧
      (exampleBlobStore.deref (some 1)).lookup "id" = some (.str "Furnace") ∧
      (SetBlockNBT exampleBlobStore (1, 2, 3) (some 1) false).bind
          (fun w => w.blobAt (cubePosInChunk (1, 2, 3)).1 (1, 2, 3))
        = some ⟨"Chest", exampleFurnace⟩ :=
  ⟨rfl, rfl, rfl⟩

end Bedrocktool
